import Mathlib

/-! # ttexplore: a shallow embedding of the symbolic explorator

The development embeds `src/lib/ttexplore.cpp` (class `SymbolicExplorator`).
The explorator drives an external symbolic-execution back-end (Triton).  The
back-end is not part of the repository; the parts of it the explorator calls
are either modelled from the specification (data records, path-constraint
list, assignment tables) or taken as parameters (instruction processing, the
solver, the hook callbacks).  The file system is a parameter too: whether a
directory of the workspace can be created.

Conventions.
* `usize` counters (`nbexec`, `nbsat`, coverage hits, `count`) are natural
  numbers: they are only ever incremented by one per executed step, so the
  64-bit wrap-around is out of reach.
* `ini_ctx` is a pointer.  `Explorator.ini_ctx` holds the pointee between two
  calls of the public methods (`none` is the null pointer); the private
  methods, which the source only calls after the null check of `explore`,
  receive the pointee as an explicit argument `ctx` and return it updated.
* Effects that leave the process (solver queries, file writes, instruction
  fetches, crash messages) and the donelist insertions are recorded, in
  chronological order, in the `trace` field of the explorator.
* The creation of the directories of the workspace is not logged: its
  outcome is read from the file-system parameter, and a failure is the
  exception `initWorklist` throws.
* Loops that need not terminate (`run`, `explore`) take a fuel argument.
-/

namespace TTExplore

/-! ## Back-end data (modelled from the specification) -/

/-- Modelled from the spec: AST expressions of the back-end.  `leaf` stands for
any expression built by the back-end itself (it carries its symbolized flag,
its concrete evaluation and its bit size); the other constructors are the AST
builders the explorator calls (`bv`, `bvtrue`, `equal`, `distinct`, `land`,
`lnot`). -/
inductive Ast where
  | leaf (id : Nat) (symbolized : Bool) (value : Nat) (size : Nat)
  | bv (value : Nat) (size : Nat)
  | bvtrue
  | equal (a b : Ast)
  | distinct (a b : Ast)
  | land (a b : Ast)
  | lnot (a : Ast)
  deriving DecidableEq, Repr

/-- Modelled from the spec: `isSymbolized` of an AST node. -/
def Ast.isSymbolized : Ast → Bool
  | .leaf _ s _ _ => s
  | .bv _ _ => false
  | .bvtrue => false
  | .equal a b => a.isSymbolized || b.isSymbolized
  | .distinct a b => a.isSymbolized || b.isSymbolized
  | .land a b => a.isSymbolized || b.isSymbolized
  | .lnot a => a.isSymbolized

/-- Modelled from the spec: `evaluate` of an AST node (its concrete value). -/
def Ast.evaluate : Ast → Nat
  | .leaf _ _ v _ => v
  | .bv v _ => v
  | .bvtrue => 1
  | .equal a b => if a.evaluate = b.evaluate then 1 else 0
  | .distinct a b => if a.evaluate = b.evaluate then 0 else 1
  | .land a b => if a.evaluate ≠ 0 ∧ b.evaluate ≠ 0 then 1 else 0
  | .lnot a => if a.evaluate = 0 then 1 else 0

/-- Modelled from the spec: `getBitvectorSize` of an AST node. -/
def Ast.getBitvectorSize : Ast → Nat
  | .leaf _ _ _ n => n
  | .bv _ n => n
  | _ => 1

/-- Modelled from the spec: a branch tuple of a path constraint.  The source
reads component 0 (`taken`), component 2 (the target address) and component 3
(the branch predicate); component 1 is the source address of the branch. -/
structure Branch where
  taken : Bool
  srcAddr : Nat
  dstAddr : Nat
  cond : Ast
  deriving DecidableEq, Repr

/-- Modelled from the spec: the `PathConstraint` record of the back-end, with
the four observations the explorator makes of it (`getSourceAddress`,
`isMultipleBranches`, `getBranchConstraints`, `getTakenPredicate`). -/
structure PathConstraint where
  sourceAddress : Nat
  multipleBranches : Bool
  branches : List Branch
  takenPredicate : Ast
  deriving DecidableEq, Repr

/-- Architectures of the back-end (`triton::arch::architecture_e`). -/
inductive Arch where
  | ARCH_INVALID
  | ARCH_AARCH64
  | ARCH_ARM32
  | ARCH_RV32
  | ARCH_RV64
  | ARCH_X86
  | ARCH_X86_64
  deriving DecidableEq, Repr

/-- Modelled from the spec: the concrete CPU state, which the architecture
specific copy of `snapshotContext` clones as a whole: the program counter, the
other registers and the concrete memory (`none` is an undefined byte). -/
structure Cpu where
  pc : Nat
  regs : Nat → Nat
  mem : Nat → Option Nat

/-- Modelled from the spec: the back-end state (`triton::Context`).  `symRegs`
and `symMem` are the symbolic assignment tables (keyed by register id and by
byte address), `symVars` lists the ids of the symbolic variables and
`varValue` gives the concrete value of each variable. -/
structure Context where
  arch : Arch
  cpu : Cpu
  symRegs : List (Nat × Ast)
  symMem : List (Nat × Ast)
  pathConstraints : List PathConstraint
  symVars : List Nat
  varValue : Nat → Nat

/-- A seed: `std::unordered_map<usize, SolverModel>`, as an association list
from variable id to value. -/
abbrev Seed := List (Nat × Nat)

/-- Solver status (`triton::engines::solver::status_e`). -/
inductive Status where
  | UNSAT
  | SAT
  | TIMEOUT
  | OUTOFMEM
  | UNKNOWN
  deriving DecidableEq, Repr

/-- Callback state (`triton::callbacks::cb_state_e`). -/
inductive cb_state_e where
  | CONTINUE
  | BREAK
  | PLT_CONTINUE
  deriving DecidableEq, Repr

/-- Operand of a processed instruction: a memory operand carries its LEA
expression (possibly null), any other operand is of no interest to the
explorator. -/
inductive Operand where
  | mem (leaAst : Option Ast)
  | other
  deriving DecidableEq, Repr

/-- A processed instruction. -/
structure Instruction where
  address : Nat
  opcodes : List Nat
  operands : List Operand
  deriving DecidableEq, Repr

/-- Where a solver query is issued from. -/
inductive Site where
  | init
  | ea
  | branch
  deriving DecidableEq, Repr

/-- Observable effects, logged in chronological order. -/
inductive Event where
  /-- An encoding is inserted into the donelist. -/
  | done (key : List Nat)
  /-- The solver is invoked (`getModel` / `getModels`) for the encoding `key`
  (empty for `initWorklist`) on `formula`, asking for at most `limit` models. -/
  | solve (site : Site) (key : List Nat) (formula : Ast) (limit : Nat)
  /-- Sixteen opcode bytes were read at `pc` and handed to the back-end for
  processing, which reported `fault`. -/
  | fetch (pc : Nat) (fault : Bool)
  /-- The synthetic `ret` of `asmret` was handed to the back-end. -/
  | ret
  /-- The hook registered at `pc` was invoked and returned `state`. -/
  | hook (pc : Nat) (state : cb_state_e)
  /-- A seed was written to `workspace/dir/name`. -/
  | write (dir : String) (name : Nat) (bytes : List Nat)
  /-- The message `[TT] Invalid control flow, pc = ...` was printed. -/
  | invalidControlFlow (pc : Nat)
  /-- The message `[TT] Invalid instruction, pc = ...` was printed. -/
  | invalidInstruction (pc : Nat)
  deriving DecidableEq, Repr

/-- Result of `processing`: the new back-end state, whether a fault was
reported (anything but `NO_FAULT`) and the operands of the decoded
instruction. -/
structure Processed where
  ctx : Context
  fault : Bool
  operands : List Operand

/-- The external collaborators, taken as parameters: instruction processing,
the solver and the file system.  The solver may answer differently at each
call, so it also receives the effects logged so far.  `create_directories p`
tells whether `std::filesystem::create_directories(p)` succeeds (`true`, also
when the directory already exists) or throws (`false`). -/
structure Backend where
  processing : Context → Nat → List Nat → Processed
  getModel : List Event → Ast → Nat → Status × Seed
  getModels : List Event → Ast → Nat → Nat → Status × List Seed
  create_directories : String → Bool

/-- Instruction callback: it may read and write the context it is given. -/
abbrev instCallback := Context → cb_state_e × Context

/-- The `config_s` record. -/
structure config_s where
  stats : Bool
  workspace : String
  end_point : Nat
  ea_model : Nat
  jmp_model : Nat
  limit_inst : Nat
  timeout : Nat

/-- The state of a `SymbolicExplorator`, with the log of its effects. -/
structure Explorator where
  config : config_s
  nbexec : Nat
  nbsat : Nat
  nbunsat : Nat
  nbtimeout : Nat
  ini_ctx : Option Context
  bck_ctx : Option Context
  worklist : List Seed
  donelist : List (List Nat)
  coverage : List (Nat × Nat)
  instHooks : List (Nat × instCallback)
  trace : List Event

/-- Outcome of a method that may throw or loop. -/
inductive Outcome (α : Type) where
  | done (a : α)
  | raised (msg : String) (a : α)
  | outOfFuel (a : α)

/-! ## Back-end operations (modelled from the specification) -/

/-- Modelled from the spec: `getPathPredicate`, the conjunction, starting from
true, of the taken predicate of every path constraint, in order. -/
def Context.getPathPredicate (ctx : Context) : Ast :=
  ctx.pathConstraints.foldl (fun node pc => Ast.land node pc.takenPredicate)
    (Ast.equal Ast.bvtrue Ast.bvtrue)

/-- Modelled from the spec: `pushPathConstraint(node)` appends a constraint
whose only branch is the taken one, with predicate `node` and no address. -/
def Context.pushPathConstraint (ctx : Context) (node : Ast) : Context :=
  { ctx with pathConstraints := ctx.pathConstraints ++
      [{ sourceAddress := 0, multipleBranches := false,
         branches := [{ taken := true, srcAddr := 0, dstAddr := 0, cond := node }],
         takenPredicate := node }] }

/-- Modelled from the spec: `pushPathConstraint(pco)` appends the record. -/
def Context.pushPathConstraintRecord (ctx : Context) (pco : PathConstraint) : Context :=
  { ctx with pathConstraints := ctx.pathConstraints ++ [pco] }

/-- Modelled from the spec: `clearPathConstraints`. -/
def Context.clearPathConstraints (ctx : Context) : Context :=
  { ctx with pathConstraints := [] }

/-- Assignment `m[k] = v` in a map kept as an association list. -/
def assocSet {β : Type} : List (Nat × β) → Nat → β → List (Nat × β)
  | [], k, v => [(k, v)]
  | (k', v') :: t, k, v => if k' = k then (k, v) :: t else (k', v') :: assocSet t k v

/-- Modelled from the spec: `concretizeAllRegister` empties the table of
symbolic register assignments. -/
def Context.concretizeAllRegister (ctx : Context) : Context :=
  { ctx with symRegs := [] }

/-- Modelled from the spec: `concretizeAllMemory` empties the table of
symbolic memory assignments. -/
def Context.concretizeAllMemory (ctx : Context) : Context :=
  { ctx with symMem := [] }

/-- Modelled from the spec: `assignSymbolicExpressionToRegister`. -/
def Context.assignSymbolicExpressionToRegister (ctx : Context) (e : Ast) (reg : Nat) : Context :=
  { ctx with symRegs := assocSet ctx.symRegs reg e }

/-- Modelled from the spec: `assignSymbolicExpressionToMemory`, one byte. -/
def Context.assignSymbolicExpressionToMemory (ctx : Context) (e : Ast) (addr : Nat) : Context :=
  { ctx with symMem := assocSet ctx.symMem addr e }

/-- Modelled from the spec: `setConcreteVariableValue`. -/
def Context.setConcreteVariableValue (ctx : Context) (vid : Nat) (value : Nat) : Context :=
  { ctx with varValue := fun v => if v = vid then value else ctx.varValue v }

/-- Modelled from the spec: `getConcreteVariableValue`. -/
def Context.getConcreteVariableValue (ctx : Context) (vid : Nat) : Nat :=
  ctx.varValue vid

/-- Modelled from the spec: `isConcreteMemoryValueDefined(addr, 1)`. -/
def Context.isConcreteMemoryValueDefined (ctx : Context) (addr : Nat) : Bool :=
  (ctx.cpu.mem addr).isSome

/-- Modelled from the spec: `getConcreteMemoryAreaValue(addr, size)`; an
undefined byte reads as zero. -/
def Context.getConcreteMemoryAreaValue (ctx : Context) (addr size : Nat) : List Nat :=
  (List.range size).map (fun i => (ctx.cpu.mem (addr + i)).getD 0)

/-- Modelled from the spec: a freshly allocated context of an architecture
(`new triton::Context(arch)`). -/
def Context.fresh (arch : Arch) : Context :=
  { arch := arch, cpu := { pc := 0, regs := fun _ => 0, mem := fun _ => none },
    symRegs := [], symMem := [], pathConstraints := [], symVars := [],
    varValue := fun _ => 0 }

/-! ## The explorator (`src/lib/ttexplore.cpp`) -/

/-- The default constructor `SymbolicExplorator()`. -/
def defaultConfig : config_s :=
  { stats := true, workspace := "workspace", end_point := 0, ea_model := 1000,
    jmp_model := 1000, limit_inst := 0, timeout := 60 }

/-- The default constructor `SymbolicExplorator()`. -/
def Explorator.new : Explorator :=
  { config := defaultConfig, nbexec := 0, nbsat := 0, nbunsat := 0, nbtimeout := 0,
    ini_ctx := none, bck_ctx := none, worklist := [], donelist := [], coverage := [],
    instHooks := [], trace := [] }

/-- Constructor `SymbolicExplorator(ini_ctx)` and `initContext(ini_ctx)`. -/
def initContext (st : Explorator) (ini_ctx : Context) : Explorator :=
  { st with ini_ctx := some ini_ctx }

/-- Append an effect to the log. -/
def Explorator.log (st : Explorator) (e : Event) : Explorator :=
  { st with trace := st.trace ++ [e] }

/-- The statement `this->donelist.insert(key)` on a `std::set`. -/
def Explorator.insertDone (st : Explorator) (key : List Nat) : Explorator :=
  { st with donelist := List.insert key st.donelist, trace := st.trace ++ [Event.done key] }

/-- The loop `for (model : models) { nbsat++; worklist.push_front(model); }`. -/
def pushModels (st : Explorator) (models : List Seed) : Explorator :=
  models.foldl (fun s model => { s with nbsat := s.nbsat + 1, worklist := model :: s.worklist }) st

/-- The message of the `std::filesystem::filesystem_error` that
`create_directories` throws when the directory `path` cannot be created.  The
exception belongs to the C++ library, not to the explorator; the text stands
for it. -/
def filesystemErrorMessage (path : String) : String :=
  "filesystem error: cannot create directories [" ++ path ++ "]"

/-- The first part of the method `initWorklist`, up to the creation of the
directories: the initial query and its accounting. -/
def initialQuery (be : Backend) (st : Explorator) (ctx : Context) : Explorator :=
  let formula := ctx.getPathPredicate
  let r := be.getModel st.trace formula st.config.timeout
  let st1 := st.log (Event.solve Site.init [] formula 1)
  match r.1 with
  | Status.SAT =>
    let model := if r.2.length = 0
      then ctx.symVars.foldl (fun m vid => assocSet m vid 0) r.2
      else r.2
    { st1 with nbsat := st1.nbsat + 1, worklist := st1.worklist ++ [model] }
  | Status.TIMEOUT => { st1 with nbtimeout := st1.nbtimeout + 1 }
  | _ => { st1 with nbunsat := st1.nbunsat + 1 }

/-- The method `initWorklist`: the initial query, then the creation of the
directories `corpus`, `crashes` and `coverage` of the workspace, in that
order.  The first directory that cannot be created makes the method throw,
after the counters and the worklist were updated. -/
def initWorklist (be : Backend) (st : Explorator) (ctx : Context) : Outcome Explorator :=
  let st1 := initialQuery be st ctx
  if be.create_directories (st1.config.workspace ++ "/corpus") = false then
    Outcome.raised (filesystemErrorMessage (st1.config.workspace ++ "/corpus")) st1
  else if be.create_directories (st1.config.workspace ++ "/crashes") = false then
    Outcome.raised (filesystemErrorMessage (st1.config.workspace ++ "/crashes")) st1
  else if be.create_directories (st1.config.workspace ++ "/coverage") = false then
    Outcome.raised (filesystemErrorMessage (st1.config.workspace ++ "/coverage")) st1
  else Outcome.done st1

/-- The method `seed2vector`; the cast to `uint8` keeps the low eight bits. -/
def seed2vector (seed : Seed) (ctx : Context) : List Nat :=
  (List.range ctx.symVars.length).map (fun i =>
    match seed.lookup i with
    | none => 0x00
    | some v => v % 256)

/-- The method `writeSeedOnDisk`: the file is named after the current `nbexec`. -/
def writeSeedOnDisk (dir : String) (seed : Seed) (st : Explorator) (ctx : Context) : Explorator :=
  st.log (Event.write dir st.nbexec (seed2vector seed ctx))

/-- The method `asmret`: process a synthetic `ret` on x86 and x86_64, throw otherwise. -/
def asmret (be : Backend) (st : Explorator) (ctx : Context) : Except String (Explorator × Context) :=
  match ctx.arch with
  | Arch.ARCH_X86 => .ok (st.log Event.ret, (be.processing ctx 0 [0xc3]).ctx)
  | Arch.ARCH_X86_64 => .ok (st.log Event.ret, (be.processing ctx 0 [0xc3]).ctx)
  | _ => .error "SymbolicExplorator::asmret(): Invalid architecture"

/-- The method `buildPathAddrs`. -/
def buildPathAddrs (ctx : Context) : List Nat :=
  ctx.pathConstraints.map (fun pc => pc.sourceAddress)

/-- Account for the outcome of a query that asked for several models. -/
def accountModels (st : Explorator) (r : Status × List Seed) : Explorator :=
  match r.1 with
  | Status.SAT => pushModels st r.2
  | Status.TIMEOUT => { st with nbtimeout := st.nbtimeout + 1 }
  | _ => { st with nbunsat := st.nbunsat + 1 }

/-- Account for the outcome of a query that asked for one model. -/
def accountModel (st : Explorator) (r : Status × Seed) : Explorator :=
  match r.1 with
  | Status.SAT => { st with nbsat := st.nbsat + 1, worklist := r.2 :: st.worklist }
  | Status.TIMEOUT => { st with nbtimeout := st.nbtimeout + 1 }
  | _ => { st with nbunsat := st.nbunsat + 1 }

/-- One iteration of the operand loop of `symbolizeEffectiveAddress`. -/
def seaOperand (be : Backend) (address : Nat) (acc : Explorator × Context) (operand : Operand) :
    Explorator × Context :=
  match operand with
  | Operand.mem (some ea) =>
    if ea.isSymbolized then
      let pathaddrs := buildPathAddrs acc.2 ++ [address]
      let st1 :=
        if pathaddrs ∈ acc.1.donelist then acc.1
        else
          let st2 := acc.1.insertDone pathaddrs
          let c := Ast.land acc.2.getPathPredicate
            (Ast.distinct ea (Ast.bv ea.evaluate ea.getBitvectorSize))
          let models := be.getModels st2.trace c st2.config.ea_model st2.config.timeout
          accountModels (st2.log (Event.solve Site.ea pathaddrs c st2.config.ea_model)) models
      (st1, acc.2.pushPathConstraint (Ast.equal ea (Ast.bv ea.evaluate ea.getBitvectorSize)))
    else acc
  | _ => acc

/-- The method `symbolizeEffectiveAddress`. -/
def symbolizeEffectiveAddress (be : Backend) (st : Explorator) (ctx : Context)
    (inst : Instruction) : Explorator × Context :=
  inst.operands.foldl (seaOperand be inst.address) (st, ctx)

/-- One iteration of the branch loop of `findNewInputs`. -/
def fniBranch (be : Backend) (pc : PathConstraint) (pathaddrs : List Nat) (predicate : Ast)
    (st : Explorator) (branch : Branch) : Explorator :=
  let copy := pathaddrs ++ [branch.dstAddr]
  if copy ∈ st.donelist then st
  else
    let st1 := st.insertDone copy
    if pc.multipleBranches then
      if branch.taken = false then
        let c := Ast.land predicate branch.cond
        let model := be.getModel st1.trace c st1.config.timeout
        accountModel (st1.log (Event.solve Site.branch copy c 1)) model
      else st1
    else
      let c := Ast.land predicate (Ast.lnot branch.cond)
      let models := be.getModels st1.trace c st1.config.jmp_model st1.config.timeout
      accountModels (st1.log (Event.solve Site.branch copy c st1.config.jmp_model)) models

/-- The loop of `findNewInputs` over the path constraints. -/
def fniLoop (be : Backend) : List PathConstraint → List Nat → Ast → Explorator → Explorator
  | [], _, _, st => st
  | pc :: rest, pathaddrs, predicate, st =>
    let pathaddrs1 := pathaddrs ++ [pc.sourceAddress]
    let st1 := pc.branches.foldl (fniBranch be pc pathaddrs1 predicate) st
    fniLoop be rest pathaddrs1 (Ast.land predicate pc.takenPredicate) st1

/-- The method `findNewInputs`. -/
def findNewInputs (be : Backend) (st : Explorator) (ctx : Context) : Explorator :=
  fniLoop be ctx.pathConstraints [] (Ast.equal Ast.bvtrue Ast.bvtrue) st

/-- The method `injectSeed`. -/
def injectSeed (seed : Seed) (ctx : Context) : Context :=
  seed.foldl (fun c item => c.setConcreteVariableValue item.1 item.2) ctx

/-- The method `hookInstruction`: `std::map::insert` keeps an existing entry. -/
def hookInstruction (st : Explorator) (addr : Nat) (fn : instCallback) : Explorator :=
  match st.instHooks.lookup addr with
  | some _ => st
  | none => { st with instHooks := (addr, fn) :: st.instHooks }

/-- The coverage update of `run`: add one to an existing entry, else create it at one. -/
def bumpCoverage : List (Nat × Nat) → Nat → List (Nat × Nat)
  | [], a => [(a, 1)]
  | (k, v) :: t, a => if k = a then (k, v + 1) :: t else (k, v) :: bumpCoverage t a

/-- The method `snapshotContext(dst, src)`; the result is the new `dst`. -/
def snapshotContext (dst src : Context) : Except String Context :=
  let go : Context :=
    let d1 := { dst with cpu := src.cpu }
    let d2 := d1.concretizeAllRegister
    let d3 := src.symRegs.foldl (fun d item => d.assignSymbolicExpressionToRegister item.2 item.1) d2
    let d4 := d3.concretizeAllMemory
    let d5 := src.symMem.foldl (fun d item => d.assignSymbolicExpressionToMemory item.2 item.1) d4
    let d6 := d5.clearPathConstraints
    src.pathConstraints.foldl (fun d pc => d.pushPathConstraintRecord pc) d6
  match src.arch with
  | Arch.ARCH_X86_64 => .ok go
  | Arch.ARCH_X86 => .ok go
  | Arch.ARCH_ARM32 => .ok go
  | Arch.ARCH_AARCH64 => .ok go
  | _ => .error "SymbolicExplorator::snapshotContext(): Invalid architecture"

/-- What one pass through the body of the `do ... while` loop of `run` leads to. -/
inductive Body where
  /-- The end of the body, or a `continue`: the loop condition is evaluated next. -/
  | cont (st : Explorator) (ctx : Context) (count : Nat) (pcval : Nat)
  /-- A `break` or the `goto stop_execution`. -/
  | stop (st : Explorator) (ctx : Context)
  /-- An exception (thrown by `asmret`). -/
  | raised (msg : String) (st : Explorator) (ctx : Context)

/-- The body of the `do ... while` loop of `run`. -/
def runBody (be : Backend) (seed : Seed) (st : Explorator) (ctx : Context) (count : Nat) : Body :=
  if st.config.limit_inst ≠ 0 ∧ count ≥ st.config.limit_inst then Body.stop st ctx
  else
    let pcval := ctx.cpu.pc
    match st.instHooks.lookup pcval with
    | some fn =>
      let r := fn ctx
      let st1 := st.log (Event.hook pcval r.1)
      match r.1 with
      | cb_state_e.CONTINUE => Body.cont st1 r.2 count pcval
      | cb_state_e.BREAK => Body.stop st1 r.2
      | cb_state_e.PLT_CONTINUE =>
        match asmret be st1 r.2 with
        | .ok (st2, ctx2) => Body.cont st2 ctx2 count pcval
        | .error msg => Body.raised msg st1 r.2
    | none =>
      if (st.config.end_point ≠ 0 ∧ pcval = 0) ∨ ctx.isConcreteMemoryValueDefined pcval = false then
        Body.stop (writeSeedOnDisk "crashes" seed (st.log (Event.invalidControlFlow pcval)) ctx) ctx
      else
        let opcodes := ctx.getConcreteMemoryAreaValue pcval 16
        let r := be.processing ctx pcval opcodes
        let st1 := st.log (Event.fetch pcval r.fault)
        if r.fault then
          Body.stop
            (writeSeedOnDisk "crashes" seed (st1.log (Event.invalidInstruction pcval)) r.ctx) r.ctx
        else
          let inst : Instruction := { address := pcval, opcodes := opcodes, operands := r.operands }
          let r2 := symbolizeEffectiveAddress be st1 r.ctx inst
          let st3 := { r2.1 with coverage := bumpCoverage r2.1.coverage pcval }
          Body.cont st3 r2.2 (count + 1) pcval

/-- The `do ... while (end_point != pcval)` loop of `run`, with fuel. -/
def runLoop (be : Backend) (seed : Seed) :
    Nat → Explorator → Context → Nat → Outcome (Explorator × Context)
  | 0, st, ctx, _ => Outcome.outOfFuel (st, ctx)
  | fuel + 1, st, ctx, count =>
    match runBody be seed st ctx count with
    | Body.stop st1 ctx1 => Outcome.done (st1, ctx1)
    | Body.raised msg st1 ctx1 => Outcome.raised msg (st1, ctx1)
    | Body.cont st1 ctx1 count1 pcval =>
      if st1.config.end_point ≠ pcval then runLoop be seed fuel st1 ctx1 count1
      else Outcome.done (st1, ctx1)

/-- The label `stop_execution` of `run`: count the execution, write the seed to the corpus. -/
def stopExecution (seed : Seed) (st : Explorator) (ctx : Context) : Explorator :=
  writeSeedOnDisk "corpus" seed { st with nbexec := st.nbexec + 1 } ctx

/-- The method `run`. -/
def run (be : Backend) (fuel : Nat) (seed : Seed) (st : Explorator) (ctx : Context) :
    Outcome (Explorator × Context) :=
  match runLoop be seed fuel st ctx 0 with
  | Outcome.done (st1, ctx1) => Outcome.done (stopExecution seed st1 ctx1, ctx1)
  | Outcome.raised msg a => Outcome.raised msg a
  | Outcome.outOfFuel a => Outcome.outOfFuel a

/-- The `while (this->worklist.size())` loop of `explore`, with fuel; `bck` is
the backup context.  On normal exit the backup context is deleted. -/
def exploreLoop (be : Backend) (bck : Context) :
    Nat → Explorator → Context → Outcome Explorator
  | fuel, st, ctx =>
    match st.worklist with
    | [] => Outcome.done { st with ini_ctx := some ctx, bck_ctx := none }
    | seed :: rest =>
      match fuel with
      | 0 => Outcome.outOfFuel { st with ini_ctx := some ctx }
      | fuel1 + 1 =>
        let st1 := { st with worklist := rest }
        let ctx1 := injectSeed seed ctx
        match run be fuel1 seed st1 ctx1 with
        | Outcome.outOfFuel (st2, ctx2) => Outcome.outOfFuel { st2 with ini_ctx := some ctx2 }
        | Outcome.raised msg (st2, ctx2) => Outcome.raised msg { st2 with ini_ctx := some ctx2 }
        | Outcome.done (st2, ctx2) =>
          let st3 := findNewInputs be st2 ctx2
          match snapshotContext ctx2 bck with
          | .error msg => Outcome.raised msg { st3 with ini_ctx := some ctx2 }
          | .ok ctx3 => exploreLoop be bck fuel1 st3 ctx3

/-- The message of the exception `explore` throws on a null initial context. -/
def nullContextMessage : String :=
  "SymbolicExplorator::explore(): The initial context cannot be null."

/-- The method `explore`.  `fuel` bounds both the number of traces and the
number of loop steps of each trace. -/
def explore (be : Backend) (fuel : Nat) (st : Explorator) : Outcome Explorator :=
  match st.ini_ctx with
  | none => Outcome.raised nullContextMessage st
  | some ctx =>
    let bck0 := Context.fresh ctx.arch
    match snapshotContext bck0 ctx with
    | .error msg => Outcome.raised msg { st with bck_ctx := some bck0 }
    | .ok bck =>
      let st1 := { st with bck_ctx := some bck }
      match initWorklist be st1 ctx with
      | Outcome.done st2 => exploreLoop be bck fuel st2 ctx
      | thrown => thrown


/-! ## Auditing the log: donelist insertions and solver queries -/

/-- One sequence of calls of the two methods that consult the donelist.  Each
call comes with the back-end state it finds (the instruction processing and
the restores between two calls may have changed it arbitrarily). -/
inductive Call where
  | sea (ctx : Context) (inst : Instruction)
  | fni (ctx : Context)

/-- Perform one call. -/
def Call.apply (be : Backend) (st : Explorator) : Call → Explorator
  | Call.sea ctx inst => (symbolizeEffectiveAddress be st ctx inst).1
  | Call.fni ctx => findNewInputs be st ctx

/-- Perform a sequence of calls on one explorator. -/
def applyCalls (be : Backend) (st : Explorator) (calls : List Call) : Explorator :=
  calls.foldl (Call.apply be) st

/-- The encodings the solver was invoked for, in order. -/
def solvedKeys : List Event → List (List Nat)
  | [] => []
  | Event.solve _ key _ _ :: rest => key :: solvedKeys rest
  | _ :: rest => solvedKeys rest

/-- The encodings the solver was invoked for from one site, in order. -/
def solvedKeysAt (site : Site) : List Event → List (List Nat)
  | [] => []
  | Event.solve s key _ _ :: rest =>
    if s = site then key :: solvedKeysAt site rest else solvedKeysAt site rest
  | _ :: rest => solvedKeysAt site rest

/-- One step of the audit of a log.  The audit state is the donelist as the
logged insertions build it, and the encoding inserted by the event just
before, if any.  An insertion passes when the encoding is not in the donelist
yet; a solver query passes when its encoding is the one inserted by the event
just before it. -/
def auditStep (s : Option (List (List Nat) × Option (List Nat))) (e : Event) :
    Option (List (List Nat) × Option (List Nat)) :=
  match s with
  | none => none
  | some (d, p) =>
    match e with
    | Event.done k => if k ∈ d then none else some (k :: d, some k)
    | Event.solve _ k _ _ => if p = some k then some (d, none) else none
    | _ => some (d, none)

/-- Audit a log from a donelist: `some d` when every event passes, `d` being
the donelist at the end. -/
def audit (d : List (List Nat)) (es : List Event) : Option (List (List Nat)) :=
  (es.foldl auditStep (some (d, none))).map Prod.fst

/-- `Audited st st'`: the log of `st'` extends the log of `st` by events that
pass the audit from the donelist of `st`, whatever was pending, and the audit
ends on the donelist of `st'`. -/
def Audited (st st' : Explorator) : Prop :=
  ∃ new, st'.trace = st.trace ++ new ∧
    ∀ p, ∃ p', new.foldl auditStep (some (st.donelist, p)) = some (st'.donelist, p')


/-! ## Concrete inputs -/

/-- The back-end state set up by `src/harness/1/harness.cpp`: x86_64, the five
input bytes at `0xdead` pre-filled with `0x61` and symbolized (variables 0 to
4), the program counter at `0x40056d`, `rdi` (register 0 here) at `0xdead`.
Only the first instruction (`push rbp`, `0x55`) of the program is mapped. -/
def harnessContext : Context :=
  { arch := Arch.ARCH_X86_64,
    cpu := { pc := 0x40056d,
             regs := fun r => if r = 0 then 0xdead else 0,
             mem := fun a => if a = 0x40056d then some 0x55
                             else if 0xdead ≤ a ∧ a < 0xdead + 5 then some 0x61 else none },
    symRegs := [], symMem := [], pathConstraints := [],
    symVars := [0, 1, 2, 3, 4],
    varValue := fun v => if v < 5 then 0x61 else 0 }

/-- A model that binds the first input byte only, as the solver returns for
a branch that depends on that byte alone. -/
def partialSeed : Seed := [(0, 0x67)]

/-- The state of harness 1 with the program counter at `0x1000`. -/
def hookedContext : Context :=
  { harnessContext with cpu := { harnessContext.cpu with pc := 0x1000 } }

/-- A hook that lets the trace continue. -/
def hookContinue : instCallback := fun ctx => (cb_state_e.CONTINUE, ctx)

/-- A hook that ends the trace. -/
def hookBreak : instCallback := fun ctx => (cb_state_e.BREAK, ctx)

/-- The architectures `snapshotContext` has a case for. -/
def Arch.snapshotSupported : Arch → Bool
  | Arch.ARCH_X86_64 => true
  | Arch.ARCH_X86 => true
  | Arch.ARCH_ARM32 => true
  | Arch.ARCH_AARCH64 => true
  | _ => false

/-- A back-end state with a symbolic register, a symbolic memory byte and two
path constraints, in which register 1 holds `0x41`. -/
def snapshotSample : Context :=
  { arch := Arch.ARCH_X86_64,
    cpu := { pc := 0x1000, regs := fun r => if r = 1 then 0x41 else 0, mem := fun _ => none },
    symRegs := [(3, Ast.leaf 0 true 7 64)],
    symMem := [(0xdead, Ast.leaf 1 true 0x61 8)],
    pathConstraints :=
      [{ sourceAddress := 0x1000, multipleBranches := true,
         branches := [{ taken := true, srcAddr := 0x1000, dstAddr := 0x1010,
                        cond := Ast.leaf 2 true 1 1 },
                      { taken := false, srcAddr := 0x1000, dstAddr := 0x1002,
                        cond := Ast.leaf 3 true 0 1 }],
         takenPredicate := Ast.leaf 2 true 1 1 },
       { sourceAddress := 0, multipleBranches := false,
         branches := [{ taken := true, srcAddr := 0, dstAddr := 0,
                        cond := Ast.leaf 4 true 1 1 }],
         takenPredicate := Ast.leaf 4 true 1 1 }],
    symVars := [0],
    varValue := fun _ => 0x61 }

/-- The sample state after a trace changed it: register 1 holds `0x42`, the
symbolic tables and the path constraints are different. -/
def snapshotMutated : Context :=
  { snapshotSample with
    cpu := { pc := 0x2000, regs := fun r => if r = 1 then 0x42 else 5, mem := fun _ => some 0 },
    symRegs := [(1, Ast.bvtrue), (3, Ast.bvtrue)],
    symMem := [],
    pathConstraints := [] }

/-! ## Observations of the log and of the coverage map -/

/-- The state an outcome carries. -/
def Outcome.val {α : Type} : Outcome α → α
  | Outcome.done a => a
  | Outcome.raised _ a => a
  | Outcome.outOfFuel a => a

/-- The explorator a pass through the body of the loop of `run` leads to. -/
def Body.explorator : Body → Explorator
  | Body.cont st _ _ _ => st
  | Body.stop st _ => st
  | Body.raised _ st _ => st

/-- Whether an event is a donelist insertion or a solver query. -/
def Event.isQuery : Event → Bool
  | Event.done _ => true
  | Event.solve _ _ _ _ => true
  | _ => false

/-- The instruction fetches of a log, in order: address and reported fault. -/
def fetchLog : List Event → List (Nat × Bool)
  | [] => []
  | Event.fetch pc fault :: rest => (pc, fault) :: fetchLog rest
  | _ :: rest => fetchLog rest

/-- The file writes of a log, in order: directory, file name and content. -/
def writeLog : List Event → List (String × Nat × List Nat)
  | [] => []
  | Event.write dir name bytes :: rest => (dir, name, bytes) :: writeLog rest
  | _ :: rest => writeLog rest

/-- The number of times an instruction at `a` was fetched (opcode bytes read at
`a` and handed to the back-end), whatever the back-end reported. -/
def fetchCount (a : Nat) (es : List Event) : Nat :=
  (fetchLog es).countP (fun x => x.1 == a)

/-- The number of times an instruction at `a` was fetched and processed
without fault. -/
def processedCount (a : Nat) (es : List Event) : Nat :=
  (fetchLog es).count (a, false)

/-- The number of instructions fetched and processed without fault. -/
def processedTotal (es : List Event) : Nat :=
  (fetchLog es).countP (fun x => !x.2)

/-- The entry `coverage[a]`, zero when there is none. -/
def coverageAt (coverage : List (Nat × Nat)) (a : Nat) : Nat :=
  (coverage.lookup a).getD 0

/-- The sum of the coverage counts. -/
def coverageSum (coverage : List (Nat × Nat)) : Nat :=
  (coverage.map Prod.snd).sum

/-- A back-end whose instruction processing always reports a fault and whose
solver finds the initial path predicate satisfiable by any values. -/
def faultBackend : Backend :=
  { processing := fun ctx _ _ => { ctx := ctx, fault := true, operands := [] },
    getModel := fun _ _ _ => (Status.SAT, []),
    getModels := fun _ _ _ _ => (Status.UNSAT, []),
    create_directories := fun _ => true }

/-- A back-end that processes every instruction without fault, moving the
program counter one byte forward, and whose solver finds the initial path
predicate satisfiable by any values. -/
def stepBackend : Backend :=
  { processing := fun ctx _ _ =>
      { ctx := { ctx with cpu := { ctx.cpu with pc := ctx.cpu.pc + 1 } },
        fault := false, operands := [] },
    getModel := fun _ _ _ => (Status.SAT, []),
    getModels := fun _ _ _ _ => (Status.UNSAT, []),
    create_directories := fun _ => true }

/-- The explorator of harness 1: default configuration, the harness context. -/
def harnessExplorator : Explorator := initContext Explorator.new harnessContext

/-- `SolverOnly st st'`: from `st` to `st'` the log grew by donelist insertions
and solver queries only, and the configuration, the hooks, the execution
count, the coverage map and the two context pointers are the same. -/
def SolverOnly (st st' : Explorator) : Prop :=
  st'.config = st.config ∧ st'.instHooks = st.instHooks ∧ st'.nbexec = st.nbexec ∧
  st'.coverage = st.coverage ∧ st'.ini_ctx = st.ini_ctx ∧ st'.bck_ctx = st.bck_ctx ∧
  ∃ new, st'.trace = st.trace ++ new ∧ ∀ e ∈ new, e.isQuery = true

/-- The coverage map accounts for the log: each count is the number of
instructions fetched at that address and processed without fault, and the
counts add up to the number of instructions fetched and processed without
fault. -/
def CoverageAccounted (st : Explorator) : Prop :=
  (∀ a, coverageAt st.coverage a = processedCount a st.trace) ∧
  coverageSum st.coverage = processedTotal st.trace

/-- The crash messages of a log, in order: the program counter each reports. -/
def crashLog : List Event → List Nat
  | [] => []
  | Event.invalidControlFlow pc :: rest => pc :: crashLog rest
  | Event.invalidInstruction pc :: rest => pc :: crashLog rest
  | _ :: rest => crashLog rest

/-- `Quiet st st'`: from `st` to `st'` the execution count is the same, no
crash message was printed and no file was written. -/
def Quiet (st st' : Explorator) : Prop :=
  st'.nbexec = st.nbexec ∧ crashLog st'.trace = crashLog st.trace ∧
  writeLog st'.trace = writeLog st.trace

/-- `Crashed seed st st' ctx'`: from `st` to `st'` the execution count is the
same, one crash message was printed and the only file written is the seed
under `crashes/`, named after the execution count. -/
def Crashed (seed : Seed) (st st' : Explorator) (ctx' : Context) : Prop :=
  st'.nbexec = st.nbexec ∧ (∃ pc, crashLog st'.trace = crashLog st.trace ++ [pc]) ∧
  writeLog st'.trace = writeLog st.trace ++ [("crashes", st.nbexec, seed2vector seed ctx')]

/-- What a pass through the body of the loop of `run` does to the files: a
pass that goes on writes nothing, a pass that stops writes nothing or is a
crash. -/
def Body.files (seed : Seed) (st : Explorator) : Body → Prop
  | Body.cont st1 _ _ _ => Quiet st st1
  | Body.stop st1 ctx1 => Quiet st st1 ∨ Crashed seed st st1 ctx1
  | Body.raised _ _ _ => True

/-- A freshly constructed explorator, whatever its configuration, its hooks
and its initial context: the counters are zero, the worklist, the donelist
and the coverage map are empty and nothing has been logged. -/
def Explorator.Fresh (st : Explorator) : Prop :=
  st.nbexec = 0 ∧ st.nbsat = 0 ∧ st.nbunsat = 0 ∧ st.nbtimeout = 0 ∧ st.worklist = [] ∧
  st.donelist = [] ∧ st.coverage = [] ∧ st.trace = []

/-- A back-end whose solver always times out. -/
def timeoutBackend : Backend :=
  { processing := fun ctx _ _ => { ctx := ctx, fault := false, operands := [] },
    getModel := fun _ _ _ => (Status.TIMEOUT, []),
    getModels := fun _ _ _ _ => (Status.TIMEOUT, []),
    create_directories := fun _ => true }

/-- The three directories `initWorklist` creates, in the order of creation. -/
def workspaceDirs (st : Explorator) : List String :=
  [st.config.workspace ++ "/corpus", st.config.workspace ++ "/crashes",
    st.config.workspace ++ "/coverage"]

/-- A back-end whose solver always times out, on a file system where the
directory `workspace/corpus` can be created and no other. -/
def lockedBackend : Backend :=
  { processing := fun ctx _ _ => { ctx := ctx, fault := false, operands := [] },
    getModel := fun _ _ _ => (Status.TIMEOUT, []),
    getModels := fun _ _ _ _ => (Status.TIMEOUT, []),
    create_directories := fun p => p == "workspace/corpus" }

/-- A back-end whose solver answers every query with the model binding
variable 1 to `0x42`. -/
def modelBackend : Backend :=
  { processing := fun ctx _ _ => { ctx := ctx, fault := false, operands := [] },
    getModel := fun _ _ _ => (Status.SAT, [(1, 0x42)]),
    getModels := fun _ _ _ _ => (Status.SAT, [[(1, 0x42)]]),
    create_directories := fun _ => true }

/-! ## Queries of the two expansion methods -/

/-- The formula `symbolizeEffectiveAddress` solves for an effective address:
the path predicate and `ea != ea.evaluate()`. -/
def eaFormula (ctx : Context) (ea : Ast) : Ast :=
  Ast.land ctx.getPathPredicate (Ast.distinct ea (Ast.bv ea.evaluate ea.getBitvectorSize))

/-- The constraint `ea == ea.evaluate()` that `symbolizeEffectiveAddress` pushes. -/
def eaFrozen (ea : Ast) : Ast :=
  Ast.equal ea (Ast.bv ea.evaluate ea.getBitvectorSize)

/-- The answer of the solver to the query `symbolizeEffectiveAddress` issues
for the encoding `key`, right after inserting it into the donelist. -/
def eaAnswer (be : Backend) (st : Explorator) (ctx : Context) (key : List Nat) (ea : Ast) :
    Status × List Seed :=
  be.getModels (st.trace ++ [Event.done key]) (eaFormula ctx ea) st.config.ea_model
    st.config.timeout

/-- The answer of the solver to the single-model query `findNewInputs` issues
for a branch of a conditional, right after inserting `key` into the donelist. -/
def branchAnswer (be : Backend) (st : Explorator) (key : List Nat) (predicate : Ast)
    (branch : Branch) : Status × Seed :=
  be.getModel (st.trace ++ [Event.done key]) (Ast.land predicate branch.cond) st.config.timeout

/-- The answer of the solver to the query `findNewInputs` issues for a branch
of an indirect jump, right after inserting `key` into the donelist. -/
def jumpAnswer (be : Backend) (st : Explorator) (key : List Nat) (predicate : Ast)
    (branch : Branch) : Status × List Seed :=
  be.getModels (st.trace ++ [Event.done key]) (Ast.land predicate (Ast.lnot branch.cond))
    st.config.jmp_model st.config.timeout

/-- The effective-address expressions of the memory operands whose address is
symbolic, in operand order. -/
def symbolicEas : List Operand → List Ast
  | [] => []
  | Operand.mem (some ea) :: rest =>
    if ea.isSymbolized then ea :: symbolicEas rest else symbolicEas rest
  | _ :: rest => symbolicEas rest

/-- The path constraint that freezes an effective address to its concrete
value: `ea == ea.evaluate()`, as `pushPathConstraint` records it. -/
def frozenConstraint (ea : Ast) : PathConstraint :=
  { sourceAddress := 0, multipleBranches := false,
    branches := [{ taken := true, srcAddr := 0, dstAddr := 0, cond := eaFrozen ea }],
    takenPredicate := eaFrozen ea }

/-- An instruction with a register operand, a memory operand at a symbolic
address, a memory operand at a concrete address and a second memory operand at
a symbolic address. -/
def eaInstruction : Instruction :=
  { address := 0x40058b, opcodes := [0x0f, 0xb6, 0x00],
    operands := [Operand.other, Operand.mem (some (Ast.leaf 7 true 0xdead 64)),
      Operand.mem (some (Ast.bv 0x601040 64)), Operand.mem none,
      Operand.mem (some (Ast.leaf 8 true 0xdeae 64))] }

/-- The running predicate of `findNewInputs` after the constraints `pcs`: true
conjoined with their taken predicates, in order. -/
def pathPredicateOf (pcs : List PathConstraint) : Ast :=
  pcs.foldl (fun node pc => Ast.land node pc.takenPredicate) (Ast.equal Ast.bvtrue Ast.bvtrue)

/-- What a solver query logged by `findNewInputs` on the path `pcs`, entered
with the donelist `d0`, looks like: it is issued from the branch loop for a
branch tuple `b` of some constraint `pcs[k]`; its key is the source addresses
of the constraints up to and including `pcs[k]` followed by the target of `b`
and was not in `d0`; if the constraint is a conditional, `b` is a not-taken
branch and the formula is the conjunction of true and the taken predicates of
the constraints strictly before `pcs[k]`, conjoined with the predicate of `b`,
asked for one model; otherwise the formula conjoins the negation of the
predicate of `b`, asked for `jmp` models. -/
def BranchQuery (pcs : List PathConstraint) (d0 : List (List Nat)) (jmp : Nat) (e : Event) :
    Prop :=
  ∀ site key f limit, e = Event.solve site key f limit →
    site = Site.branch ∧ ∃ k pc b, pcs[k]? = some pc ∧ b ∈ pc.branches ∧
      key = (pcs.take (k + 1)).map (fun c => c.sourceAddress) ++ [b.dstAddr] ∧ key ∉ d0 ∧
      (pc.multipleBranches = true →
        b.taken = false ∧ f = Ast.land (pathPredicateOf (pcs.take k)) b.cond ∧ limit = 1) ∧
      (pc.multipleBranches = false →
        f = Ast.land (pathPredicateOf (pcs.take k)) (Ast.lnot b.cond) ∧ limit = jmp)

/-- `Emits P st st'`: from `st` to `st'` the configuration is the same, the
donelist only grew and the log grew by events that satisfy `P`. -/
def Emits (P : Event → Prop) (st st' : Explorator) : Prop :=
  st'.config = st.config ∧ (∀ k ∈ st.donelist, k ∈ st'.donelist) ∧
  ∃ new, st'.trace = st.trace ++ new ∧ ∀ e ∈ new, P e

/-- The sum of the three solver counters. -/
def Explorator.answers (st : Explorator) : Nat :=
  st.nbsat + st.nbunsat + st.nbtimeout

/-- The branch tuples of one constraint that `findNewInputs` negates: going
through the tuples in order from the donelist `d`, a tuple whose key is in the
donelist is skipped, the key of any other tuple is newly inserted, and such a
tuple counts when it is a not-taken branch.  Returns the count and the
donelist at the end. -/
def negatedInBranches (pathaddrs : List Nat) :
    List Branch → List (List Nat) → Nat × List (List Nat)
  | [], d => (0, d)
  | b :: bs, d =>
    if pathaddrs ++ [b.dstAddr] ∈ d then negatedInBranches pathaddrs bs d
    else
      let r := negatedInBranches pathaddrs bs ((pathaddrs ++ [b.dstAddr]) :: d)
      (if b.taken = false then r.1 + 1 else r.1, r.2)

/-- The number of not-taken branch tuples of the path `pcs` whose key is newly
inserted into the donelist, going through the constraints in order from the
donelist `d`, the key of a tuple being the source addresses of the constraints
so far followed by the target of the tuple. -/
def negatedBranches : List PathConstraint → List Nat → List (List Nat) → Nat
  | [], _, _ => 0
  | pc :: rest, pathaddrs, d =>
    (negatedInBranches (pathaddrs ++ [pc.sourceAddress]) pc.branches d).1 +
      negatedBranches rest (pathaddrs ++ [pc.sourceAddress])
        (negatedInBranches (pathaddrs ++ [pc.sourceAddress]) pc.branches d).2

/-- A path of two conditionals, the second at `0x1010`. -/
def conditionalPath : Context :=
  { snapshotSample with
    pathConstraints :=
      [{ sourceAddress := 0x1000, multipleBranches := true,
         branches := [{ taken := true, srcAddr := 0x1000, dstAddr := 0x1010,
                        cond := Ast.leaf 2 true 1 1 },
                      { taken := false, srcAddr := 0x1000, dstAddr := 0x1002,
                        cond := Ast.leaf 3 true 0 1 }],
         takenPredicate := Ast.leaf 2 true 1 1 },
       { sourceAddress := 0x1010, multipleBranches := true,
         branches := [{ taken := false, srcAddr := 0x1010, dstAddr := 0x1020,
                        cond := Ast.leaf 5 true 0 1 },
                      { taken := true, srcAddr := 0x1010, dstAddr := 0x1012,
                        cond := Ast.leaf 6 true 1 1 }],
         takenPredicate := Ast.leaf 6 true 1 1 }] }

/-! ## Steps of a trace -/

/-- The context a pass through the body of the loop of `run` leads to. -/
def Body.context : Body → Context
  | Body.cont _ ctx _ _ => ctx
  | Body.stop _ ctx => ctx
  | Body.raised _ _ ctx => ctx

/-- Whether a pass through the body reaches the loop condition. -/
def Body.goesOn : Body → Bool
  | Body.cont _ _ _ _ => true
  | _ => false

/-- The state of `run` after `k` passes through the loop that all went on to a
next pass: none of them broke out of the loop, threw, or met the end point in
the loop condition.  `none` when the loop ended earlier. -/
def runSteps (be : Backend) (seed : Seed) :
    Nat → Explorator → Context → Nat → Option (Explorator × Context × Nat)
  | 0, st, ctx, count => some (st, ctx, count)
  | k + 1, st, ctx, count =>
    match runBody be seed st ctx count with
    | Body.cont st1 ctx1 count1 pcval =>
      if st1.config.end_point ≠ pcval then runSteps be seed k st1 ctx1 count1 else none
    | _ => none

/-- What `run` returns when the pass `b` through the body is the last one of
the loop: the exception it threw, or else the state after `stop_execution`. -/
def endStep (seed : Seed) : Body → Outcome (Explorator × Context)
  | Body.raised msg st ctx => Outcome.raised msg (st, ctx)
  | Body.stop st ctx => Outcome.done (stopExecution seed st ctx, ctx)
  | Body.cont st ctx _ _ => Outcome.done (stopExecution seed st ctx, ctx)

/-- `Pushed st st'`: from `st` to `st'` seeds were only pushed at the head of
the worklist, and `nbsat` grew by their number. -/
def Pushed (st st' : Explorator) : Prop :=
  ∃ seeds : List Seed, st'.worklist = seeds ++ st.worklist ∧
    st'.nbsat = st.nbsat + seeds.length

/-- The explorator at each evaluation of the condition of the loop of
`explore`, in order (the recursion is that of `exploreLoop`). -/
def loopHeads (be : Backend) (bck : Context) : Nat → Explorator → Context → List Explorator
  | fuel, st, ctx =>
    st :: match st.worklist with
    | [] => []
    | seed :: rest =>
      match fuel with
      | 0 => []
      | fuel1 + 1 =>
        match run be fuel1 seed { st with worklist := rest } (injectSeed seed ctx) with
        | Outcome.done (st2, ctx2) =>
          match snapshotContext ctx2 bck with
          | .ok ctx3 => loopHeads be bck fuel1 (findNewInputs be st2 ctx2) ctx3
          | .error _ => []
        | _ => []

/-- The explorator at each evaluation of the condition of the loop of
`explore`, from the entry of `explore`. -/
def exploreHeads (be : Backend) (fuel : Nat) (st : Explorator) : List Explorator :=
  match st.ini_ctx with
  | none => []
  | some ctx =>
    match snapshotContext (Context.fresh ctx.arch) ctx with
    | .error _ => []
    | .ok bck =>
      match initWorklist be { st with bck_ctx := some bck } ctx with
      | Outcome.done st2 => loopHeads be bck fuel st2 ctx
      | _ => []

/-! ## More concrete inputs -/

/-- The end of the program of `src/harness/6/harness.cpp`: `pop rbp` at
`0x1180` and `ret` at `0x1181`, the program counter at `0x1180`. -/
def harness6Context : Context :=
  { arch := Arch.ARCH_X86_64,
    cpu := { pc := 0x1180, regs := fun _ => 0,
             mem := fun a => if a = 0x1180 then some 0x5d
                             else if a = 0x1181 then some 0xc3 else none },
    symRegs := [], symMem := [], pathConstraints := [],
    symVars := [0, 1, 2, 3],
    varValue := fun _ => 0 }

/-- The explorator of harness 6: the end point is the `ret` at `0x1181`. -/
def harness6Explorator : Explorator :=
  { initContext Explorator.new harness6Context with
    config := { defaultConfig with end_point := 0x1181 } }

/-- A back-end for the end of harness 6: the `ret` at `0x1181` returns to the
null return address, any other instruction moves on by one byte. -/
def retBackend : Backend :=
  { processing := fun ctx pc _ =>
      { ctx := { ctx with cpu := { ctx.cpu with pc := if pc = 0x1181 then 0 else pc + 1 } },
        fault := false, operands := [] },
    getModel := fun _ _ _ => (Status.SAT, []),
    getModels := fun _ _ _ _ => (Status.UNSAT, []),
    create_directories := fun _ => true }

/-- A state whose memory is defined everywhere, the program counter at 0. -/
def zeroContext : Context :=
  { arch := Arch.ARCH_X86_64,
    cpu := { pc := 0, regs := fun _ => 0, mem := fun _ => some 0x90 },
    symRegs := [], symMem := [], pathConstraints := [],
    symVars := [0],
    varValue := fun _ => 0 }

/-- The default explorator (no end point, no limit, no hook) on `zeroContext`. -/
def zeroExplorator : Explorator := initContext Explorator.new zeroContext

/-- An explorator with an instruction limit of one and a hook at `0x1000`
that lets the trace continue without moving the program counter. -/
def loopingExplorator : Explorator :=
  hookInstruction
    { initContext Explorator.new hookedContext with
      config := { defaultConfig with limit_inst := 1 } }
    0x1000 hookContinue

/-- A back-end for a one-instruction target with a memory operand at a
symbolic address.  The solver finds the initial predicate satisfiable by any
values, answers the effective-address query (`ea != value`) with the model
binding variable 0 to 1, and any other query with the model binding variable
0 to 2. -/
def eaBackend : Backend :=
  { processing := fun ctx pc _ =>
      { ctx := { ctx with cpu := { ctx.cpu with pc := pc + 1 } },
        fault := false, operands := [Operand.mem (some (Ast.leaf 0 true 5 64))] },
    getModel := fun _ _ _ => (Status.SAT, []),
    getModels := fun _ f _ _ =>
      match f with
      | Ast.land _ (Ast.distinct _ _) => (Status.SAT, [[(0, 1)]])
      | _ => (Status.SAT, [[(0, 2)]]),
    create_directories := fun _ => true }

/-- The explorator of harness 1 with the end point on its first instruction,
so that a trace is that one instruction. -/
def eaExplorator : Explorator :=
  { harnessExplorator with config := { defaultConfig with end_point := 0x40056d } }

/-- The default explorator with a hook at `0x1000` that ends the trace; in
`hookedContext` the memory at `0x1000` is undefined. -/
def breakExplorator : Explorator :=
  hookInstruction (initContext Explorator.new hookedContext) 0x1000 hookBreak

/-- A state whose memory is defined everywhere, the program counter at `0x100`. -/
def slideContext : Context :=
  { zeroContext with cpu := { zeroContext.cpu with pc := 0x100 } }

/-- An explorator with an instruction limit of three, no end point and no hook. -/
def limitedExplorator : Explorator :=
  { initContext Explorator.new slideContext with
    config := { defaultConfig with limit_inst := 3 } }

/-! ## Theorems -/

/-! ### Bookkeeping lemmas -/

theorem pushModels_trace (models : List Seed) (st : Explorator) :
    (pushModels st models).trace = st.trace := by
  unfold pushModels
  induction models generalizing st with
  | nil => rfl
  | cons m ms ih => simp only [List.foldl_cons]; rw [ih]

theorem pushModels_donelist (models : List Seed) (st : Explorator) :
    (pushModels st models).donelist = st.donelist := by
  unfold pushModels
  induction models generalizing st with
  | nil => rfl
  | cons m ms ih => simp only [List.foldl_cons]; rw [ih]

theorem accountModels_trace (st : Explorator) (r : Status × List Seed) :
    (accountModels st r).trace = st.trace := by
  unfold accountModels
  split <;> simp [pushModels_trace]

theorem accountModels_donelist (st : Explorator) (r : Status × List Seed) :
    (accountModels st r).donelist = st.donelist := by
  unfold accountModels
  split <;> simp [pushModels_donelist]

theorem accountModel_trace (st : Explorator) (r : Status × Seed) :
    (accountModel st r).trace = st.trace := by
  unfold accountModel
  split <;> rfl

theorem accountModel_donelist (st : Explorator) (r : Status × Seed) :
    (accountModel st r).donelist = st.donelist := by
  unfold accountModel
  split <;> rfl

/-! ### The audit of the donelist -/

theorem audited_refl (st : Explorator) : Audited st st :=
  ⟨[], by simp, fun p => ⟨p, rfl⟩⟩

theorem audited_trans {a b c : Explorator} (h1 : Audited a b) (h2 : Audited b c) :
    Audited a c := by
  obtain ⟨n1, t1, a1⟩ := h1
  obtain ⟨n2, t2, a2⟩ := h2
  refine ⟨n1 ++ n2, by rw [t2, t1, List.append_assoc], fun p => ?_⟩
  obtain ⟨p1, e1⟩ := a1 p
  obtain ⟨p2, e2⟩ := a2 p1
  exact ⟨p2, by rw [List.foldl_append, e1, e2]⟩

theorem audited_of_same {st st' : Explorator} (ht : st'.trace = st.trace)
    (hd : st'.donelist = st.donelist) : Audited st st' :=
  ⟨[], by simp [ht], fun p => ⟨p, by simp [hd]⟩⟩

/-- An insertion of an absent encoding followed by a query for it. -/
theorem audited_insert_solve (st st' : Explorator) (key : List Nat) (site : Site)
    (formula : Ast) (limit : Nat) (hk : key ∉ st.donelist)
    (ht : st'.trace = st.trace ++ [Event.done key, Event.solve site key formula limit])
    (hd : st'.donelist = key :: st.donelist) : Audited st st' := by
  refine ⟨_, ht, fun p => ⟨none, ?_⟩⟩
  simp [auditStep, hk, hd]

/-- An insertion of an absent encoding, without a query. -/
theorem audited_insert (st st' : Explorator) (key : List Nat) (hk : key ∉ st.donelist)
    (ht : st'.trace = st.trace ++ [Event.done key])
    (hd : st'.donelist = key :: st.donelist) : Audited st st' := by
  refine ⟨_, ht, fun p => ⟨some key, ?_⟩⟩
  simp [auditStep, hk, hd]

theorem seaOperand_audited (be : Backend) (address : Nat) (acc : Explorator × Context)
    (operand : Operand) : Audited acc.1 (seaOperand be address acc operand).1 := by
  unfold seaOperand
  split
  · split
    · by_cases hk : buildPathAddrs acc.2 ++ [address] ∈ acc.1.donelist
      · simp only [hk, if_true]; exact audited_refl _
      · simp only [hk, if_false]
        apply audited_insert_solve _ _ _ _ _ _ hk
        · rw [accountModels_trace]; simp only [Explorator.log, Explorator.insertDone]
          rw [List.append_assoc]; rfl
        · simp [accountModels_donelist, Explorator.log, Explorator.insertDone, List.insert, hk]
    · exact audited_refl _
  · exact audited_refl _

theorem foldl_seaOperand_audited (be : Backend) (address : Nat) (ops : List Operand)
    (acc : Explorator × Context) :
    Audited acc.1 (ops.foldl (seaOperand be address) acc).1 := by
  induction ops generalizing acc with
  | nil => exact audited_refl _
  | cons o os ih => exact audited_trans (seaOperand_audited be address acc o) (ih _)

theorem fniBranch_audited (be : Backend) (pc : PathConstraint) (pathaddrs : List Nat)
    (predicate : Ast) (st : Explorator) (branch : Branch) :
    Audited st (fniBranch be pc pathaddrs predicate st branch) := by
  unfold fniBranch
  by_cases hk : pathaddrs ++ [branch.dstAddr] ∈ st.donelist
  · simp only [hk, if_true]; exact audited_refl _
  · simp only [hk, if_false]
    split
    · split
      · apply audited_insert_solve _ _ _ _ _ _ hk
        · rw [accountModel_trace]; simp only [Explorator.log, Explorator.insertDone]
          rw [List.append_assoc]; rfl
        · simp [accountModel_donelist, Explorator.log, Explorator.insertDone, List.insert, hk]
      · apply audited_insert _ _ _ hk
        · simp [Explorator.insertDone]
        · simp [Explorator.insertDone, List.insert, hk]
    · apply audited_insert_solve _ _ _ _ _ _ hk
      · rw [accountModels_trace]; simp only [Explorator.log, Explorator.insertDone]
        rw [List.append_assoc]; rfl
      · simp [accountModels_donelist, Explorator.log, Explorator.insertDone, List.insert, hk]

theorem foldl_fniBranch_audited (be : Backend) (pc : PathConstraint) (pathaddrs : List Nat)
    (predicate : Ast) (bs : List Branch) (st : Explorator) :
    Audited st (bs.foldl (fniBranch be pc pathaddrs predicate) st) := by
  induction bs generalizing st with
  | nil => exact audited_refl _
  | cons b bs ih => exact audited_trans (fniBranch_audited be pc pathaddrs predicate st b) (ih _)

theorem fniLoop_audited (be : Backend) (pcs : List PathConstraint) (pathaddrs : List Nat)
    (predicate : Ast) (st : Explorator) :
    Audited st (fniLoop be pcs pathaddrs predicate st) := by
  induction pcs generalizing pathaddrs predicate st with
  | nil => exact audited_refl _
  | cons pc rest ih =>
    exact audited_trans (foldl_fniBranch_audited be pc _ predicate pc.branches st) (ih _ _ _)

theorem symbolizeEffectiveAddress_audited (be : Backend) (st : Explorator) (ctx : Context)
    (inst : Instruction) : Audited st (symbolizeEffectiveAddress be st ctx inst).1 :=
  foldl_seaOperand_audited be inst.address inst.operands (st, ctx)

theorem findNewInputs_audited (be : Backend) (st : Explorator) (ctx : Context) :
    Audited st (findNewInputs be st ctx) :=
  fniLoop_audited be ctx.pathConstraints [] _ st

theorem applyCalls_audited (be : Backend) (calls : List Call) (st : Explorator) :
    Audited st (applyCalls be st calls) := by
  unfold applyCalls
  induction calls generalizing st with
  | nil => exact audited_refl _
  | cons c cs ih =>
    refine audited_trans ?_ (ih _)
    cases c with
    | sea ctx inst => exact symbolizeEffectiveAddress_audited be st ctx inst
    | fni ctx => exact findNewInputs_audited be st ctx

theorem foldl_auditStep_none (es : List Event) : es.foldl auditStep none = none := by
  induction es with
  | nil => rfl
  | cons e es ih => simpa [auditStep] using ih

/-- What a passed audit entails: the donelist only grows, no encoding is
solved twice, every solved encoding ends in the donelist, and an encoding that
was in the donelist at the start is solved only if it is the pending one. -/
theorem audit_sound (es : List Event) :
    ∀ (d : List (List Nat)) (p : Option (List Nat)) (d' : List (List Nat))
      (p' : Option (List Nat)),
      (∀ k, p = some k → k ∈ d) →
      es.foldl auditStep (some (d, p)) = some (d', p') →
      (∀ k ∈ d, k ∈ d') ∧ (solvedKeys es).Nodup ∧
        ∀ k ∈ solvedKeys es, k ∈ d' ∧ (k ∈ d → p = some k) := by
  induction es with
  | nil =>
    intro d p d' p' _ h
    simp only [List.foldl_nil, Option.some.injEq, Prod.mk.injEq] at h
    obtain ⟨rfl, rfl⟩ := h
    simp [solvedKeys]
  | cons e es ih =>
    intro d p d' p' hp h
    rw [List.foldl_cons] at h
    cases e with
    | done k =>
      by_cases hk : k ∈ d
      · simp [auditStep, hk, foldl_auditStep_none] at h
      · simp only [auditStep, hk, if_false] at h
        obtain ⟨h1, h2, h3⟩ := ih (k :: d) (some k) d' p'
          (fun k' hk' => by simp at hk'; simp [hk']) h
        refine ⟨fun x hx => h1 x (List.mem_cons_of_mem _ hx), by simpa [solvedKeys] using h2, ?_⟩
        intro x hx
        have hx' : x ∈ solvedKeys es := by simpa [solvedKeys] using hx
        refine ⟨(h3 x hx').1, fun hxd => ?_⟩
        have := (h3 x hx').2 (List.mem_cons_of_mem _ hxd)
        simp at this
        exact absurd (this ▸ hxd) hk
    | solve site k f l =>
      by_cases hk : p = some k
      · simp only [auditStep, hk, if_true] at h
        obtain ⟨h1, h2, h3⟩ := ih d none d' p' (fun k' hk' => by simp at hk') h
        have hkd : k ∈ d := hp k hk
        refine ⟨h1, ?_, ?_⟩
        · simp only [solvedKeys, List.nodup_cons]
          refine ⟨fun hmem => ?_, h2⟩
          have := (h3 k hmem).2 hkd
          simp at this
        · intro x hx
          simp only [solvedKeys, List.mem_cons] at hx
          rcases hx with rfl | hx
          · exact ⟨h1 x hkd, fun _ => hk⟩
          · refine ⟨(h3 x hx).1, fun hxd => ?_⟩
            have := (h3 x hx).2 hxd
            simp at this
      · simp [auditStep, hk, foldl_auditStep_none] at h
    | _ =>
      simp only [auditStep] at h
      obtain ⟨h1, h2, h3⟩ := ih d none d' p' (fun k' hk' => by simp at hk') h
      refine ⟨h1, by simpa [solvedKeys] using h2, fun x hx => ?_⟩
      have hx' : x ∈ solvedKeys es := by simpa [solvedKeys] using hx
      exact ⟨(h3 x hx').1, fun hxd => by have := (h3 x hx').2 hxd; simp at this⟩

theorem solvedKeysAt_sublist (site : Site) (es : List Event) :
    (solvedKeysAt site es).Sublist (solvedKeys es) := by
  induction es with
  | nil => simp [solvedKeysAt, solvedKeys]
  | cons e es ih =>
    cases e with
    | solve s k f l =>
      by_cases hs : s = site
      · simpa [solvedKeysAt, solvedKeys, hs] using ih
      · simpa [solvedKeysAt, solvedKeys, hs] using ih.trans (List.sublist_cons_self _ _)
    | _ => simpa [solvedKeysAt, solvedKeys] using ih

/-- C1: over any sequence of calls of `symbolizeEffectiveAddress` and
`findNewInputs` on one explorator, the events logged pass the audit from the
donelist at the start: every insertion is of an encoding absent from the
donelist, and every solver query is for the encoding inserted by the event
just before it.  Hence no encoding is solved twice (overall, and so neither
twice in `findNewInputs` nor twice in `symbolizeEffectiveAddress`), an
encoding that was in the donelist at the start is never solved, every solved
encoding is in the donelist at the end, and the donelist only grows. -/
theorem donelist_guards_solver (be : Backend) (st : Explorator) (calls : List Call) :
    ∃ new, (applyCalls be st calls).trace = st.trace ++ new ∧
      audit st.donelist new = some (applyCalls be st calls).donelist ∧
      (solvedKeys new).Nodup ∧
      (solvedKeysAt Site.branch new).Nodup ∧
      (solvedKeysAt Site.ea new).Nodup ∧
      (∀ k ∈ solvedKeys new, k ∉ st.donelist ∧ k ∈ (applyCalls be st calls).donelist) ∧
      (∀ k ∈ st.donelist, k ∈ (applyCalls be st calls).donelist) := by
  obtain ⟨new, ht, ha⟩ := applyCalls_audited be calls st
  obtain ⟨p', hp'⟩ := ha none
  obtain ⟨h1, h2, h3⟩ := audit_sound new st.donelist none _ p' (fun k hk => by simp at hk) hp'
  refine ⟨new, ht, by simp [audit, hp'], h2, h2.sublist (solvedKeysAt_sublist _ _),
    h2.sublist (solvedKeysAt_sublist _ _), fun k hk => ⟨fun hkd => ?_, (h3 k hk).1⟩, h1⟩
  have := (h3 k hk).2 hkd
  simp at this

/-- C1 on two successive calls of `findNewInputs` on the sample state, whose
path has a conditional branch at `0x1000` and a frozen effective address: the
first call solves the not-taken branch and the alternative addresses, the
second call finds the three encodings in the donelist and solves nothing. -/
theorem donelist_guards_solver_witness :
    solvedKeys (applyCalls modelBackend harnessExplorator
        [Call.fni snapshotSample, Call.fni snapshotSample]).trace
      = [[0x1000, 0x1002], [0x1000, 0, 0]] ∧
    (applyCalls modelBackend harnessExplorator
        [Call.fni snapshotSample, Call.fni snapshotSample]).donelist
      = [[0x1000, 0, 0], [0x1000, 0x1002], [0x1000, 0x1010]] ∧
    (solvedKeys (applyCalls modelBackend harnessExplorator
        [Call.fni snapshotSample, Call.fni snapshotSample]).trace).Nodup := by
  refine ⟨by rfl, by rfl, ?_⟩
  obtain ⟨new, ht, _, hn, _⟩ := donelist_guards_solver modelBackend harnessExplorator
    [Call.fni snapshotSample, Call.fni snapshotSample]
  have hnew : (applyCalls modelBackend harnessExplorator
      [Call.fni snapshotSample, Call.fni snapshotSample]).trace = new := by
    rw [ht]; rfl
  rw [hnew]
  exact hn

/-! ### Seeds -/

/-- A variable the seed does not bind keeps the concrete value it had. -/
theorem injectSeed_unbound (seed : Seed) (ctx : Context) (v : Nat)
    (h : seed.lookup v = none) :
    (injectSeed seed ctx).getConcreteVariableValue v = ctx.getConcreteVariableValue v := by
  unfold injectSeed
  induction seed generalizing ctx with
  | nil => rfl
  | cons item rest ih =>
    obtain ⟨k, x⟩ := item
    have hk : (v == k) = false := by
      cases hvk : (v == k) with
      | false => rfl
      | true => simp [List.lookup, hvk] at h
    have hrest : rest.lookup v = none := by simpa [List.lookup, hk] using h
    rw [List.foldl_cons, ih _ hrest]
    have : v ≠ k := by simpa using hk
    simp [Context.setConcreteVariableValue, Context.getConcreteVariableValue, this]

/-- C2, evaluated on the state of harness 1 with a model that binds the first
input byte only: after the injection the first variable reads the bound
value `0x67`, and the second variable, which the seed does not bind, still
reads `0x61`, not `0x00`; the bytes `seed2vector` writes for the same seed
have `0x00` there. -/
theorem injectSeed_leaves_unbound_variable :
    (injectSeed partialSeed harnessContext).getConcreteVariableValue 0 = 0x67 ∧
    (injectSeed partialSeed harnessContext).getConcreteVariableValue 1 = 0x61 ∧
    seed2vector partialSeed harnessContext = [0x67, 0x00, 0x00, 0x00, 0x00] := by
  refine ⟨by rfl, by rfl, by rfl⟩

/-- C3: `seed2vector` returns as many bytes as the context has symbolic
variables; byte `i` is the low eight bits of the value the seed binds to
variable `i`, hence that value when it is below 256, and `0x00` when the seed
does not bind `i`; the result depends only on the bindings of the variables
below that length. -/
theorem seed2vector_dense (seed : Seed) (ctx : Context) :
    (seed2vector seed ctx).length = ctx.symVars.length ∧
    (∀ i v, i < ctx.symVars.length → seed.lookup i = some v →
      (seed2vector seed ctx)[i]? = some (v % 256)) ∧
    (∀ i v, i < ctx.symVars.length → seed.lookup i = some v → v < 256 →
      (seed2vector seed ctx)[i]? = some v) ∧
    (∀ i, i < ctx.symVars.length → seed.lookup i = none →
      (seed2vector seed ctx)[i]? = some 0x00) ∧
    (∀ seed' : Seed, (∀ i, i < ctx.symVars.length → seed'.lookup i = seed.lookup i) →
      seed2vector seed' ctx = seed2vector seed ctx) := by
  have key : ∀ i, i < ctx.symVars.length → (seed2vector seed ctx)[i]? =
      some (match seed.lookup i with | none => 0x00 | some v => v % 256) := by
    intro i hi
    simp [seed2vector, List.getElem?_map, List.getElem?_range hi]
  refine ⟨by simp [seed2vector], ?_, ?_, ?_, ?_⟩
  · intro i v hi hv
    rw [key i hi, hv]
  · intro i v hi hv hlt
    rw [key i hi, hv]
    simp [Nat.mod_eq_of_lt hlt]
  · intro i hi hv
    rw [key i hi, hv]
  · intro seed' h
    unfold seed2vector
    apply List.map_congr_left
    intro i hi
    rw [h i (by simpa using hi)]

/-- C3 on the state of harness 1: a seed binding variable 0 to `0x67`,
variable 2 to `0x16c` and the unknown variable 7 to `9` gives five bytes; byte
0 is `0x67`, byte 1 is `0x00`, and the binding of variable 7 changes nothing. -/
theorem seed2vector_dense_witness :
    (seed2vector [(0, 0x67), (2, 0x16c), (7, 9)] harnessContext).length = 5 ∧
    (seed2vector [(0, 0x67), (2, 0x16c), (7, 9)] harnessContext)[2]? = some 0x6c ∧
    (seed2vector [(0, 0x67), (2, 0x16c), (7, 9)] harnessContext)[0]? = some 0x67 ∧
    (seed2vector [(0, 0x67), (2, 0x16c), (7, 9)] harnessContext)[1]? = some 0x00 ∧
    seed2vector [(0, 0x67), (2, 0x16c)] harnessContext =
      seed2vector [(0, 0x67), (2, 0x16c), (7, 9)] harnessContext := by
  have h := seed2vector_dense [(0, 0x67), (2, 0x16c), (7, 9)] harnessContext
  refine ⟨h.1, ?_, ?_, ?_, ?_⟩
  · exact h.2.1 2 0x16c (by decide) (by rfl)
  · exact h.2.2.1 0 0x67 (by decide) (by rfl) (by decide)
  · exact h.2.2.2.1 1 (by decide) (by rfl)
  · refine h.2.2.2.2 [(0, 0x67), (2, 0x16c)] (fun i hi => ?_)
    have hi5 : i < 5 := hi
    interval_cases i <;> rfl

/-! ### Hooks -/

/-- C4 as stated fails: after registering `hookContinue` and then `hookBreak`
at `0x1000`, the hook found at `0x1000` answers `CONTINUE` (it is the first
one), whereas the last registered one answers `BREAK`; a step of `run` at
`0x1000` invokes the hook that answers `CONTINUE`. -/
theorem hookInstruction_last_registration_ignored :
    (((hookInstruction (hookInstruction Explorator.new 0x1000 hookContinue) 0x1000
        hookBreak).instHooks.lookup 0x1000).map (fun fn => (fn hookedContext).1)
      = some cb_state_e.CONTINUE) ∧
    (hookBreak hookedContext).1 = cb_state_e.BREAK ∧
    (runBody stepBackend []
      (hookInstruction (hookInstruction Explorator.new 0x1000 hookContinue) 0x1000 hookBreak)
      hookedContext 0).explorator.trace = [Event.hook 0x1000 cb_state_e.CONTINUE] := by
  refine ⟨by rfl, by rfl, by rfl⟩

theorem hookInstruction_of_some (st : Explorator) (a : Nat) (g fn : instCallback)
    (h : st.instHooks.lookup a = some fn) : hookInstruction st a g = st := by
  unfold hookInstruction
  rw [h]

theorem hookInstruction_of_none (st : Explorator) (a : Nat) (f : instCallback)
    (h : st.instHooks.lookup a = none) :
    hookInstruction st a f = { st with instHooks := (a, f) :: st.instHooks } := by
  unfold hookInstruction
  rw [h]

/-- C4, amended: after `hookInstruction(a, f)` followed by
`hookInstruction(a, g)` the hook found at `a` is the one that was registered
there before, and `f` when there was none: the first registration wins and
`g` is ignored; the hooks found at the other addresses are unchanged. -/
theorem hookInstruction_first_wins (st : Explorator) (a : Nat) (f g : instCallback) :
    (hookInstruction (hookInstruction st a f) a g).instHooks.lookup a
      = some ((st.instHooks.lookup a).getD f) ∧
    ∀ b, b ≠ a →
      (hookInstruction (hookInstruction st a f) a g).instHooks.lookup b
        = st.instHooks.lookup b := by
  cases h : st.instHooks.lookup a with
  | some fn =>
    rw [hookInstruction_of_some st a f fn h, hookInstruction_of_some st a g fn h]
    exact ⟨by simp [h], fun _ _ => rfl⟩
  | none =>
    have h1 : (hookInstruction st a f).instHooks = (a, f) :: st.instHooks := by
      rw [hookInstruction_of_none st a f h]
    have h3 : (hookInstruction st a f).instHooks.lookup a = some f := by
      simp [h1, List.lookup]
    rw [hookInstruction_of_some _ a g f h3, h1]
    refine ⟨by simp [List.lookup], fun b hb => ?_⟩
    have : (b == a) = false := by simpa using hb
    simp [List.lookup, this]

/-- C4, amended, on the fresh explorator and the two sample hooks. -/
theorem hookInstruction_first_wins_witness :
    (hookInstruction (hookInstruction Explorator.new 0x1000 hookContinue) 0x1000
        hookBreak).instHooks.lookup 0x2000 = none :=
  (hookInstruction_first_wins Explorator.new 0x1000 hookContinue hookBreak).2 0x2000 (by decide)

/-! ### Snapshots -/

theorem assocSet_of_not_mem {β : Type} (m : List (Nat × β)) (k : Nat) (v : β)
    (h : k ∉ m.map Prod.fst) : assocSet m k v = m ++ [(k, v)] := by
  induction m with
  | nil => rfl
  | cons kv t ih =>
    obtain ⟨k', v'⟩ := kv
    simp only [List.map_cons, List.mem_cons, not_or] at h
    have hne : ¬ k' = k := fun e => h.1 e.symm
    simp [assocSet, hne, ih h.2]

/-- Replaying a table with distinct keys into a table that has none of them
appends it. -/
theorem foldl_assocSet_replay {β : Type} (l : List (Nat × β)) :
    ∀ acc : List (Nat × β), (acc.map Prod.fst ++ l.map Prod.fst).Nodup →
      l.foldl (fun m item => assocSet m item.1 item.2) acc = acc ++ l := by
  induction l with
  | nil => intro acc _; simp
  | cons kv t ih =>
    intro acc h
    obtain ⟨k, v⟩ := kv
    have hk : k ∉ acc.map Prod.fst := by
      intro hmem
      have := (List.nodup_append.mp h).2.2
      exact this hmem (by simp)
    rw [List.foldl_cons, assocSet_of_not_mem acc k v hk, ih]
    · simp
    · simpa [List.map_append, List.append_assoc] using h

theorem foldl_assignRegister (l : List (Nat × Ast)) (d : Context) :
    l.foldl (fun d item => d.assignSymbolicExpressionToRegister item.2 item.1) d
      = { d with symRegs := l.foldl (fun m item => assocSet m item.1 item.2) d.symRegs } := by
  induction l generalizing d with
  | nil => rfl
  | cons kv t ih => rw [List.foldl_cons, ih]; rfl

theorem foldl_assignMemory (l : List (Nat × Ast)) (d : Context) :
    l.foldl (fun d item => d.assignSymbolicExpressionToMemory item.2 item.1) d
      = { d with symMem := l.foldl (fun m item => assocSet m item.1 item.2) d.symMem } := by
  induction l generalizing d with
  | nil => rfl
  | cons kv t ih => rw [List.foldl_cons, ih]; rfl

theorem foldl_pushRecord (l : List PathConstraint) (d : Context) :
    l.foldl (fun d pc => d.pushPathConstraintRecord pc) d
      = { d with pathConstraints := d.pathConstraints ++ l } := by
  induction l generalizing d with
  | nil => simp
  | cons pc t ih =>
    rw [List.foldl_cons, ih]
    simp [Context.pushPathConstraintRecord]

/-- What a snapshot from a source of a supported architecture, whose tables
have distinct keys, leaves in the destination. -/
theorem snapshotContext_ok (dst src : Context) (ha : src.arch.snapshotSupported = true)
    (hr : (src.symRegs.map Prod.fst).Nodup) (hm : (src.symMem.map Prod.fst).Nodup) :
    snapshotContext dst src = .ok
      { dst with cpu := src.cpu, symRegs := src.symRegs, symMem := src.symMem,
                 pathConstraints := src.pathConstraints } := by
  have hgo : (src.pathConstraints.foldl (fun d pc => d.pushPathConstraintRecord pc)
      (Context.clearPathConstraints
        (src.symMem.foldl (fun d item => d.assignSymbolicExpressionToMemory item.2 item.1)
          (Context.concretizeAllMemory
            (src.symRegs.foldl (fun d item => d.assignSymbolicExpressionToRegister item.2 item.1)
              (Context.concretizeAllRegister { dst with cpu := src.cpu }))))))
      = { dst with cpu := src.cpu, symRegs := src.symRegs, symMem := src.symMem,
                   pathConstraints := src.pathConstraints } := by
    rw [foldl_pushRecord, foldl_assignMemory, foldl_assignRegister]
    simp only [Context.clearPathConstraints, Context.concretizeAllMemory,
      Context.concretizeAllRegister]
    rw [foldl_assocSet_replay src.symRegs [] (by simpa using hr),
      foldl_assocSet_replay src.symMem [] (by simpa using hm)]
    simp
  unfold snapshotContext
  simp only [hgo]
  cases h : src.arch <;> simp_all [Arch.snapshotSupported]

/-- C5: take a state `S` of a supported architecture whose symbolic tables
have distinct keys, and a backup `B` of the same architecture.  The snapshot
of `S` into `B` succeeds, and restoring from it whatever state `S'` the
mutations of `S` led to (of the same architecture) succeeds and gives a state
with the CPU registers and memory, the symbolic register assignments, the
symbolic memory assignments and the ordered path constraints of `S`. -/
theorem snapshot_roundtrip (S B S' : Context) (ha : S.arch.snapshotSupported = true)
    (hB : B.arch = S.arch)
    (hr : (S.symRegs.map Prod.fst).Nodup) (hm : (S.symMem.map Prod.fst).Nodup) :
    ∃ B' S'', snapshotContext B S = .ok B' ∧ snapshotContext S' B' = .ok S'' ∧
      S''.cpu = S.cpu ∧ S''.symRegs = S.symRegs ∧ S''.symMem = S.symMem ∧
      S''.pathConstraints = S.pathConstraints ∧ S''.arch = S'.arch := by
  refine ⟨_, _, snapshotContext_ok B S ha hr hm, snapshotContext_ok S' _ ?_ ?_ ?_, ?_⟩
  · simpa [hB] using ha
  · simpa using hr
  · simpa using hm
  · simp

/-- C5 on the sample state: register 1 holds `0x41`, the state is
snapshotted into a fresh backup, mutated (register 1 holds `0x42`) and
restored; register 1 reads `0x41` again and the tables and path constraints
are those of the sample. -/
theorem snapshot_roundtrip_witness :
    snapshotMutated.cpu.regs 1 = 0x42 ∧
    ∃ B' S'', snapshotContext (Context.fresh Arch.ARCH_X86_64) snapshotSample = .ok B' ∧
      snapshotContext snapshotMutated B' = .ok S'' ∧
      S''.cpu.regs 1 = 0x41 ∧ S''.symRegs = snapshotSample.symRegs ∧
      S''.symMem = snapshotSample.symMem ∧
      S''.pathConstraints = snapshotSample.pathConstraints := by
  refine ⟨by rfl, ?_⟩
  obtain ⟨B', S'', h1, h2, h3, h4, h5, h6, _⟩ :=
    snapshot_roundtrip snapshotSample (Context.fresh Arch.ARCH_X86_64) snapshotMutated
      (by rfl) (by rfl) (by decide) (by decide)
  exact ⟨B', S'', h1, h2, by rw [h3]; rfl, h4, h5, h6⟩

/-! ### Frame lemmas: what the solver-facing methods leave alone -/

/-- The loop over the models of a query adds their number to `nbsat` and
pushes them at the head of the worklist, the last one first. -/
theorem pushModels_eq (models : List Seed) (st : Explorator) :
    pushModels st models =
      { st with nbsat := st.nbsat + models.length,
                worklist := models.reverse ++ st.worklist } := by
  unfold pushModels
  induction models generalizing st with
  | nil => simp
  | cons m ms ih =>
    rw [List.foldl_cons, ih]
    simp [Nat.add_assoc, Nat.add_comm 1]

theorem solverOnly_refl (st : Explorator) : SolverOnly st st :=
  ⟨rfl, rfl, rfl, rfl, rfl, rfl, [], by simp, by simp⟩

theorem solverOnly_trans {a b c : Explorator} (h1 : SolverOnly a b) (h2 : SolverOnly b c) :
    SolverOnly a c := by
  obtain ⟨a1, a2, a3, a4, a5, a6, n1, t1, q1⟩ := h1
  obtain ⟨b1, b2, b3, b4, b5, b6, n2, t2, q2⟩ := h2
  refine ⟨b1.trans a1, b2.trans a2, b3.trans a3, b4.trans a4, b5.trans a5, b6.trans a6,
    n1 ++ n2, by rw [t2, t1, List.append_assoc], ?_⟩
  intro e he
  rcases List.mem_append.mp he with h | h
  · exact q1 e h
  · exact q2 e h

theorem insertDone_solverOnly (st : Explorator) (key : List Nat) :
    SolverOnly st (st.insertDone key) :=
  ⟨rfl, rfl, rfl, rfl, rfl, rfl, [Event.done key], rfl, by simp [Event.isQuery]⟩

theorem log_solve_solverOnly (st : Explorator) (site : Site) (key : List Nat) (f : Ast)
    (limit : Nat) : SolverOnly st (st.log (Event.solve site key f limit)) :=
  ⟨rfl, rfl, rfl, rfl, rfl, rfl, [Event.solve site key f limit], rfl, by simp [Event.isQuery]⟩

theorem accountModels_solverOnly (st : Explorator) (r : Status × List Seed) :
    SolverOnly st (accountModels st r) := by
  unfold accountModels
  split
  · rw [pushModels_eq]
    exact ⟨rfl, rfl, rfl, rfl, rfl, rfl, [], by simp, by simp⟩
  · exact ⟨rfl, rfl, rfl, rfl, rfl, rfl, [], by simp, by simp⟩
  · exact ⟨rfl, rfl, rfl, rfl, rfl, rfl, [], by simp, by simp⟩

theorem accountModel_solverOnly (st : Explorator) (r : Status × Seed) :
    SolverOnly st (accountModel st r) := by
  unfold accountModel
  split <;> exact ⟨rfl, rfl, rfl, rfl, rfl, rfl, [], by simp, by simp⟩

theorem seaOperand_solverOnly (be : Backend) (address : Nat) (acc : Explorator × Context)
    (operand : Operand) : SolverOnly acc.1 (seaOperand be address acc operand).1 := by
  unfold seaOperand
  split
  · split
    · by_cases hk : buildPathAddrs acc.2 ++ [address] ∈ acc.1.donelist
      · simp only [hk, if_true]; exact solverOnly_refl _
      · simp only [hk, if_false]
        exact solverOnly_trans
          (solverOnly_trans (insertDone_solverOnly _ _) (log_solve_solverOnly _ _ _ _ _))
          (accountModels_solverOnly _ _)
    · exact solverOnly_refl _
  · exact solverOnly_refl _

theorem symbolizeEffectiveAddress_solverOnly (be : Backend) (st : Explorator) (ctx : Context)
    (inst : Instruction) : SolverOnly st (symbolizeEffectiveAddress be st ctx inst).1 := by
  unfold symbolizeEffectiveAddress
  generalize inst.operands = ops
  have : ∀ acc : Explorator × Context,
      SolverOnly acc.1 (ops.foldl (seaOperand be inst.address) acc).1 := by
    induction ops with
    | nil => intro acc; exact solverOnly_refl _
    | cons o os ih =>
      intro acc
      exact solverOnly_trans (seaOperand_solverOnly be inst.address acc o) (ih _)
  exact this (st, ctx)

theorem fniBranch_solverOnly (be : Backend) (pc : PathConstraint) (pathaddrs : List Nat)
    (predicate : Ast) (st : Explorator) (branch : Branch) :
    SolverOnly st (fniBranch be pc pathaddrs predicate st branch) := by
  unfold fniBranch
  by_cases hk : pathaddrs ++ [branch.dstAddr] ∈ st.donelist
  · simp only [hk, if_true]; exact solverOnly_refl _
  · simp only [hk, if_false]
    split
    · split
      · exact solverOnly_trans
          (solverOnly_trans (insertDone_solverOnly _ _) (log_solve_solverOnly _ _ _ _ _))
          (accountModel_solverOnly _ _)
      · exact insertDone_solverOnly _ _
    · exact solverOnly_trans
          (solverOnly_trans (insertDone_solverOnly _ _) (log_solve_solverOnly _ _ _ _ _))
        (accountModels_solverOnly _ _)

theorem fniLoop_solverOnly (be : Backend) (pcs : List PathConstraint) (pathaddrs : List Nat)
    (predicate : Ast) (st : Explorator) :
    SolverOnly st (fniLoop be pcs pathaddrs predicate st) := by
  induction pcs generalizing pathaddrs predicate st with
  | nil => exact solverOnly_refl _
  | cons pc rest ih =>
    refine solverOnly_trans ?_ (ih _ _ _)
    generalize pc.branches = bs
    induction bs generalizing st with
    | nil => exact solverOnly_refl _
    | cons b bs ihb => exact solverOnly_trans (fniBranch_solverOnly be pc _ predicate st b) (ihb _)

theorem findNewInputs_solverOnly (be : Backend) (st : Explorator) (ctx : Context) :
    SolverOnly st (findNewInputs be st ctx) :=
  fniLoop_solverOnly be ctx.pathConstraints [] _ st

theorem initialQuery_solverOnly (be : Backend) (st : Explorator) (ctx : Context) :
    SolverOnly st (initialQuery be st ctx) := by
  unfold initialQuery
  simp only
  split <;>
    exact ⟨rfl, rfl, rfl, rfl, rfl, rfl, [Event.solve Site.init [] _ 1], rfl,
      by simp [Event.isQuery]⟩

/-- Whether it returns or throws, `initWorklist` leaves the explorator as the
initial query left it. -/
theorem initWorklist_val (be : Backend) (st : Explorator) (ctx : Context) :
    (initWorklist be st ctx).val = initialQuery be st ctx := by
  unfold initWorklist
  simp only
  split
  · rfl
  · split
    · rfl
    · split <;> rfl

/-- The method `initWorklist` returns when the three directories can be
created, and otherwise throws the error of the first that cannot. -/
theorem initWorklist_cases (be : Backend) (st : Explorator) (ctx : Context) :
    initWorklist be st ctx = Outcome.done (initialQuery be st ctx) ∨
    ∃ path, initWorklist be st ctx
      = Outcome.raised (filesystemErrorMessage path) (initialQuery be st ctx) := by
  unfold initWorklist
  simp only
  split
  · exact Or.inr ⟨_, rfl⟩
  · split
    · exact Or.inr ⟨_, rfl⟩
    · split
      · exact Or.inr ⟨_, rfl⟩
      · exact Or.inl rfl

theorem initWorklist_solverOnly (be : Backend) (st : Explorator) (ctx : Context) :
    SolverOnly st (initWorklist be st ctx).val := by
  rw [initWorklist_val]
  exact initialQuery_solverOnly be st ctx

/-! ### Projections of the log -/

theorem fetchLog_append (a b : List Event) : fetchLog (a ++ b) = fetchLog a ++ fetchLog b := by
  induction a with
  | nil => rfl
  | cons e es ih => cases e <;> simp [fetchLog, ih]

theorem writeLog_append (a b : List Event) : writeLog (a ++ b) = writeLog a ++ writeLog b := by
  induction a with
  | nil => rfl
  | cons e es ih => cases e <;> simp [writeLog, ih]

theorem fetchLog_queries (new : List Event) (h : ∀ e ∈ new, e.isQuery = true) :
    fetchLog new = [] := by
  induction new with
  | nil => rfl
  | cons e es ih =>
    have he := h e (by simp)
    have hes : ∀ e ∈ es, e.isQuery = true := fun x hx => h x (by simp [hx])
    cases e <;> simp_all [fetchLog, Event.isQuery]

theorem writeLog_queries (new : List Event) (h : ∀ e ∈ new, e.isQuery = true) :
    writeLog new = [] := by
  induction new with
  | nil => rfl
  | cons e es ih =>
    have he := h e (by simp)
    have hes : ∀ e ∈ es, e.isQuery = true := fun x hx => h x (by simp [hx])
    cases e <;> simp_all [writeLog, Event.isQuery]

theorem solverOnly_fetchLog {st st' : Explorator} (h : SolverOnly st st') :
    fetchLog st'.trace = fetchLog st.trace := by
  obtain ⟨_, _, _, _, _, _, new, ht, hq⟩ := h
  rw [ht, fetchLog_append, fetchLog_queries new hq, List.append_nil]

theorem solverOnly_writeLog {st st' : Explorator} (h : SolverOnly st st') :
    writeLog st'.trace = writeLog st.trace := by
  obtain ⟨_, _, _, _, _, _, new, ht, hq⟩ := h
  rw [ht, writeLog_append, writeLog_queries new hq, List.append_nil]

/-! ### Coverage accounting -/

theorem coverageAt_bump (c : List (Nat × Nat)) (a b : Nat) :
    coverageAt (bumpCoverage c a) b = coverageAt c b + if b = a then 1 else 0 := by
  induction c with
  | nil =>
    by_cases h : b = a
    · simp [bumpCoverage, coverageAt, List.lookup, h]
    · have : (b == a) = false := by simpa using h
      simp [bumpCoverage, coverageAt, List.lookup, h, this]
  | cons kv t ih =>
    obtain ⟨k, v⟩ := kv
    unfold coverageAt at ih ⊢
    by_cases hk : k = a
    · subst hk
      by_cases hb : b = k
      · subst hb
        simp [bumpCoverage, List.lookup]
      · have : (b == k) = false := by simpa using hb
        simp [bumpCoverage, List.lookup, hb, this]
    · by_cases hb : b = k
      · subst hb
        simp [bumpCoverage, List.lookup, hk]
      · have : (b == k) = false := by simpa using hb
        simp only [bumpCoverage, hk, if_false, List.lookup, this]
        exact ih

theorem coverageSum_bump (c : List (Nat × Nat)) (a : Nat) :
    coverageSum (bumpCoverage c a) = coverageSum c + 1 := by
  induction c with
  | nil => simp [bumpCoverage, coverageSum]
  | cons kv t ih =>
    obtain ⟨k, v⟩ := kv
    unfold coverageSum at ih ⊢
    by_cases hk : k = a
    · simp [bumpCoverage, hk]; omega
    · simp only [bumpCoverage, hk, if_false, List.map_cons, List.sum_cons, ih]; omega

theorem coverageAccounted_of_same {st st' : Explorator} (h : CoverageAccounted st)
    (hc : st'.coverage = st.coverage) (hf : fetchLog st'.trace = fetchLog st.trace) :
    CoverageAccounted st' := by
  unfold CoverageAccounted processedCount processedTotal at *
  rw [hc, hf]
  exact h

theorem coverageAccounted_of_solverOnly {st st' : Explorator} (h : CoverageAccounted st)
    (hs : SolverOnly st st') : CoverageAccounted st' :=
  coverageAccounted_of_same h hs.2.2.2.1 (solverOnly_fetchLog hs)

theorem coverageAccounted_of_fault {st st' : Explorator} (h : CoverageAccounted st) (pc : Nat)
    (hc : st'.coverage = st.coverage)
    (hf : fetchLog st'.trace = fetchLog st.trace ++ [(pc, true)]) :
    CoverageAccounted st' := by
  unfold CoverageAccounted processedCount processedTotal at *
  rw [hc, hf]
  refine ⟨fun a => ?_, ?_⟩
  · rw [List.count_append, h.1 a]
    simp [List.count_singleton]
  · rw [List.countP_append, h.2]
    simp

theorem coverageAccounted_of_processed {st st' : Explorator} (h : CoverageAccounted st)
    (pc : Nat) (hc : st'.coverage = bumpCoverage st.coverage pc)
    (hf : fetchLog st'.trace = fetchLog st.trace ++ [(pc, false)]) :
    CoverageAccounted st' := by
  unfold CoverageAccounted processedCount processedTotal at *
  rw [hc, hf]
  refine ⟨fun a => ?_, ?_⟩
  · rw [List.count_append, coverageAt_bump, h.1 a]
    by_cases hap : a = pc
    · simp [List.count_singleton, hap]
    · have : ¬ pc = a := fun e => hap e.symm
      simp [List.count_singleton, hap, this]
  · rw [List.countP_append, coverageSum_bump, h.2]
    simp

theorem fetchLog_log_hook (st : Explorator) (pc : Nat) (state : cb_state_e) :
    fetchLog (st.log (Event.hook pc state)).trace = fetchLog st.trace := by
  simp [Explorator.log, fetchLog_append, fetchLog]

theorem fetchLog_log_ret (st : Explorator) :
    fetchLog (st.log Event.ret).trace = fetchLog st.trace := by
  simp [Explorator.log, fetchLog_append, fetchLog]

theorem fetchLog_writeSeedOnDisk (dir : String) (seed : Seed) (st : Explorator) (ctx : Context) :
    fetchLog (writeSeedOnDisk dir seed st ctx).trace = fetchLog st.trace := by
  simp [writeSeedOnDisk, Explorator.log, fetchLog_append, fetchLog]

theorem fetchLog_log_invalidControlFlow (st : Explorator) (pc : Nat) :
    fetchLog (st.log (Event.invalidControlFlow pc)).trace = fetchLog st.trace := by
  simp [Explorator.log, fetchLog_append, fetchLog]

theorem fetchLog_log_invalidInstruction (st : Explorator) (pc : Nat) :
    fetchLog (st.log (Event.invalidInstruction pc)).trace = fetchLog st.trace := by
  simp [Explorator.log, fetchLog_append, fetchLog]

theorem fetchLog_log_fetch (st : Explorator) (pc : Nat) (fault : Bool) :
    fetchLog (st.log (Event.fetch pc fault)).trace = fetchLog st.trace ++ [(pc, fault)] := by
  simp [Explorator.log, fetchLog_append, fetchLog]

/-- What `asmret` does to the explorator when it does not throw. -/
theorem asmret_ok (be : Backend) (st : Explorator) (ctx : Context) (st' : Explorator)
    (ctx' : Context) (h : asmret be st ctx = .ok (st', ctx')) : st' = st.log Event.ret := by
  unfold asmret at h
  split at h <;> simp at h <;> exact h.1.symm

theorem runBody_coverageAccounted (be : Backend) (seed : Seed) (st : Explorator)
    (ctx : Context) (count : Nat) (h : CoverageAccounted st) :
    CoverageAccounted (runBody be seed st ctx count).explorator := by
  unfold runBody
  split
  · exact h
  · simp only
    split
    · split
      · exact coverageAccounted_of_same h rfl (fetchLog_log_hook _ _ _)
      · exact coverageAccounted_of_same h rfl (fetchLog_log_hook _ _ _)
      · split
        · rename_i st2 ctx2 heq
          rw [asmret_ok _ _ _ _ _ heq]
          exact coverageAccounted_of_same h rfl (by
            simp only [Body.explorator]
            rw [fetchLog_log_ret, fetchLog_log_hook])
        · exact coverageAccounted_of_same h rfl (fetchLog_log_hook _ _ _)
    · split
      · exact coverageAccounted_of_same h rfl (by
          simp only [Body.explorator]
          rw [fetchLog_writeSeedOnDisk, fetchLog_log_invalidControlFlow])
      · split
        · rename_i hfault
          refine coverageAccounted_of_fault h ctx.cpu.pc rfl ?_
          simp only [Body.explorator]
          rw [fetchLog_writeSeedOnDisk, fetchLog_log_invalidInstruction, fetchLog_log_fetch,
            hfault]
        · rename_i hfault
          have hfault' : (be.processing ctx ctx.cpu.pc
              (ctx.getConcreteMemoryAreaValue ctx.cpu.pc 16)).fault = false := by
            simpa using hfault
          have hs := symbolizeEffectiveAddress_solverOnly be
            (st.log (Event.fetch ctx.cpu.pc (be.processing ctx ctx.cpu.pc
              (ctx.getConcreteMemoryAreaValue ctx.cpu.pc 16)).fault))
            (be.processing ctx ctx.cpu.pc (ctx.getConcreteMemoryAreaValue ctx.cpu.pc 16)).ctx
            { address := ctx.cpu.pc, opcodes := ctx.getConcreteMemoryAreaValue ctx.cpu.pc 16,
              operands := (be.processing ctx ctx.cpu.pc
                (ctx.getConcreteMemoryAreaValue ctx.cpu.pc 16)).operands }
          refine coverageAccounted_of_processed h ctx.cpu.pc ?_ ?_
          · simp only [Body.explorator]
            rw [hs.2.2.2.1]
            rfl
          · simp only [Body.explorator]
            rw [solverOnly_fetchLog hs, fetchLog_log_fetch, hfault']

theorem runLoop_coverageAccounted (be : Backend) (seed : Seed) (fuel : Nat) :
    ∀ (st : Explorator) (ctx : Context) (count : Nat), CoverageAccounted st →
      CoverageAccounted (runLoop be seed fuel st ctx count).val.1 := by
  induction fuel with
  | zero => intro st ctx count h; exact h
  | succ n ih =>
    intro st ctx count h
    have hb := runBody_coverageAccounted be seed st ctx count h
    unfold runLoop
    split
    · rename_i heq; rw [heq] at hb; exact hb
    · rename_i heq; rw [heq] at hb; exact hb
    · rename_i heq
      rw [heq] at hb
      split
      · exact ih _ _ _ hb
      · exact hb

theorem run_coverageAccounted (be : Backend) (fuel : Nat) (seed : Seed) (st : Explorator)
    (ctx : Context) (h : CoverageAccounted st) :
    CoverageAccounted (run be fuel seed st ctx).val.1 := by
  have hl := runLoop_coverageAccounted be seed fuel st ctx 0 h
  unfold run
  split
  · rename_i heq
    rw [heq] at hl
    exact coverageAccounted_of_same hl rfl (by
      simp [Outcome.val, stopExecution, writeSeedOnDisk, Explorator.log, fetchLog_append,
        fetchLog])
  · rename_i heq; rw [heq] at hl; exact hl
  · rename_i heq; rw [heq] at hl; exact hl

theorem exploreLoop_coverageAccounted (be : Backend) (bck : Context) (fuel : Nat) :
    ∀ (st : Explorator) (ctx : Context), CoverageAccounted st →
      CoverageAccounted (exploreLoop be bck fuel st ctx).val := by
  induction fuel with
  | zero =>
    intro st ctx h
    unfold exploreLoop
    split
    · exact coverageAccounted_of_same h rfl rfl
    · exact coverageAccounted_of_same h rfl rfl
  | succ n ih =>
    intro st ctx h
    unfold exploreLoop
    split
    · exact coverageAccounted_of_same h rfl rfl
    · rename_i seed rest hw
      simp only
      have hr := run_coverageAccounted be n seed { st with worklist := rest }
        (injectSeed seed ctx) (coverageAccounted_of_same h rfl rfl)
      split
      · rename_i heq; rw [heq] at hr; exact coverageAccounted_of_same hr rfl rfl
      · rename_i heq; rw [heq] at hr; exact coverageAccounted_of_same hr rfl rfl
      · rename_i st2 ctx2 heq
        rw [heq] at hr
        have hf := coverageAccounted_of_solverOnly hr (findNewInputs_solverOnly be st2 ctx2)
        split
        · exact coverageAccounted_of_same hf rfl rfl
        · exact ih _ _ hf

theorem explore_coverageAccounted (be : Backend) (fuel : Nat) (st : Explorator)
    (h : CoverageAccounted st) : CoverageAccounted (explore be fuel st).val := by
  unfold explore
  split
  · exact h
  · rename_i ctx hctx
    simp only
    split
    · exact coverageAccounted_of_same h rfl rfl
    · rename_i bck hb
      have h1 : CoverageAccounted { st with bck_ctx := some bck } := coverageAccounted_of_same h rfl rfl
      have h2 := coverageAccounted_of_solverOnly h1 (initWorklist_solverOnly be _ ctx)
      split
      · rename_i st2 heq
        rw [heq] at h2
        exact exploreLoop_coverageAccounted be bck fuel _ ctx h2
      · exact h2

/-- C6 as stated fails on a trace that ends on a processing fault: on the
state of harness 1 with a back-end that faults on the first instruction, one
instruction was fetched at `0x40056d` and handed to the back-end, yet the
trace is over, the coverage map is empty and its counts add up to zero. -/
theorem coverage_misses_faulting_fetch :
    (∃ st, explore faultBackend 2 harnessExplorator = Outcome.done st) ∧
    fetchCount 0x40056d (explore faultBackend 2 harnessExplorator).val.trace = 1 ∧
    (fetchLog (explore faultBackend 2 harnessExplorator).val.trace).length = 1 ∧
    coverageAt (explore faultBackend 2 harnessExplorator).val.coverage 0x40056d = 0 ∧
    coverageSum (explore faultBackend 2 harnessExplorator).val.coverage = 0 := by
  refine ⟨⟨_, rfl⟩, by rfl, by rfl, by rfl, by rfl⟩

/-- C6, amended: take an explorator whose coverage map accounts for its log
(a fresh one does: nothing logged, empty map).  After `explore`, however many
traces it ran and whether it returned, threw or was cut off, for every
address `a` the count `coverage[a]` is the number of times an instruction at
`a` was fetched and processed without fault, and the counts add up to the
number of instructions fetched and processed without fault.  The fetch on
which a trace ends with a fault is not counted, nor is the synthetic `ret` of
`asmret`. -/
theorem coverage_counts_processed (be : Backend) (fuel : Nat) (st : Explorator)
    (h : CoverageAccounted st) :
    (∀ a, coverageAt (explore be fuel st).val.coverage a
        = processedCount a (explore be fuel st).val.trace) ∧
    coverageSum (explore be fuel st).val.coverage
      = processedTotal (explore be fuel st).val.trace :=
  explore_coverageAccounted be fuel st h

/-- C6, amended, on harness 1 with a back-end that processes the first
instruction and then runs into undefined memory: the one processed instruction
is counted. -/
theorem coverage_counts_processed_witness :
    CoverageAccounted harnessExplorator ∧
    coverageAt (explore stepBackend 3 harnessExplorator).val.coverage 0x40056d = 1 ∧
    coverageSum (explore stepBackend 3 harnessExplorator).val.coverage = 1 := by
  have h0 : CoverageAccounted harnessExplorator := ⟨fun _ => rfl, rfl⟩
  have h := coverage_counts_processed stepBackend 3 harnessExplorator h0
  refine ⟨h0, ?_, ?_⟩
  · rw [h.1 0x40056d]; rfl
  · rw [h.2]; rfl

/-! ### Files written by a trace -/

theorem crashLog_append (a b : List Event) : crashLog (a ++ b) = crashLog a ++ crashLog b := by
  induction a with
  | nil => rfl
  | cons e es ih => cases e <;> simp [crashLog, ih]

theorem crashLog_queries (new : List Event) (h : ∀ e ∈ new, e.isQuery = true) :
    crashLog new = [] := by
  induction new with
  | nil => rfl
  | cons e es ih =>
    have he := h e (by simp)
    have hes : ∀ e ∈ es, e.isQuery = true := fun x hx => h x (by simp [hx])
    cases e <;> simp_all [crashLog, Event.isQuery]

theorem quiet_refl (st : Explorator) : Quiet st st := ⟨rfl, rfl, rfl⟩

theorem quiet_trans {a b c : Explorator} (h1 : Quiet a b) (h2 : Quiet b c) : Quiet a c :=
  ⟨h2.1.trans h1.1, h2.2.1.trans h1.2.1, h2.2.2.trans h1.2.2⟩

theorem quiet_crashed {a b c : Explorator} {seed : Seed} {ctx : Context} (h1 : Quiet a b)
    (h2 : Crashed seed b c ctx) : Crashed seed a c ctx := by
  obtain ⟨n1, c1, w1⟩ := h1
  obtain ⟨n2, ⟨pc, c2⟩, w2⟩ := h2
  exact ⟨n2.trans n1, ⟨pc, by rw [c2, c1]⟩, by rw [w2, w1, n1]⟩

theorem solverOnly_quiet {st st' : Explorator} (h : SolverOnly st st') : Quiet st st' := by
  refine ⟨h.2.2.1, ?_, solverOnly_writeLog h⟩
  obtain ⟨_, _, _, _, _, _, new, ht, hq⟩ := h
  rw [ht, crashLog_append, crashLog_queries new hq, List.append_nil]

theorem quiet_log_hook (st : Explorator) (pc : Nat) (state : cb_state_e) :
    Quiet st (st.log (Event.hook pc state)) :=
  ⟨rfl, by simp [Explorator.log, crashLog_append, crashLog],
    by simp [Explorator.log, writeLog_append, writeLog]⟩

theorem quiet_log_ret (st : Explorator) : Quiet st (st.log Event.ret) :=
  ⟨rfl, by simp [Explorator.log, crashLog_append, crashLog],
    by simp [Explorator.log, writeLog_append, writeLog]⟩

theorem quiet_log_fetch (st : Explorator) (pc : Nat) (fault : Bool) :
    Quiet st (st.log (Event.fetch pc fault)) :=
  ⟨rfl, by simp [Explorator.log, crashLog_append, crashLog],
    by simp [Explorator.log, writeLog_append, writeLog]⟩

theorem crashed_invalidControlFlow (seed : Seed) (st : Explorator) (ctx : Context) (pc : Nat) :
    Crashed seed st (writeSeedOnDisk "crashes" seed (st.log (Event.invalidControlFlow pc)) ctx)
      ctx :=
  ⟨rfl, ⟨pc, by simp [writeSeedOnDisk, Explorator.log, crashLog_append, crashLog]⟩,
    by simp [writeSeedOnDisk, Explorator.log, writeLog_append, writeLog]⟩

theorem crashed_invalidInstruction (seed : Seed) (st : Explorator) (ctx : Context) (pc : Nat) :
    Crashed seed st (writeSeedOnDisk "crashes" seed (st.log (Event.invalidInstruction pc)) ctx)
      ctx :=
  ⟨rfl, ⟨pc, by simp [writeSeedOnDisk, Explorator.log, crashLog_append, crashLog]⟩,
    by simp [writeSeedOnDisk, Explorator.log, writeLog_append, writeLog]⟩

theorem runBody_files (be : Backend) (seed : Seed) (st : Explorator) (ctx : Context)
    (count : Nat) : (runBody be seed st ctx count).files seed st := by
  unfold runBody
  split
  · exact Or.inl (quiet_refl _)
  · simp only
    split
    · split
      · exact quiet_log_hook _ _ _
      · exact Or.inl (quiet_log_hook _ _ _)
      · split
        · rename_i st2 ctx2 heq
          rw [asmret_ok _ _ _ _ _ heq]
          exact quiet_trans (quiet_log_hook _ _ _) (quiet_log_ret _)
        · trivial
    · split
      · exact Or.inr (crashed_invalidControlFlow _ _ _ _)
      · split
        · exact Or.inr (quiet_crashed (quiet_log_fetch _ _ _) (crashed_invalidInstruction _ _ _ _))
        · have hs := symbolizeEffectiveAddress_solverOnly be
            (st.log (Event.fetch ctx.cpu.pc (be.processing ctx ctx.cpu.pc
              (ctx.getConcreteMemoryAreaValue ctx.cpu.pc 16)).fault))
            (be.processing ctx ctx.cpu.pc (ctx.getConcreteMemoryAreaValue ctx.cpu.pc 16)).ctx
            { address := ctx.cpu.pc, opcodes := ctx.getConcreteMemoryAreaValue ctx.cpu.pc 16,
              operands := (be.processing ctx ctx.cpu.pc
                (ctx.getConcreteMemoryAreaValue ctx.cpu.pc 16)).operands }
          have hq := quiet_trans (quiet_log_fetch st ctx.cpu.pc _) (solverOnly_quiet hs)
          exact ⟨hq.1, hq.2.1, hq.2.2⟩

theorem runLoop_files (be : Backend) (seed : Seed) (fuel : Nat) :
    ∀ (st : Explorator) (ctx : Context) (count : Nat) (st' : Explorator) (ctx' : Context),
      runLoop be seed fuel st ctx count = Outcome.done (st', ctx') →
      Quiet st st' ∨ Crashed seed st st' ctx' := by
  induction fuel with
  | zero => intro st ctx count st' ctx' h; simp [runLoop] at h
  | succ n ih =>
    intro st ctx count st' ctx' h
    have hb := runBody_files be seed st ctx count
    unfold runLoop at h
    split at h
    · rename_i st1 ctx1 heq
      rw [heq] at hb
      simp only [Outcome.done.injEq, Prod.mk.injEq] at h
      obtain ⟨rfl, rfl⟩ := h
      exact hb
    · simp at h
    · rename_i st1 ctx1 count1 pcval heq
      rw [heq] at hb
      have hq : Quiet st st1 := hb
      split at h
      · rcases ih _ _ _ _ _ h with h2 | h2
        · exact Or.inl (quiet_trans hq h2)
        · exact Or.inr (quiet_crashed hq h2)
      · simp only [Outcome.done.injEq, Prod.mk.injEq] at h
        obtain ⟨rfl, rfl⟩ := h
        exact Or.inl hq

theorem filesystemErrorMessage_head (path : String) :
    (filesystemErrorMessage path).data.head? = some 'f' := by
  simp only [filesystemErrorMessage, String.data_append, List.append_assoc]
  rfl

theorem filesystemErrorMessage_ne (path : String) :
    filesystemErrorMessage path ≠ nullContextMessage := by
  intro h
  have h2 := filesystemErrorMessage_head path
  rw [h] at h2
  revert h2
  decide

theorem initWorklist_raised_ne (be : Backend) (st : Explorator) (ctx : Context) (msg : String)
    (st' : Explorator) (h : initWorklist be st ctx = Outcome.raised msg st') :
    msg ≠ nullContextMessage := by
  rcases initWorklist_cases be st ctx with hd | ⟨path, hr⟩
  · rw [hd] at h
    simp at h
  · rw [hr] at h
    simp only [Outcome.raised.injEq] at h
    rw [← h.1]
    exact filesystemErrorMessage_ne path

theorem asmret_error_ne (be : Backend) (st : Explorator) (ctx : Context) (msg : String)
    (h : asmret be st ctx = .error msg) : msg ≠ nullContextMessage := by
  unfold asmret at h
  split at h
  · simp at h
  · simp at h
  · simp only [Except.error.injEq] at h
    subst h
    decide

theorem snapshotContext_error_ne (dst src : Context) (msg : String)
    (h : snapshotContext dst src = .error msg) : msg ≠ nullContextMessage := by
  unfold snapshotContext at h
  simp only at h
  split at h
  · simp at h
  · simp at h
  · simp at h
  · simp at h
  · simp only [Except.error.injEq] at h
    subst h
    decide

theorem runBody_raised_ne (be : Backend) (seed : Seed) (st : Explorator) (ctx : Context)
    (count : Nat) (msg : String) (st' : Explorator) (ctx' : Context)
    (h : runBody be seed st ctx count = Body.raised msg st' ctx') :
    msg ≠ nullContextMessage := by
  unfold runBody at h
  split at h
  · simp at h
  · simp only at h
    split at h
    · split at h
      · simp at h
      · simp at h
      · split at h
        · simp at h
        · rename_i msg' heq
          simp only [Body.raised.injEq] at h
          obtain ⟨rfl, _, _⟩ := h
          exact asmret_error_ne _ _ _ _ heq
    · split at h
      · simp at h
      · split at h <;> simp at h

theorem runLoop_raised_ne (be : Backend) (seed : Seed) (fuel : Nat) :
    ∀ (st : Explorator) (ctx : Context) (count : Nat) (msg : String)
      (a : Explorator × Context),
      runLoop be seed fuel st ctx count = Outcome.raised msg a → msg ≠ nullContextMessage := by
  induction fuel with
  | zero => intro st ctx count msg a h; simp [runLoop] at h
  | succ n ih =>
    intro st ctx count msg a h
    unfold runLoop at h
    split at h
    · simp at h
    · rename_i msg' st1 ctx1 heq
      simp only [Outcome.raised.injEq] at h
      obtain ⟨rfl, _⟩ := h
      exact runBody_raised_ne _ _ _ _ _ _ _ _ heq
    · split at h
      · exact ih _ _ _ _ _ h
      · simp at h

theorem run_raised_ne (be : Backend) (fuel : Nat) (seed : Seed) (st : Explorator)
    (ctx : Context) (msg : String) (a : Explorator × Context)
    (h : run be fuel seed st ctx = Outcome.raised msg a) : msg ≠ nullContextMessage := by
  unfold run at h
  split at h
  · simp at h
  · rename_i msg' a' heq
    simp only [Outcome.raised.injEq] at h
    obtain ⟨rfl, _⟩ := h
    exact runLoop_raised_ne _ _ _ _ _ _ _ _ heq
  · simp at h

theorem exploreLoop_raised_ne (be : Backend) (bck : Context) (fuel : Nat) :
    ∀ (st : Explorator) (ctx : Context) (msg : String) (st' : Explorator),
      exploreLoop be bck fuel st ctx = Outcome.raised msg st' → msg ≠ nullContextMessage := by
  induction fuel with
  | zero =>
    intro st ctx msg st' h
    unfold exploreLoop at h
    split at h <;> simp at h
  | succ n ih =>
    intro st ctx msg st' h
    unfold exploreLoop at h
    split at h
    · simp at h
    · simp only at h
      split at h
      · simp at h
      · rename_i msg' st2 ctx2 heq
        simp only [Outcome.raised.injEq] at h
        obtain ⟨rfl, _⟩ := h
        exact run_raised_ne _ _ _ _ _ _ _ heq
      · split at h
        · rename_i msg' heq
          simp only [Outcome.raised.injEq] at h
          obtain ⟨rfl, _⟩ := h
          exact snapshotContext_error_ne _ _ _ heq
        · exact ih _ _ _ _ h

/-- C8: `explore` throws its `initial context cannot be null` error if and
only if the initial context is null at entry, and when it does the explorator
is exactly as it was at entry: no backup context was allocated and the
worklist, the donelist, the coverage map and the four counters are
unchanged. -/
theorem explore_null_context (be : Backend) (fuel : Nat) (st : Explorator) :
    ((∃ st', explore be fuel st = Outcome.raised nullContextMessage st') ↔ st.ini_ctx = none) ∧
    (∀ st', explore be fuel st = Outcome.raised nullContextMessage st' →
      st' = st ∧ st'.bck_ctx = st.bck_ctx ∧ st'.worklist = st.worklist ∧
      st'.donelist = st.donelist ∧ st'.coverage = st.coverage ∧ st'.nbexec = st.nbexec ∧
      st'.nbsat = st.nbsat ∧ st'.nbunsat = st.nbunsat ∧ st'.nbtimeout = st.nbtimeout) := by
  have key : ∀ st', explore be fuel st = Outcome.raised nullContextMessage st' →
      st.ini_ctx = none ∧ st' = st := by
    intro st' h
    unfold explore at h
    split at h
    · rename_i hnone
      simp only [Outcome.raised.injEq, true_and] at h
      exact ⟨hnone, h.symm⟩
    · simp only at h
      split at h
      · rename_i msg heq
        simp only [Outcome.raised.injEq] at h
        exact absurd h.1 (snapshotContext_error_ne _ _ _ heq)
      · split at h
        · exact absurd rfl (exploreLoop_raised_ne _ _ _ _ _ _ _ h)
        · exact absurd rfl (initWorklist_raised_ne _ _ _ _ _ h)
  refine ⟨⟨fun ⟨st', h⟩ => (key st' h).1, fun hnone => ⟨st, ?_⟩⟩, fun st' h => ?_⟩
  · unfold explore
    rw [hnone]
  · obtain ⟨_, rfl⟩ := key st' h
    exact ⟨rfl, rfl, rfl, rfl, rfl, rfl, rfl, rfl, rfl⟩

/-- C8 on the default-constructed explorator, whose initial context is null:
`explore` throws the error and the backup context is still null. -/
theorem explore_null_context_witness :
    explore faultBackend 3 Explorator.new
      = Outcome.raised nullContextMessage Explorator.new ∧
    (Explorator.new).bck_ctx = none :=
  ⟨rfl, ((explore_null_context faultBackend 3 Explorator.new).2 Explorator.new rfl).2.1⟩

/-! ### The initial query -/

theorem snapshotContext_supported (dst src : Context) (ha : src.arch.snapshotSupported = true) :
    ∃ bck, snapshotContext dst src = .ok bck := by
  unfold snapshotContext
  simp only
  cases h : src.arch <;> simp_all [Arch.snapshotSupported]

/-- The loop of `explore` on an empty worklist returns at once. -/
theorem exploreLoop_nil (be : Backend) (bck : Context) (fuel : Nat) (st : Explorator)
    (ctx : Context) (h : st.worklist = []) :
    exploreLoop be bck fuel st ctx = Outcome.done { st with ini_ctx := some ctx, bck_ctx := none } := by
  cases fuel <;> (unfold exploreLoop; rw [h])

/-- What the initial query does on a timeout. -/
theorem initialQuery_timeout (be : Backend) (st : Explorator) (ctx : Context)
    (h : (be.getModel st.trace ctx.getPathPredicate st.config.timeout).1 = Status.TIMEOUT) :
    initialQuery be st ctx =
      { st with nbtimeout := st.nbtimeout + 1,
                trace := st.trace ++ [Event.solve Site.init [] ctx.getPathPredicate 1] } := by
  unfold initialQuery
  simp only [h]
  rfl

/-- The method `initWorklist` throws the error of the first of the three
directories that cannot be created, and returns when there is none. -/
theorem initWorklist_eq (be : Backend) (st : Explorator) (ctx : Context) :
    initWorklist be st ctx =
      match (workspaceDirs st).find? (fun p => !be.create_directories p) with
      | some p => Outcome.raised (filesystemErrorMessage p) (initialQuery be st ctx)
      | none => Outcome.done (initialQuery be st ctx) := by
  have hcfg : (initialQuery be st ctx).config = st.config := (initialQuery_solverOnly be st ctx).1
  unfold initWorklist
  simp only [hcfg, workspaceDirs, List.find?]
  cases h1 : be.create_directories (st.config.workspace ++ "/corpus") <;>
    cases h2 : be.create_directories (st.config.workspace ++ "/crashes") <;>
    cases h3 : be.create_directories (st.config.workspace ++ "/coverage") <;> simp

/-- The shape of `explore` past the null check and the first snapshot. -/
theorem explore_eq (be : Backend) (fuel : Nat) (st : Explorator) (ctx bck : Context)
    (hc : st.ini_ctx = some ctx)
    (hb : snapshotContext (Context.fresh ctx.arch) ctx = .ok bck) :
    explore be fuel st
      = match initWorklist be { st with bck_ctx := some bck } ctx with
        | Outcome.done st2 => exploreLoop be bck fuel st2 ctx
        | thrown => thrown := by
  obtain ⟨config, nbexec, nbsat, nbunsat, nbtimeout, ini, bckp, worklist, donelist, coverage,
    instHooks, trace⟩ := st
  simp only at hc
  subst hc
  simp only [explore, hb]

/-- C9 as stated fails when a directory of the workspace cannot be created: on
harness 1 with a solver that reports `TIMEOUT` for the initial path predicate
and a file system on which `workspace/crashes` cannot be created,
`initWorklist` throws after the accounting and `explore`, whatever the fuel,
does not return: it lets the file-system error through. -/
theorem explore_timeout_throws :
    (lockedBackend.getModel [] harnessContext.getPathPredicate
      harnessExplorator.config.timeout).1 = Status.TIMEOUT ∧
    (workspaceDirs harnessExplorator).map lockedBackend.create_directories
      = [true, false, false] ∧
    (∀ fuel, ¬ ∃ st', explore lockedBackend fuel harnessExplorator = Outcome.done st') ∧
    (∀ fuel, ∃ st', explore lockedBackend fuel harnessExplorator
      = Outcome.raised (filesystemErrorMessage "workspace/crashes") st' ∧
      st'.nbtimeout = 1 ∧ st'.nbexec = 0) := by
  have h : ∀ fuel, explore lockedBackend fuel harnessExplorator
      = Outcome.raised (filesystemErrorMessage "workspace/crashes")
          (explore lockedBackend 0 harnessExplorator).val := fun fuel => by rfl
  refine ⟨by rfl, by rfl, fun fuel ⟨st', hd⟩ => ?_, fun fuel => ⟨_, h fuel, by rfl, by rfl⟩⟩
  rw [h fuel] at hd
  simp at hd

/-- C9, amended: take a freshly constructed explorator whose initial context is
of an architecture the snapshot supports, and a solver that reports `TIMEOUT`
for the initial path predicate.  Then `initWorklist` leaves the worklist empty
and adds one to `nbtimeout` and to nothing else, and `explore`, whatever the
fuel, executes no trace: it returns when the three directories of the
workspace can be created, and otherwise lets through the file-system error
that `initWorklist` throws for the first directory that cannot.  Either way,
afterwards `nbexec`, `nbsat` and `nbunsat` are 0, `nbtimeout` is 1, the
worklist, the coverage map and the donelist are empty, and no instruction was
fetched and no file written. -/
theorem explore_timeout_at_init (be : Backend) (st : Explorator) (ctx : Context)
    (hf : st.Fresh) (hc : st.ini_ctx = some ctx) (ha : ctx.arch.snapshotSupported = true)
    (ht : (be.getModel [] ctx.getPathPredicate st.config.timeout).1 = Status.TIMEOUT) :
    ((initWorklist be st ctx).val.worklist = [] ∧ (initWorklist be st ctx).val.nbtimeout = 1 ∧
      (initWorklist be st ctx).val.nbsat = 0 ∧ (initWorklist be st ctx).val.nbunsat = 0 ∧
      (initWorklist be st ctx).val.nbexec = 0) ∧
    ∀ fuel,
      (explore be fuel st =
        match (workspaceDirs st).find? (fun p => !be.create_directories p) with
        | some p => Outcome.raised (filesystemErrorMessage p) (explore be fuel st).val
        | none => Outcome.done (explore be fuel st).val) ∧
      (explore be fuel st).val.nbexec = 0 ∧ (explore be fuel st).val.nbsat = 0 ∧
      (explore be fuel st).val.nbunsat = 0 ∧ (explore be fuel st).val.nbtimeout = 1 ∧
      (explore be fuel st).val.worklist = [] ∧ (explore be fuel st).val.coverage = [] ∧
      (explore be fuel st).val.donelist = [] ∧
      fetchLog (explore be fuel st).val.trace = [] ∧
      writeLog (explore be fuel st).val.trace = [] := by
  obtain ⟨h1, h2, h3, h4, h5, h6, h7, h8⟩ := hf
  have ht' : (be.getModel st.trace ctx.getPathPredicate st.config.timeout).1 = Status.TIMEOUT := by
    rw [h8]; exact ht
  refine ⟨?_, fun fuel => ?_⟩
  · rw [initWorklist_val, initialQuery_timeout be st ctx ht']
    simp [h1, h2, h3, h4, h5]
  · obtain ⟨bck, hb⟩ := snapshotContext_supported (Context.fresh ctx.arch) ctx ha
    have hdirs : workspaceDirs { st with bck_ctx := some bck } = workspaceDirs st := rfl
    rw [explore_eq be fuel st ctx bck hc hb, initWorklist_eq, hdirs,
      initialQuery_timeout be { st with bck_ctx := some bck } ctx ht']
    cases (workspaceDirs st).find? (fun p => !be.create_directories p) with
    | some p =>
      simp [Outcome.val, h1, h2, h3, h4, h5, h6, h7, h8, fetchLog, writeLog]
    | none =>
      simp only
      rw [exploreLoop_nil]
      · simp [Outcome.val, h1, h2, h3, h4, h5, h6, h7, h8, fetchLog, writeLog]
      · exact h5

/-- C9, amended, on harness 1 with a solver that times out: when the
directories can be created `explore` returns, and when `workspace/crashes`
cannot it throws; either way no trace was executed. -/
theorem explore_timeout_at_init_witness :
    (∃ st', explore timeoutBackend 7 harnessExplorator = Outcome.done st' ∧
      st'.nbexec = 0 ∧ st'.nbsat = 0 ∧ st'.nbunsat = 0 ∧ st'.nbtimeout = 1 ∧
      st'.worklist = [] ∧ st'.coverage = [] ∧ st'.donelist = [] ∧
      fetchLog st'.trace = [] ∧ writeLog st'.trace = []) ∧
    (explore lockedBackend 7 harnessExplorator).val.nbexec = 0 ∧
    (explore lockedBackend 7 harnessExplorator).val.nbtimeout = 1 :=
  ⟨⟨_, rfl, ((explore_timeout_at_init timeoutBackend harnessExplorator harnessContext
      ⟨rfl, rfl, rfl, rfl, rfl, rfl, rfl, rfl⟩ rfl rfl rfl).2 7).2⟩,
    ((explore_timeout_at_init lockedBackend harnessExplorator harnessContext
      ⟨rfl, rfl, rfl, rfl, rfl, rfl, rfl, rfl⟩ rfl rfl rfl).2 7).2.1,
    ((explore_timeout_at_init lockedBackend harnessExplorator harnessContext
      ⟨rfl, rfl, rfl, rfl, rfl, rfl, rfl, rfl⟩ rfl rfl rfl).2 7).2.2.2.2.1⟩

theorem lookup_assocSet {β : Type} (m : List (Nat × β)) (k : Nat) (v : β) (x : Nat) :
    (assocSet m k v).lookup x = if x = k then some v else m.lookup x := by
  induction m with
  | nil =>
    by_cases h : x = k
    · simp [assocSet, List.lookup, h]
    · have : (x == k) = false := by simpa using h
      simp [assocSet, List.lookup, h, this]
  | cons kv t ih =>
    obtain ⟨k', v'⟩ := kv
    by_cases hk : k' = k
    · subst hk
      by_cases h : x = k'
      · simp [assocSet, List.lookup, h]
      · have : (x == k') = false := by simpa using h
        simp [assocSet, List.lookup, h, this]
    · by_cases hx : x = k'
      · subst hx
        have : ¬ x = k := hk
        simp [assocSet, List.lookup, hk, this]
      · have hx' : (x == k') = false := by simpa using hx
        simp only [assocSet, hk, if_false, List.lookup, hx']
        exact ih

/-- The all-zero seed of `initWorklist` binds the variables of the context,
and only those, to zero. -/
theorem lookup_zeroSeed (vars : List Nat) (x : Nat) :
    ∀ acc : Seed, (vars.foldl (fun m vid => assocSet m vid 0) acc).lookup x
      = if x ∈ vars then some 0 else acc.lookup x := by
  induction vars with
  | nil => intro acc; simp
  | cons v vs ih =>
    intro acc
    rw [List.foldl_cons, ih, lookup_assocSet]
    by_cases h1 : x ∈ vs
    · simp [h1]
    · by_cases h2 : x = v
      · simp [h1, h2]
      · simp [h1, h2]

/-- C10: when the solver reports `SAT` for the initial path predicate,
`initWorklist` appends exactly one seed at the tail of the worklist (and
counts it in `nbsat`): the returned model when it is not empty, and otherwise
a seed that binds every symbolic variable of the context to `0x00` and binds
nothing else. -/
theorem initWorklist_sat (be : Backend) (st : Explorator) (ctx : Context)
    (h : (be.getModel st.trace ctx.getPathPredicate st.config.timeout).1 = Status.SAT) :
    ∃ seed : Seed, (initWorklist be st ctx).val.worklist = st.worklist ++ [seed] ∧
      (initWorklist be st ctx).val.nbsat = st.nbsat + 1 ∧
      ((be.getModel st.trace ctx.getPathPredicate st.config.timeout).2 ≠ [] →
        seed = (be.getModel st.trace ctx.getPathPredicate st.config.timeout).2) ∧
      ((be.getModel st.trace ctx.getPathPredicate st.config.timeout).2 = [] →
        ∀ v, seed.lookup v = if v ∈ ctx.symVars then some 0x00 else none) := by
  rw [initWorklist_val]
  unfold initialQuery
  simp only [h]
  refine ⟨_, rfl, rfl, ?_, ?_⟩
  · intro hne
    have : ¬ (be.getModel st.trace ctx.getPathPredicate st.config.timeout).2.length = 0 := by
      simpa using hne
    simp [Explorator.log, this]
  · intro he v
    simp only [Explorator.log, he, List.length_nil, if_true]
    rw [lookup_zeroSeed]
    simp

/-- C10 on harness 1: with an empty model the seed appended binds the five
variables to zero; with the model binding variable 1 it is that model. -/
theorem initWorklist_sat_witness :
    (initWorklist stepBackend harnessExplorator harnessContext).val.worklist
      = [[(0, 0), (1, 0), (2, 0), (3, 0), (4, 0)]] ∧
    ∃ seed : Seed, (initWorklist modelBackend harnessExplorator harnessContext).val.worklist
      = harnessExplorator.worklist ++ [seed] ∧ seed = [(1, 0x42)] := by
  refine ⟨by rfl, ?_⟩
  obtain ⟨seed, h1, _, h3, _⟩ := initWorklist_sat modelBackend harnessExplorator harnessContext rfl
  exact ⟨seed, h1, h3 (by decide)⟩

/-! ### Accounting of the solver answers -/

theorem accountModels_sat (st : Explorator) (r : Status × List Seed) (h : r.1 = Status.SAT) :
    accountModels st r =
      { st with nbsat := st.nbsat + r.2.length, worklist := r.2.reverse ++ st.worklist } := by
  unfold accountModels
  rw [h]
  exact pushModels_eq r.2 st

theorem accountModels_not_sat (st : Explorator) (r : Status × List Seed)
    (h : r.1 ≠ Status.SAT) :
    (accountModels st r).nbsat = st.nbsat ∧ (accountModels st r).worklist = st.worklist := by
  unfold accountModels
  split
  · rename_i heq; exact absurd heq h
  · exact ⟨rfl, rfl⟩
  · exact ⟨rfl, rfl⟩

theorem accountModel_sat (st : Explorator) (r : Status × Seed) (h : r.1 = Status.SAT) :
    accountModel st r = { st with nbsat := st.nbsat + 1, worklist := r.2 :: st.worklist } := by
  unfold accountModel
  rw [h]

theorem accountModel_not_sat (st : Explorator) (r : Status × Seed) (h : r.1 ≠ Status.SAT) :
    (accountModel st r).nbsat = st.nbsat ∧ (accountModel st r).worklist = st.worklist := by
  unfold accountModel
  split
  · rename_i heq; exact absurd heq h
  · exact ⟨rfl, rfl⟩
  · exact ⟨rfl, rfl⟩

/-- The iteration of `symbolizeEffectiveAddress` that issues a query. -/
theorem seaOperand_query (be : Backend) (address : Nat) (acc : Explorator × Context) (ea : Ast)
    (hs : ea.isSymbolized = true) (hk : buildPathAddrs acc.2 ++ [address] ∉ acc.1.donelist) :
    (seaOperand be address acc (Operand.mem (some ea))).1 =
      accountModels
        ((acc.1.insertDone (buildPathAddrs acc.2 ++ [address])).log
          (Event.solve Site.ea (buildPathAddrs acc.2 ++ [address]) (eaFormula acc.2 ea)
            acc.1.config.ea_model))
        (eaAnswer be acc.1 acc.2 (buildPathAddrs acc.2 ++ [address]) ea) := by
  simp only [seaOperand, hs, if_true, hk, if_false]
  rfl

/-- The iteration of `findNewInputs` that issues a single-model query. -/
theorem fniBranch_query (be : Backend) (pc : PathConstraint) (pathaddrs : List Nat)
    (predicate : Ast) (st : Explorator) (branch : Branch)
    (hk : pathaddrs ++ [branch.dstAddr] ∉ st.donelist) (hm : pc.multipleBranches = true)
    (ht : branch.taken = false) :
    fniBranch be pc pathaddrs predicate st branch =
      accountModel
        ((st.insertDone (pathaddrs ++ [branch.dstAddr])).log
          (Event.solve Site.branch (pathaddrs ++ [branch.dstAddr])
            (Ast.land predicate branch.cond) 1))
        (branchAnswer be st (pathaddrs ++ [branch.dstAddr]) predicate branch) := by
  simp only [fniBranch, hk, if_false, hm, if_true, ht]
  rfl

/-- The iteration of `findNewInputs` that issues a query for several models. -/
theorem fniBranch_jump (be : Backend) (pc : PathConstraint) (pathaddrs : List Nat)
    (predicate : Ast) (st : Explorator) (branch : Branch)
    (hk : pathaddrs ++ [branch.dstAddr] ∉ st.donelist) (hm : pc.multipleBranches = false) :
    fniBranch be pc pathaddrs predicate st branch =
      accountModels
        ((st.insertDone (pathaddrs ++ [branch.dstAddr])).log
          (Event.solve Site.branch (pathaddrs ++ [branch.dstAddr])
            (Ast.land predicate (Ast.lnot branch.cond)) st.config.jmp_model))
        (jumpAnswer be st (pathaddrs ++ [branch.dstAddr]) predicate branch) := by
  simp only [fniBranch, hk, if_false, hm]
  rfl

/-- The iterations of `findNewInputs` that issue no query. -/
theorem fniBranch_silent (be : Backend) (pc : PathConstraint) (pathaddrs : List Nat)
    (predicate : Ast) (st : Explorator) (branch : Branch)
    (h : pathaddrs ++ [branch.dstAddr] ∈ st.donelist ∨
      (pc.multipleBranches = true ∧ branch.taken = true)) :
    fniBranch be pc pathaddrs predicate st branch =
      if pathaddrs ++ [branch.dstAddr] ∈ st.donelist then st
      else st.insertDone (pathaddrs ++ [branch.dstAddr]) := by
  by_cases hk : pathaddrs ++ [branch.dstAddr] ∈ st.donelist
  · simp only [fniBranch, hk, if_true]
  · rcases h with h | ⟨hm, ht⟩
    · exact absurd h hk
    · simp [fniBranch, hk, hm, ht]

/-- What `initWorklist` does on `SAT`: one seed at the tail, one more in `nbsat`. -/
theorem initWorklist_sat_aux (be : Backend) (st : Explorator) (ctx : Context)
    (h : (be.getModel st.trace ctx.getPathPredicate st.config.timeout).1 = Status.SAT) :
    ∃ seed : Seed, (initWorklist be st ctx).val.worklist = st.worklist ++ [seed] ∧
      (initWorklist be st ctx).val.nbsat = st.nbsat + 1 ∧
      (initWorklist be st ctx).val.nbexec = st.nbexec := by
  rw [initWorklist_val]
  unfold initialQuery
  simp only [h]
  exact ⟨_, rfl, rfl, rfl⟩

/-- What `initWorklist` does on another status: nothing to `nbsat` and the worklist. -/
theorem initWorklist_not_sat (be : Backend) (st : Explorator) (ctx : Context)
    (h : (be.getModel st.trace ctx.getPathPredicate st.config.timeout).1 ≠ Status.SAT) :
    (initWorklist be st ctx).val.nbsat = st.nbsat ∧
    (initWorklist be st ctx).val.worklist = st.worklist := by
  rw [initWorklist_val]
  unfold initialQuery
  simp only
  split
  · rename_i heq; exact absurd heq h
  · exact ⟨rfl, rfl⟩
  · exact ⟨rfl, rfl⟩

/-- C11: every solver query is accounted for by the number of models it
returned.  `initWorklist`: on `SAT` one is added to `nbsat` and one seed is
appended to the worklist.  The query of `symbolizeEffectiveAddress` and the
query of `findNewInputs` for an indirect jump: on `SAT` the number of models
returned is added to `nbsat` and exactly these models are pushed at the head
of the worklist.  The single-model query of `findNewInputs` for a not-taken
branch of a conditional: on `SAT` one is added to `nbsat` and the model is
pushed at the head.  In all four, a status other than `SAT` leaves `nbsat` and
the worklist unchanged. -/
theorem sat_accounting (be : Backend) :
    (∀ (st : Explorator) (ctx : Context),
      ((be.getModel st.trace ctx.getPathPredicate st.config.timeout).1 = Status.SAT →
        (initWorklist be st ctx).val.nbsat = st.nbsat + 1 ∧
        ∃ seed, (initWorklist be st ctx).val.worklist = st.worklist ++ [seed]) ∧
      ((be.getModel st.trace ctx.getPathPredicate st.config.timeout).1 ≠ Status.SAT →
        (initWorklist be st ctx).val.nbsat = st.nbsat ∧
        (initWorklist be st ctx).val.worklist = st.worklist)) ∧
    (∀ (address : Nat) (acc : Explorator × Context) (ea : Ast),
      ea.isSymbolized = true → buildPathAddrs acc.2 ++ [address] ∉ acc.1.donelist →
      ((eaAnswer be acc.1 acc.2 (buildPathAddrs acc.2 ++ [address]) ea).1 = Status.SAT →
        (seaOperand be address acc (Operand.mem (some ea))).1.nbsat = acc.1.nbsat +
          (eaAnswer be acc.1 acc.2 (buildPathAddrs acc.2 ++ [address]) ea).2.length ∧
        (seaOperand be address acc (Operand.mem (some ea))).1.worklist =
          (eaAnswer be acc.1 acc.2 (buildPathAddrs acc.2 ++ [address]) ea).2.reverse
            ++ acc.1.worklist) ∧
      ((eaAnswer be acc.1 acc.2 (buildPathAddrs acc.2 ++ [address]) ea).1 ≠ Status.SAT →
        (seaOperand be address acc (Operand.mem (some ea))).1.nbsat = acc.1.nbsat ∧
        (seaOperand be address acc (Operand.mem (some ea))).1.worklist = acc.1.worklist)) ∧
    (∀ (pc : PathConstraint) (pathaddrs : List Nat) (predicate : Ast) (st : Explorator)
      (branch : Branch),
      pathaddrs ++ [branch.dstAddr] ∉ st.donelist → pc.multipleBranches = true →
      branch.taken = false →
      ((branchAnswer be st (pathaddrs ++ [branch.dstAddr]) predicate branch).1 = Status.SAT →
        (fniBranch be pc pathaddrs predicate st branch).nbsat = st.nbsat + 1 ∧
        (fniBranch be pc pathaddrs predicate st branch).worklist =
          (branchAnswer be st (pathaddrs ++ [branch.dstAddr]) predicate branch).2
            :: st.worklist) ∧
      ((branchAnswer be st (pathaddrs ++ [branch.dstAddr]) predicate branch).1 ≠ Status.SAT →
        (fniBranch be pc pathaddrs predicate st branch).nbsat = st.nbsat ∧
        (fniBranch be pc pathaddrs predicate st branch).worklist = st.worklist)) ∧
    (∀ (pc : PathConstraint) (pathaddrs : List Nat) (predicate : Ast) (st : Explorator)
      (branch : Branch),
      pathaddrs ++ [branch.dstAddr] ∉ st.donelist → pc.multipleBranches = false →
      ((jumpAnswer be st (pathaddrs ++ [branch.dstAddr]) predicate branch).1 = Status.SAT →
        (fniBranch be pc pathaddrs predicate st branch).nbsat = st.nbsat +
          (jumpAnswer be st (pathaddrs ++ [branch.dstAddr]) predicate branch).2.length ∧
        (fniBranch be pc pathaddrs predicate st branch).worklist =
          (jumpAnswer be st (pathaddrs ++ [branch.dstAddr]) predicate branch).2.reverse
            ++ st.worklist) ∧
      ((jumpAnswer be st (pathaddrs ++ [branch.dstAddr]) predicate branch).1 ≠ Status.SAT →
        (fniBranch be pc pathaddrs predicate st branch).nbsat = st.nbsat ∧
        (fniBranch be pc pathaddrs predicate st branch).worklist = st.worklist)) := by
  refine ⟨fun st ctx => ⟨fun h => ?_, fun h => ?_⟩, fun address acc ea hs hk => ?_,
    fun pc pathaddrs predicate st branch hk hm ht => ?_,
    fun pc pathaddrs predicate st branch hk hm => ?_⟩
  · obtain ⟨seed, h1, h2, _⟩ := initWorklist_sat_aux be st ctx h
    exact ⟨h2, seed, h1⟩
  · exact initWorklist_not_sat be st ctx h
  · rw [seaOperand_query be address acc ea hs hk]
    refine ⟨fun h => ?_, fun h => accountModels_not_sat _ _ h⟩
    rw [accountModels_sat _ _ h]
    exact ⟨rfl, rfl⟩
  · rw [fniBranch_query be pc pathaddrs predicate st branch hk hm ht]
    refine ⟨fun h => ?_, fun h => accountModel_not_sat _ _ h⟩
    rw [accountModel_sat _ _ h]
    exact ⟨rfl, rfl⟩
  · rw [fniBranch_jump be pc pathaddrs predicate st branch hk hm]
    refine ⟨fun h => ?_, fun h => accountModels_not_sat _ _ h⟩
    rw [accountModels_sat _ _ h]
    exact ⟨rfl, rfl⟩

/-- C11 on harness 1: the initial query answered `SAT` counts one seed; a
query of `findNewInputs` for the not-taken branch of the sample path, answered
`SAT` with one model, adds one to `nbsat` and pushes that model. -/
theorem sat_accounting_witness :
    (initWorklist modelBackend harnessExplorator harnessContext).val.nbsat = 1 ∧
    (fniBranch modelBackend
        { sourceAddress := 0x1000, multipleBranches := true, branches := [],
          takenPredicate := Ast.bvtrue }
        [0x1000] Ast.bvtrue harnessExplorator
        { taken := false, srcAddr := 0x1000, dstAddr := 0x1002, cond := Ast.bvtrue }).worklist
      = [[(1, 0x42)]] := by
  refine ⟨((sat_accounting modelBackend).1 harnessExplorator harnessContext).1 rfl |>.1, ?_⟩
  exact (((sat_accounting modelBackend).2.2.1
    { sourceAddress := 0x1000, multipleBranches := true, branches := [],
      takenPredicate := Ast.bvtrue }
    [0x1000] Ast.bvtrue harnessExplorator
    { taken := false, srcAddr := 0x1000, dstAddr := 0x1002, cond := Ast.bvtrue }
    (by decide) rfl rfl).1 rfl).2

/-! ### The constraints pushed by `symbolizeEffectiveAddress` -/

theorem seaOperand_context (be : Backend) (address : Nat) (acc : Explorator × Context)
    (operand : Operand) :
    (seaOperand be address acc operand).2 =
      { acc.2 with pathConstraints :=
          acc.2.pathConstraints ++ (symbolicEas [operand]).map frozenConstraint } := by
  unfold seaOperand
  split
  · rename_i ea
    by_cases hs : ea.isSymbolized = true
    · simp [hs, symbolicEas, Context.pushPathConstraint, frozenConstraint, eaFrozen]
    · simp [hs, symbolicEas]
  · rename_i hne
    cases operand with
    | other => simp [symbolicEas]
    | mem lea =>
      cases lea with
      | none => simp [symbolicEas]
      | some ea => exact absurd rfl (hne ea)

theorem symbolicEas_cons (o : Operand) (os : List Operand) :
    symbolicEas (o :: os) = symbolicEas [o] ++ symbolicEas os := by
  cases o with
  | other => simp [symbolicEas]
  | mem lea =>
    cases lea with
    | none => simp [symbolicEas]
    | some ea =>
      by_cases hs : ea.isSymbolized = true
      · simp [symbolicEas, hs]
      · simp [symbolicEas, hs]

theorem foldl_seaOperand_context (be : Backend) (address : Nat) (ops : List Operand) :
    ∀ acc : Explorator × Context,
      (ops.foldl (seaOperand be address) acc).2 =
        { acc.2 with pathConstraints :=
            acc.2.pathConstraints ++ (symbolicEas ops).map frozenConstraint } := by
  induction ops with
  | nil => intro acc; simp [symbolicEas]
  | cons o os ih =>
    intro acc
    rw [List.foldl_cons, ih, seaOperand_context, symbolicEas_cons o os]
    simp [List.append_assoc]

/-- The context `symbolizeEffectiveAddress` returns: only the path constraints grew. -/
theorem symbolizeEffectiveAddress_context (be : Backend) (st : Explorator) (ctx : Context)
    (inst : Instruction) :
    (symbolizeEffectiveAddress be st ctx inst).2 =
      { ctx with pathConstraints :=
          ctx.pathConstraints ++ (symbolicEas inst.operands).map frozenConstraint } :=
  foldl_seaOperand_context be inst.address inst.operands (st, ctx)

theorem mem_symbolicEas (ops : List Operand) (ea : Ast) (hea : ea ∈ symbolicEas ops) :
    Operand.mem (some ea) ∈ ops ∧ ea.isSymbolized = true := by
  induction ops with
  | nil => simp [symbolicEas] at hea
  | cons o os ih =>
    rw [symbolicEas_cons] at hea
    rcases List.mem_append.mp hea with h1 | h1
    · cases o with
      | other => simp [symbolicEas] at h1
      | mem lea =>
        cases lea with
        | none => simp [symbolicEas] at h1
        | some ea' =>
          by_cases hs : ea'.isSymbolized = true
          · simp [symbolicEas, hs] at h1
            subst h1
            exact ⟨by simp, hs⟩
          · simp [symbolicEas, hs] at h1
    · exact ⟨List.mem_cons_of_mem _ (ih h1).1, (ih h1).2⟩

/-- C16: whatever the donelist holds and whatever the solver answers,
`symbolizeEffectiveAddress` leaves the context as it was but for the path
constraints, to which it appends one constraint `ea == ea.evaluate()` for each
memory operand whose effective-address expression is symbolic, in operand
order, and nothing for the other operands; so the path-constraint list grows
by the number of symbolic memory operands. -/
theorem symbolizeEffectiveAddress_freezes (be : Backend) (st : Explorator) (ctx : Context)
    (inst : Instruction) :
    (symbolizeEffectiveAddress be st ctx inst).2 =
      { ctx with pathConstraints :=
          ctx.pathConstraints ++ (symbolicEas inst.operands).map frozenConstraint } ∧
    (symbolizeEffectiveAddress be st ctx inst).2.pathConstraints.length =
      ctx.pathConstraints.length + (symbolicEas inst.operands).length ∧
    (∀ pc ∈ (symbolicEas inst.operands).map frozenConstraint,
      ∃ ea, Operand.mem (some ea) ∈ inst.operands ∧ ea.isSymbolized = true ∧
        pc.takenPredicate = Ast.equal ea (Ast.bv ea.evaluate ea.getBitvectorSize)) := by
  have h := foldl_seaOperand_context be inst.address inst.operands (st, ctx)
  refine ⟨h, ?_, ?_⟩
  · unfold symbolizeEffectiveAddress
    rw [h]
    simp
  · intro pc hpc
    obtain ⟨ea, hea, rfl⟩ := List.mem_map.mp hpc
    exact ⟨ea, (mem_symbolicEas inst.operands ea hea).1,
      (mem_symbolicEas inst.operands ea hea).2, rfl⟩

/-- C16 on an instruction with five operands, two of them memory operands at
a symbolic address: two constraints are appended, in operand order, with a
solver that answers `SAT` and with one that times out alike. -/
theorem symbolizeEffectiveAddress_freezes_witness :
    (symbolizeEffectiveAddress modelBackend harnessExplorator snapshotSample
        eaInstruction).2.pathConstraints
      = snapshotSample.pathConstraints ++
          [frozenConstraint (Ast.leaf 7 true 0xdead 64),
           frozenConstraint (Ast.leaf 8 true 0xdeae 64)] ∧
    (symbolizeEffectiveAddress timeoutBackend harnessExplorator snapshotSample
        eaInstruction).2.pathConstraints.length = 4 := by
  refine ⟨?_, ?_⟩
  · rw [(symbolizeEffectiveAddress_freezes modelBackend harnessExplorator snapshotSample
      eaInstruction).1]
    rfl
  · rw [(symbolizeEffectiveAddress_freezes timeoutBackend harnessExplorator snapshotSample
      eaInstruction).2.1]
    rfl

/-! ### The queries of `findNewInputs` -/

theorem emits_refl (P : Event → Prop) (st : Explorator) : Emits P st st :=
  ⟨rfl, fun _ h => h, [], by simp, by simp⟩

theorem emits_trans {P : Event → Prop} {a b c : Explorator} (h1 : Emits P a b)
    (h2 : Emits P b c) : Emits P a c := by
  obtain ⟨c1, d1, n1, t1, p1⟩ := h1
  obtain ⟨c2, d2, n2, t2, p2⟩ := h2
  refine ⟨c2.trans c1, fun k hk => d2 k (d1 k hk), n1 ++ n2,
    by rw [t2, t1, List.append_assoc], ?_⟩
  intro e he
  rcases List.mem_append.mp he with h | h
  · exact p1 e h
  · exact p2 e h

theorem pathPredicateOf_concat (pre : List PathConstraint) (pc : PathConstraint) :
    pathPredicateOf (pre ++ [pc]) = Ast.land (pathPredicateOf pre) pc.takenPredicate := by
  simp [pathPredicateOf, List.foldl_append]

theorem accountModel_config (st : Explorator) (r : Status × Seed) :
    (accountModel st r).config = st.config := by
  unfold accountModel
  split <;> rfl

theorem accountModels_config (st : Explorator) (r : Status × List Seed) :
    (accountModels st r).config = st.config := by
  unfold accountModels
  split
  · rw [pushModels_eq]
  · rfl
  · rfl

theorem emits_insert_solve (P : Event → Prop) (st st' : Explorator) (key : List Nat)
    (site : Site) (f : Ast) (limit : Nat) (hc : st'.config = st.config)
    (hd : st'.donelist = List.insert key st.donelist)
    (ht : st'.trace = st.trace ++ [Event.done key, Event.solve site key f limit])
    (h1 : P (Event.done key)) (h2 : P (Event.solve site key f limit)) : Emits P st st' := by
  refine ⟨hc, fun x hx => by rw [hd]; simp [hx], _, ht, ?_⟩
  intro e he
  simp only [List.mem_cons, List.mem_singleton, List.not_mem_nil, or_false] at he
  rcases he with rfl | rfl
  · exact h1
  · exact h2

theorem branchQuery_done (pcs : List PathConstraint) (d0 : List (List Nat)) (jmp : Nat)
    (key : List Nat) : BranchQuery pcs d0 jmp (Event.done key) := by
  intro site key' f limit h
  simp at h

/-- One iteration of the branch loop emits at most one query, of the expected
form. -/
theorem fniBranch_emits (be : Backend) (full : List PathConstraint) (d0 : List (List Nat))
    (k : Nat) (pc : PathConstraint) (st : Explorator) (branch : Branch)
    (hk : full[k]? = some pc) (hb : branch ∈ pc.branches)
    (hd : ∀ x ∈ d0, x ∈ st.donelist) :
    Emits (BranchQuery full d0 st.config.jmp_model) st
      (fniBranch be pc ((full.take (k + 1)).map (fun c => c.sourceAddress))
        (pathPredicateOf (full.take k)) st branch) := by
  by_cases hin : (full.take (k + 1)).map (fun c => c.sourceAddress) ++ [branch.dstAddr]
      ∈ st.donelist
  · rw [fniBranch_silent be pc _ _ st branch (Or.inl hin)]
    simp only [hin, if_true]
    exact emits_refl _ _
  · have hnot : (full.take (k + 1)).map (fun c => c.sourceAddress) ++ [branch.dstAddr] ∉ d0 :=
      fun h => hin (hd _ h)
    cases hm : pc.multipleBranches with
    | true =>
      cases ht : branch.taken with
      | true =>
        rw [fniBranch_silent be pc _ _ st branch (Or.inr ⟨hm, ht⟩)]
        simp only [hin, if_false]
        refine ⟨rfl, fun x hx => by simp [Explorator.insertDone, hx], [Event.done _], rfl, ?_⟩
        intro e he
        simp only [List.mem_singleton] at he
        subst he
        exact branchQuery_done _ _ _ _
      | false =>
        rw [fniBranch_query be pc _ _ st branch hin hm ht]
        apply emits_insert_solve _ _ _
          ((full.take (k + 1)).map (fun c => c.sourceAddress) ++ [branch.dstAddr]) Site.branch
          (Ast.land (pathPredicateOf (full.take k)) branch.cond) 1
        · exact accountModel_config _ _
        · rw [accountModel_donelist]; rfl
        · rw [accountModel_trace]
          simp [Explorator.log, Explorator.insertDone]
        · exact branchQuery_done _ _ _ _
        · intro site key f limit h
          simp only [Event.solve.injEq] at h
          obtain ⟨rfl, rfl, rfl, rfl⟩ := h
          refine ⟨rfl, k, pc, branch, hk, hb, rfl, hnot, fun _ => ⟨ht, rfl, rfl⟩, fun h => ?_⟩
          rw [hm] at h
          simp at h
    | false =>
      rw [fniBranch_jump be pc _ _ st branch hin hm]
      apply emits_insert_solve _ _ _
        ((full.take (k + 1)).map (fun c => c.sourceAddress) ++ [branch.dstAddr]) Site.branch
        (Ast.land (pathPredicateOf (full.take k)) (Ast.lnot branch.cond)) st.config.jmp_model
      · exact accountModels_config _ _
      · rw [accountModels_donelist]; rfl
      · rw [accountModels_trace]
        simp [Explorator.log, Explorator.insertDone]
      · exact branchQuery_done _ _ _ _
      · intro site key f limit h
        simp only [Event.solve.injEq] at h
        obtain ⟨rfl, rfl, rfl, rfl⟩ := h
        refine ⟨rfl, k, pc, branch, hk, hb, rfl, hnot, fun h => ?_, fun _ => ⟨rfl, rfl⟩⟩
        rw [hm] at h
        simp at h

theorem foldl_fniBranch_emits (be : Backend) (full : List PathConstraint)
    (d0 : List (List Nat)) (jmp : Nat) (k : Nat) (pc : PathConstraint)
    (hk : full[k]? = some pc) (bs : List Branch) :
    ∀ st : Explorator, (∀ b ∈ bs, b ∈ pc.branches) → (∀ x ∈ d0, x ∈ st.donelist) →
      st.config.jmp_model = jmp →
      Emits (BranchQuery full d0 jmp) st
        (bs.foldl (fniBranch be pc ((full.take (k + 1)).map (fun c => c.sourceAddress))
          (pathPredicateOf (full.take k))) st) := by
  induction bs with
  | nil => intro st _ _ _; exact emits_refl _ _
  | cons b bs ih =>
    intro st hbs hd hj
    have h1 := fniBranch_emits be full d0 k pc st b hk (hbs b (by simp)) hd
    rw [hj] at h1
    refine emits_trans h1 (ih _ (fun x hx => hbs x (by simp [hx]))
      (fun x hx => h1.2.1 x (hd x hx)) ?_)
    rw [h1.1, hj]

theorem fniLoop_emits (be : Backend) (d0 : List (List Nat)) (jmp : Nat)
    (rest : List PathConstraint) :
    ∀ (pre : List PathConstraint) (st : Explorator), (∀ x ∈ d0, x ∈ st.donelist) →
      st.config.jmp_model = jmp →
      Emits (BranchQuery (pre ++ rest) d0 jmp) st
        (fniLoop be rest (pre.map (fun c => c.sourceAddress)) (pathPredicateOf pre) st) := by
  induction rest with
  | nil => intro pre st _ _; exact emits_refl _ _
  | cons pc rest ih =>
    intro pre st hd hj
    have hk : (pre ++ pc :: rest)[pre.length]? = some pc := by
      rw [List.getElem?_append_right (Nat.le_refl _)]
      simp
    have htake1 : (pre ++ pc :: rest).take (pre.length + 1) = pre ++ [pc] := by
      rw [List.take_append_eq_append_take]
      simp
    have htake : (pre ++ pc :: rest).take pre.length = pre := by
      rw [List.take_append_eq_append_take]
      simp
    have h1 := foldl_fniBranch_emits be (pre ++ pc :: rest) d0 jmp pre.length pc hk
      pc.branches st (fun b hb => hb) hd hj
    rw [htake1, htake] at h1
    have h2 := ih (pre ++ [pc]) _ (fun x hx => h1.2.1 x (hd x hx)) (by rw [h1.1, hj])
    rw [List.append_assoc, List.singleton_append, pathPredicateOf_concat] at h2
    unfold fniLoop
    simp only [List.map_append, List.map_cons, List.map_nil] at h1 h2 ⊢
    exact emits_trans h1 h2

/-- C13: every solver query `findNewInputs` logs is issued for a branch tuple
of some constraint of the path, under the key made of the source addresses of
the constraints up to that one followed by the target of the tuple, a key that
was not in the donelist; when the constraint is a conditional the tuple is a
not-taken one (taken branches are never sent to the solver) and the formula is
`(true AND takenPredicate_1 AND ... AND takenPredicate_(k-1)) AND cond`, with
the taken predicates of the constraints strictly before that one only.  The
log also passes the audit: each key is inserted, absent until then, right
before its query. -/
theorem findNewInputs_queries (be : Backend) (st : Explorator) (ctx : Context) :
    ∃ new, (findNewInputs be st ctx).trace = st.trace ++ new ∧
      (∀ e ∈ new, BranchQuery ctx.pathConstraints st.donelist st.config.jmp_model e) ∧
      audit st.donelist new = some (findNewInputs be st ctx).donelist := by
  have h := fniLoop_emits be st.donelist st.config.jmp_model ctx.pathConstraints [] st
    (fun _ hx => hx) rfl
  obtain ⟨_, _, new, ht, hp⟩ := h
  refine ⟨new, ht, by simpa using hp, ?_⟩
  obtain ⟨new', ht', ha⟩ := findNewInputs_audited be st ctx
  have hnew : new' = new := by
    have : st.trace ++ new' = st.trace ++ new := by rw [← ht']; exact ht
    exact List.append_cancel_left this
  subst hnew
  obtain ⟨p', hp'⟩ := ha none
  simp [audit, hp']

/-- C13 on a path of two conditionals: the two not-taken branches are solved,
the second one under the taken predicate of the first constraint only. -/
theorem findNewInputs_queries_witness :
    (findNewInputs modelBackend harnessExplorator conditionalPath).trace =
      [Event.done [0x1000, 0x1010], Event.done [0x1000, 0x1002],
       Event.solve Site.branch [0x1000, 0x1002]
         (Ast.land (Ast.equal Ast.bvtrue Ast.bvtrue) (Ast.leaf 3 true 0 1)) 1,
       Event.done [0x1000, 0x1010, 0x1020],
       Event.solve Site.branch [0x1000, 0x1010, 0x1020]
         (Ast.land (Ast.land (Ast.equal Ast.bvtrue Ast.bvtrue) (Ast.leaf 2 true 1 1))
           (Ast.leaf 5 true 0 1)) 1,
       Event.done [0x1000, 0x1010, 0x1012]] ∧
    BranchQuery conditionalPath.pathConstraints [] 1000
      (Event.solve Site.branch [0x1000, 0x1010, 0x1020]
         (Ast.land (Ast.land (Ast.equal Ast.bvtrue Ast.bvtrue) (Ast.leaf 2 true 1 1))
           (Ast.leaf 5 true 0 1)) 1) := by
  refine ⟨by rfl, ?_⟩
  obtain ⟨new, ht, hq, _⟩ := findNewInputs_queries modelBackend harnessExplorator conditionalPath
  have hnew : new = (findNewInputs modelBackend harnessExplorator conditionalPath).trace := by
    rw [ht]; rfl
  refine hq _ ?_
  rw [hnew]
  decide

/-! ### The counters of `findNewInputs` -/

theorem solvedKeys_append (a b : List Event) :
    solvedKeys (a ++ b) = solvedKeys a ++ solvedKeys b := by
  induction a with
  | nil => rfl
  | cons e es ih => cases e <;> simp [solvedKeys, ih]

theorem accountModel_answers (st : Explorator) (r : Status × Seed) :
    (accountModel st r).answers = st.answers + 1 := by
  unfold accountModel Explorator.answers
  split <;> simp only <;> omega

/-- One iteration of the branch loop on a conditional. -/
theorem fniBranch_conditional (be : Backend) (pc : PathConstraint) (pathaddrs : List Nat)
    (predicate : Ast) (st : Explorator) (b : Branch) (hm : pc.multipleBranches = true) :
    (fniBranch be pc pathaddrs predicate st b).answers = st.answers +
        (if pathaddrs ++ [b.dstAddr] ∈ st.donelist then 0
          else if b.taken = false then 1 else 0) ∧
    (solvedKeys (fniBranch be pc pathaddrs predicate st b).trace).length =
        (solvedKeys st.trace).length +
        (if pathaddrs ++ [b.dstAddr] ∈ st.donelist then 0
          else if b.taken = false then 1 else 0) ∧
    (fniBranch be pc pathaddrs predicate st b).donelist =
        (if pathaddrs ++ [b.dstAddr] ∈ st.donelist then st.donelist
          else (pathaddrs ++ [b.dstAddr]) :: st.donelist) := by
  by_cases hin : pathaddrs ++ [b.dstAddr] ∈ st.donelist
  · rw [fniBranch_silent be pc _ _ st b (Or.inl hin)]
    simp [hin]
  · cases ht : b.taken with
    | true =>
      rw [fniBranch_silent be pc _ _ st b (Or.inr ⟨hm, ht⟩)]
      simp [hin, Explorator.insertDone, Explorator.answers, solvedKeys_append, solvedKeys,
        List.insert]
    | false =>
      rw [fniBranch_query be pc _ _ st b hin hm ht]
      refine ⟨?_, ?_, ?_⟩
      · rw [accountModel_answers]
        simp [hin, Explorator.answers, Explorator.log, Explorator.insertDone]
      · rw [accountModel_trace]
        simp [hin, Explorator.log, Explorator.insertDone, solvedKeys_append, solvedKeys]
      · rw [accountModel_donelist]
        simp [hin, Explorator.log, Explorator.insertDone, List.insert]

theorem foldl_fniBranch_conditional (be : Backend) (pc : PathConstraint)
    (pathaddrs : List Nat) (predicate : Ast) (hm : pc.multipleBranches = true)
    (bs : List Branch) :
    ∀ st : Explorator,
      (bs.foldl (fniBranch be pc pathaddrs predicate) st).answers =
          st.answers + (negatedInBranches pathaddrs bs st.donelist).1 ∧
      (solvedKeys (bs.foldl (fniBranch be pc pathaddrs predicate) st).trace).length =
          (solvedKeys st.trace).length + (negatedInBranches pathaddrs bs st.donelist).1 ∧
      (bs.foldl (fniBranch be pc pathaddrs predicate) st).donelist =
          (negatedInBranches pathaddrs bs st.donelist).2 := by
  induction bs with
  | nil => intro st; simp [negatedInBranches]
  | cons b bs ih =>
    intro st
    obtain ⟨h1, h2, h3⟩ := fniBranch_conditional be pc pathaddrs predicate st b hm
    obtain ⟨i1, i2, i3⟩ := ih (fniBranch be pc pathaddrs predicate st b)
    rw [List.foldl_cons, i1, i2, i3, h1, h2, h3]
    by_cases hin : pathaddrs ++ [b.dstAddr] ∈ st.donelist
    · simp [negatedInBranches, hin]
    · cases hb : b.taken with
      | true =>
        simp only [negatedInBranches, hin, if_false, hb]
        refine ⟨?_, ?_, ?_⟩ <;> simp
      | false =>
        simp only [negatedInBranches, hin, if_false, hb, if_true]
        exact ⟨by omega, by omega, trivial⟩

theorem fniLoop_conditional (be : Backend) (pcs : List PathConstraint) :
    ∀ (pathaddrs : List Nat) (predicate : Ast) (st : Explorator),
      (∀ pc ∈ pcs, pc.multipleBranches = true) →
      (fniLoop be pcs pathaddrs predicate st).answers =
          st.answers + negatedBranches pcs pathaddrs st.donelist ∧
      (solvedKeys (fniLoop be pcs pathaddrs predicate st).trace).length =
          (solvedKeys st.trace).length + negatedBranches pcs pathaddrs st.donelist := by
  induction pcs with
  | nil => intro pathaddrs predicate st _; simp [fniLoop, negatedBranches]
  | cons pc rest ih =>
    intro pathaddrs predicate st h
    obtain ⟨h1, h2, h3⟩ := foldl_fniBranch_conditional be pc (pathaddrs ++ [pc.sourceAddress])
      predicate (h pc (by simp)) pc.branches st
    obtain ⟨i1, i2⟩ := ih (pathaddrs ++ [pc.sourceAddress])
      (Ast.land predicate pc.takenPredicate)
      (pc.branches.foldl (fniBranch be pc (pathaddrs ++ [pc.sourceAddress]) predicate) st)
      (fun x hx => h x (by simp [hx]))
    unfold fniLoop
    simp only
    rw [i1, i2, h1, h2, h3]
    simp only [negatedBranches]
    omega

/-- C14: on a path whose constraints are all conditionals, a call of
`findNewInputs` adds to `nbsat + nbunsat + nbtimeout` the number of not-taken
branch tuples whose key it newly inserts into the donelist (a tuple whose key
is already there when its turn comes is skipped), and it issues that many
solver queries: each negated branch is one query and one unit of one
counter. -/
theorem findNewInputs_counts_negations (be : Backend) (st : Explorator) (ctx : Context)
    (h : ∀ pc ∈ ctx.pathConstraints, pc.multipleBranches = true) :
    (findNewInputs be st ctx).nbsat + (findNewInputs be st ctx).nbunsat
        + (findNewInputs be st ctx).nbtimeout
      = st.nbsat + st.nbunsat + st.nbtimeout
        + negatedBranches ctx.pathConstraints [] st.donelist ∧
    (solvedKeys (findNewInputs be st ctx).trace).length
      = (solvedKeys st.trace).length + negatedBranches ctx.pathConstraints [] st.donelist :=
  fniLoop_conditional be ctx.pathConstraints [] _ st h

/-- C14 on a path of two conditionals, entered with an empty donelist and
then again with the donelist the first call left: the first call negates the
two not-taken branches (two queries, two units), the second none. -/
theorem findNewInputs_counts_negations_witness :
    negatedBranches conditionalPath.pathConstraints [] [] = 2 ∧
    (findNewInputs modelBackend harnessExplorator conditionalPath).nbsat
      + (findNewInputs modelBackend harnessExplorator conditionalPath).nbunsat
      + (findNewInputs modelBackend harnessExplorator conditionalPath).nbtimeout = 2 ∧
    (findNewInputs modelBackend
        (findNewInputs modelBackend harnessExplorator conditionalPath) conditionalPath).nbsat
      = 2 := by
  have h := findNewInputs_counts_negations modelBackend harnessExplorator conditionalPath
    (by decide)
  refine ⟨by rfl, ?_, by rfl⟩
  rw [h.1]
  rfl

/-! ### The steps of `run` -/

theorem solverOnly_log_hook (st : Explorator) (pc : Nat) (state : cb_state_e) :
    (st.log (Event.hook pc state)).config = st.config ∧
    (st.log (Event.hook pc state)).instHooks = st.instHooks := ⟨rfl, rfl⟩

/-- A pass through the body that reaches the loop condition carries the
program counter it read, and leaves the configuration and the hooks alone. -/
theorem runBody_cont (be : Backend) (seed : Seed) (st : Explorator) (ctx : Context)
    (count : Nat) (s : Explorator) (c : Context) (c1 p : Nat)
    (h : runBody be seed st ctx count = Body.cont s c c1 p) :
    p = ctx.cpu.pc ∧ s.config = st.config ∧ s.instHooks = st.instHooks ∧
      (c1 = count ∨ (c1 = count + 1 ∧ st.instHooks.lookup ctx.cpu.pc = none)) := by
  unfold runBody at h
  split at h
  · simp at h
  · simp only at h
    split at h
    · split at h
      · simp only [Body.cont.injEq] at h
        obtain ⟨rfl, rfl, rfl, rfl⟩ := h
        exact ⟨rfl, rfl, rfl, Or.inl rfl⟩
      · simp at h
      · split at h
        · rename_i st2 ctx2 heq
          simp only [Body.cont.injEq] at h
          obtain ⟨rfl, rfl, rfl, rfl⟩ := h
          rw [asmret_ok _ _ _ _ _ heq]
          exact ⟨rfl, rfl, rfl, Or.inl rfl⟩
        · simp at h
    · rename_i hnone
      split at h
      · simp at h
      · split at h
        · simp at h
        · simp only [Body.cont.injEq] at h
          obtain ⟨rfl, rfl, rfl, rfl⟩ := h
          have hs := symbolizeEffectiveAddress_solverOnly be
            (st.log (Event.fetch ctx.cpu.pc (be.processing ctx ctx.cpu.pc
              (ctx.getConcreteMemoryAreaValue ctx.cpu.pc 16)).fault))
            (be.processing ctx ctx.cpu.pc (ctx.getConcreteMemoryAreaValue ctx.cpu.pc 16)).ctx
            { address := ctx.cpu.pc, opcodes := ctx.getConcreteMemoryAreaValue ctx.cpu.pc 16,
              operands := (be.processing ctx ctx.cpu.pc
                (ctx.getConcreteMemoryAreaValue ctx.cpu.pc 16)).operands }
          exact ⟨rfl, hs.1, hs.2.1, Or.inr ⟨rfl, hnone⟩⟩

theorem runLoop_succ (be : Backend) (seed : Seed) (n : Nat) (st : Explorator) (ctx : Context)
    (count : Nat) :
    runLoop be seed (n + 1) st ctx count =
      match runBody be seed st ctx count with
      | Body.stop st1 ctx1 => Outcome.done (st1, ctx1)
      | Body.raised msg st1 ctx1 => Outcome.raised msg (st1, ctx1)
      | Body.cont st1 ctx1 count1 pcval =>
        if st1.config.end_point ≠ pcval then runLoop be seed n st1 ctx1 count1
        else Outcome.done (st1, ctx1) := rfl

/-- After `k` passes that went on, the loop of `run` is where `runSteps` says. -/
theorem runLoop_of_runSteps (be : Backend) (seed : Seed) (k : Nat) :
    ∀ (st : Explorator) (ctx : Context) (count : Nat) (s : Explorator) (c : Context)
      (c1 n : Nat),
      runSteps be seed k st ctx count = some (s, c, c1) →
      runLoop be seed (k + n) st ctx count = runLoop be seed n s c c1 := by
  induction k with
  | zero =>
    intro st ctx count s c c1 n h
    simp only [runSteps, Option.some.injEq, Prod.mk.injEq] at h
    obtain ⟨rfl, rfl, rfl⟩ := h
    simp
  | succ k ih =>
    intro st ctx count s c c1 n h
    unfold runSteps at h
    rw [show k + 1 + n = (k + n) + 1 by omega, runLoop_succ]
    split at h
    · rename_i st1 ctx1 count1 pcval heq
      rw [heq]
      simp only
      split at h
      · rename_i hne
        rw [if_pos hne]
        exact ih _ _ _ _ _ _ n h
      · simp at h
    · simp at h

/-- When the pass that starts at `(st, ctx, count)` reads the end point as
program counter, it is the last pass of the loop. -/
theorem run_last_pass (be : Backend) (seed : Seed) (st : Explorator) (ctx : Context)
    (count n : Nat) (hpc : ctx.cpu.pc = st.config.end_point) :
    (match runLoop be seed (n + 1) st ctx count with
      | Outcome.done (st1, ctx1) => Outcome.done (stopExecution seed st1 ctx1, ctx1)
      | Outcome.raised msg a => Outcome.raised msg a
      | Outcome.outOfFuel a => Outcome.outOfFuel a)
      = endStep seed (runBody be seed st ctx count) := by
  rw [runLoop_succ]
  cases hb : runBody be seed st ctx count with
  | stop s c => simp [endStep]
  | raised msg s c => simp [endStep]
  | cont s c c1 p =>
    obtain ⟨hp, hc, _, _⟩ := runBody_cont be seed st ctx count s c c1 p hb
    have : ¬ s.config.end_point ≠ p := by
      rw [hp, hc, hpc]; simp
    simp [endStep, this]

/-- The pass at an unhooked, defined program counter below the limit whose
instruction the back-end processes without fault. -/
theorem runBody_processed (be : Backend) (seed : Seed) (st : Explorator) (ctx : Context)
    (count : Nat) (hl : ¬ (st.config.limit_inst ≠ 0 ∧ count ≥ st.config.limit_inst))
    (hh : st.instHooks.lookup ctx.cpu.pc = none)
    (hc : ¬ ((st.config.end_point ≠ 0 ∧ ctx.cpu.pc = 0) ∨
      ctx.isConcreteMemoryValueDefined ctx.cpu.pc = false))
    (hf : (be.processing ctx ctx.cpu.pc (ctx.getConcreteMemoryAreaValue ctx.cpu.pc 16)).fault
      = false) :
    runBody be seed st ctx count =
      Body.cont
        { (symbolizeEffectiveAddress be (st.log (Event.fetch ctx.cpu.pc false))
            (be.processing ctx ctx.cpu.pc (ctx.getConcreteMemoryAreaValue ctx.cpu.pc 16)).ctx
            { address := ctx.cpu.pc, opcodes := ctx.getConcreteMemoryAreaValue ctx.cpu.pc 16,
              operands := (be.processing ctx ctx.cpu.pc
                (ctx.getConcreteMemoryAreaValue ctx.cpu.pc 16)).operands }).1 with
          coverage := bumpCoverage
            (symbolizeEffectiveAddress be (st.log (Event.fetch ctx.cpu.pc false))
              (be.processing ctx ctx.cpu.pc (ctx.getConcreteMemoryAreaValue ctx.cpu.pc 16)).ctx
              { address := ctx.cpu.pc, opcodes := ctx.getConcreteMemoryAreaValue ctx.cpu.pc 16,
                operands := (be.processing ctx ctx.cpu.pc
                  (ctx.getConcreteMemoryAreaValue ctx.cpu.pc 16)).operands }).1.coverage
            ctx.cpu.pc }
        (symbolizeEffectiveAddress be (st.log (Event.fetch ctx.cpu.pc false))
          (be.processing ctx ctx.cpu.pc (ctx.getConcreteMemoryAreaValue ctx.cpu.pc 16)).ctx
          { address := ctx.cpu.pc, opcodes := ctx.getConcreteMemoryAreaValue ctx.cpu.pc 16,
            operands := (be.processing ctx ctx.cpu.pc
              (ctx.getConcreteMemoryAreaValue ctx.cpu.pc 16)).operands }).2
        (count + 1) ctx.cpu.pc := by
  unfold runBody
  rw [if_neg hl]
  simp only [hh]
  rw [if_neg hc]
  simp only [hf]
  rfl

/-- C12 as stated fails: on the end of harness 6 (end point `0x1181`, the
`ret`), the execution reaches the end point after one step; `run` then still
fetches and processes the `ret`, returns without any crash, and on return the
program counter is the null return address 0, not `0x1181`. -/
theorem run_passes_end_point :
    harness6Explorator.config.end_point = 0x1181 ∧
    (runSteps retBackend [] 1 harness6Explorator harness6Context 0).map
      (fun r => r.2.1.cpu.pc) = some 0x1181 ∧
    (∃ r, run retBackend 5 [] harness6Explorator harness6Context = Outcome.done r) ∧
    fetchLog (run retBackend 5 [] harness6Explorator harness6Context).val.1.trace
      = [(0x1180, false), (0x1181, false)] ∧
    crashLog (run retBackend 5 [] harness6Explorator harness6Context).val.1.trace = [] ∧
    (run retBackend 5 [] harness6Explorator harness6Context).val.2.cpu.pc = 0 := by
  refine ⟨by rfl, by rfl, ⟨_, rfl⟩, by rfl, by rfl, by rfl⟩

/-! ### Hooked steps -/

/-- The pass at a hooked program counter, below the limit. -/
theorem runBody_hooked (be : Backend) (seed : Seed) (st : Explorator) (ctx : Context)
    (count : Nat) (fn : instCallback)
    (hl : ¬ (st.config.limit_inst ≠ 0 ∧ count ≥ st.config.limit_inst))
    (hh : st.instHooks.lookup ctx.cpu.pc = some fn) :
    runBody be seed st ctx count =
      match (fn ctx).1 with
      | cb_state_e.CONTINUE =>
        Body.cont (st.log (Event.hook ctx.cpu.pc (fn ctx).1)) (fn ctx).2 count ctx.cpu.pc
      | cb_state_e.BREAK => Body.stop (st.log (Event.hook ctx.cpu.pc (fn ctx).1)) (fn ctx).2
      | cb_state_e.PLT_CONTINUE =>
        match asmret be (st.log (Event.hook ctx.cpu.pc (fn ctx).1)) (fn ctx).2 with
        | .ok (st2, ctx2) => Body.cont st2 ctx2 count ctx.cpu.pc
        | .error msg => Body.raised msg (st.log (Event.hook ctx.cpu.pc (fn ctx).1)) (fn ctx).2 := by
  unfold runBody
  rw [if_neg hl]
  simp only [hh]

/-- C17: at a step of `run` whose program counter has a registered hook (and
that the instruction limit did not stop), whatever the memory at that address
holds or lacks: the only effects are the call of the hook and, on
`PLT_CONTINUE`, the synthetic `ret`; no opcode is fetched and handed to the
back-end, no crash message is printed, no file is written, the coverage map
is unchanged, and a pass that goes on carries the same instruction count.  A
hook returning `BREAK` ends the loop at that step, and `stop_execution` then
writes the seed under `corpus/` only: nothing goes under `crashes/`. -/
theorem hooked_step_replaces_instruction (be : Backend) (seed : Seed) (st : Explorator)
    (ctx : Context) (count : Nat) (fn : instCallback)
    (hl : ¬ (st.config.limit_inst ≠ 0 ∧ count ≥ st.config.limit_inst))
    (hh : st.instHooks.lookup ctx.cpu.pc = some fn) :
    ((runBody be seed st ctx count).explorator.trace
        = st.trace ++ [Event.hook ctx.cpu.pc (fn ctx).1] ∨
      (runBody be seed st ctx count).explorator.trace
        = st.trace ++ [Event.hook ctx.cpu.pc cb_state_e.PLT_CONTINUE, Event.ret]) ∧
    fetchLog (runBody be seed st ctx count).explorator.trace = fetchLog st.trace ∧
    crashLog (runBody be seed st ctx count).explorator.trace = crashLog st.trace ∧
    writeLog (runBody be seed st ctx count).explorator.trace = writeLog st.trace ∧
    (runBody be seed st ctx count).explorator.coverage = st.coverage ∧
    (∀ s c c1 p, runBody be seed st ctx count = Body.cont s c c1 p →
      c1 = count ∧ p = ctx.cpu.pc) ∧
    ((fn ctx).1 = cb_state_e.BREAK → ∀ n,
      runLoop be seed (n + 1) st ctx count
        = Outcome.done (st.log (Event.hook ctx.cpu.pc cb_state_e.BREAK), (fn ctx).2) ∧
      crashLog (stopExecution seed (st.log (Event.hook ctx.cpu.pc cb_state_e.BREAK))
        (fn ctx).2).trace = crashLog st.trace ∧
      writeLog (stopExecution seed (st.log (Event.hook ctx.cpu.pc cb_state_e.BREAK))
        (fn ctx).2).trace
        = writeLog st.trace ++ [("corpus", st.nbexec + 1, seed2vector seed (fn ctx).2)]) := by
  have hb := runBody_hooked be seed st ctx count fn hl hh
  cases hs : (fn ctx).1 with
  | CONTINUE =>
    rw [hs] at hb
    simp only at hb
    rw [hb]
    refine ⟨Or.inl rfl, ?_, ?_, ?_, rfl, ?_, fun h => by simp at h⟩
    · simp [Body.explorator, Explorator.log, fetchLog_append, fetchLog]
    · simp [Body.explorator, Explorator.log, crashLog_append, crashLog]
    · simp [Body.explorator, Explorator.log, writeLog_append, writeLog]
    · intro s c c1 p h
      simp only [Body.cont.injEq] at h
      exact ⟨h.2.2.1.symm, h.2.2.2.symm⟩
  | BREAK =>
    rw [hs] at hb
    simp only at hb
    rw [hb]
    refine ⟨Or.inl rfl, ?_, ?_, ?_, rfl, fun s c c1 p h => by simp at h, fun _ n => ?_⟩
    · simp [Body.explorator, Explorator.log, fetchLog_append, fetchLog]
    · simp [Body.explorator, Explorator.log, crashLog_append, crashLog]
    · simp [Body.explorator, Explorator.log, writeLog_append, writeLog]
    · refine ⟨?_, ?_, ?_⟩
      · rw [runLoop_succ, hb]
      · simp [stopExecution, writeSeedOnDisk, Explorator.log, crashLog_append, crashLog]
      · simp [stopExecution, writeSeedOnDisk, Explorator.log, writeLog_append, writeLog]
  | PLT_CONTINUE =>
    rw [hs] at hb
    simp only at hb
    cases ha : asmret be (st.log (Event.hook ctx.cpu.pc cb_state_e.PLT_CONTINUE)) (fn ctx).2 with
    | error msg =>
      rw [ha] at hb
      simp only at hb
      rw [hb]
      refine ⟨Or.inl rfl, ?_, ?_, ?_, rfl, fun s c c1 p h => by simp at h,
        fun h => by simp at h⟩
      · simp [Body.explorator, Explorator.log, fetchLog_append, fetchLog]
      · simp [Body.explorator, Explorator.log, crashLog_append, crashLog]
      · simp [Body.explorator, Explorator.log, writeLog_append, writeLog]
    | ok r =>
      obtain ⟨st2, ctx2⟩ := r
      rw [ha] at hb
      simp only at hb
      have h2 := asmret_ok _ _ _ _ _ ha
      subst h2
      rw [hb]
      refine ⟨Or.inr ?_, ?_, ?_, ?_, rfl, ?_, fun h => by simp at h⟩
      · simp [Body.explorator, Explorator.log]
      · simp [Body.explorator, Explorator.log, fetchLog_append, fetchLog]
      · simp [Body.explorator, Explorator.log, crashLog_append, crashLog]
      · simp [Body.explorator, Explorator.log, writeLog_append, writeLog]
      · intro s c c1 p h
        simp only [Body.cont.injEq] at h
        exact ⟨h.2.2.1.symm, h.2.2.2.symm⟩

/-- C17 on a hook at `0x1000`, where the memory is undefined, that returns
`BREAK`: the trace ends without a crash and writes `corpus/1` only. -/
theorem hooked_step_replaces_instruction_witness :
    hookedContext.isConcreteMemoryValueDefined 0x1000 = false ∧
    fetchLog (runBody stepBackend [] breakExplorator hookedContext 0).explorator.trace = [] ∧
    writeLog (run stepBackend 3 [] breakExplorator hookedContext).val.1.trace
      = [("corpus", 1, [0, 0, 0, 0, 0])] := by
  have h := hooked_step_replaces_instruction stepBackend [] breakExplorator hookedContext 0
    hookBreak (by decide) rfl
  refine ⟨by rfl, ?_, by rfl⟩
  rw [h.2.1]
  rfl

/-! ### The end point zero -/

/-- The pass at an unhooked, defined program counter below the limit whose
instruction the back-end faults on. -/
theorem runBody_faulted (be : Backend) (seed : Seed) (st : Explorator) (ctx : Context)
    (count : Nat) (hl : ¬ (st.config.limit_inst ≠ 0 ∧ count ≥ st.config.limit_inst))
    (hh : st.instHooks.lookup ctx.cpu.pc = none)
    (hc : ¬ ((st.config.end_point ≠ 0 ∧ ctx.cpu.pc = 0) ∨
      ctx.isConcreteMemoryValueDefined ctx.cpu.pc = false))
    (hf : (be.processing ctx ctx.cpu.pc (ctx.getConcreteMemoryAreaValue ctx.cpu.pc 16)).fault
      = true) :
    runBody be seed st ctx count =
      Body.stop
        (writeSeedOnDisk "crashes" seed
          ((st.log (Event.fetch ctx.cpu.pc true)).log (Event.invalidInstruction ctx.cpu.pc))
          (be.processing ctx ctx.cpu.pc (ctx.getConcreteMemoryAreaValue ctx.cpu.pc 16)).ctx)
        (be.processing ctx ctx.cpu.pc (ctx.getConcreteMemoryAreaValue ctx.cpu.pc 16)).ctx := by
  unfold runBody
  rw [if_neg hl]
  simp only [hh]
  rw [if_neg hc]
  simp only [hf]
  rfl

/-- Why a pass through the body breaks out of the loop. -/
theorem runBody_stop_cause (be : Backend) (seed : Seed) (st : Explorator) (ctx : Context)
    (count : Nat) (s : Explorator) (c : Context)
    (h : runBody be seed st ctx count = Body.stop s c) :
    (st.config.limit_inst ≠ 0 ∧ count ≥ st.config.limit_inst) ∨
    (∃ fn, st.instHooks.lookup ctx.cpu.pc = some fn ∧ (fn ctx).1 = cb_state_e.BREAK) ∨
    (st.instHooks.lookup ctx.cpu.pc = none ∧
      ((st.config.end_point ≠ 0 ∧ ctx.cpu.pc = 0) ∨
        ctx.isConcreteMemoryValueDefined ctx.cpu.pc = false)) ∨
    (st.instHooks.lookup ctx.cpu.pc = none ∧
      (be.processing ctx ctx.cpu.pc (ctx.getConcreteMemoryAreaValue ctx.cpu.pc 16)).fault
        = true) := by
  by_cases hl : st.config.limit_inst ≠ 0 ∧ count ≥ st.config.limit_inst
  · exact Or.inl hl
  · cases hh : st.instHooks.lookup ctx.cpu.pc with
    | some fn =>
      refine Or.inr (Or.inl ⟨fn, rfl, ?_⟩)
      rw [runBody_hooked be seed st ctx count fn hl hh] at h
      cases hs : (fn ctx).1 with
      | BREAK => rfl
      | CONTINUE => rw [hs] at h; simp at h
      | PLT_CONTINUE =>
        rw [hs] at h
        simp only at h
        split at h <;> simp at h
    | none =>
      by_cases hc : (st.config.end_point ≠ 0 ∧ ctx.cpu.pc = 0) ∨
          ctx.isConcreteMemoryValueDefined ctx.cpu.pc = false
      · exact Or.inr (Or.inr (Or.inl ⟨rfl, hc⟩))
      · cases hf : (be.processing ctx ctx.cpu.pc
            (ctx.getConcreteMemoryAreaValue ctx.cpu.pc 16)).fault with
        | true => exact Or.inr (Or.inr (Or.inr ⟨rfl, rfl⟩))
        | false =>
          rw [runBody_processed be seed st ctx count hl hh hc hf] at h
          simp at h

/-- C18 as stated fails: with no end point (`end_point == 0`), no limit and no
hook, in a memory defined everywhere, the step at program counter 0 executes
the instruction at address 0 without fault and moves the program counter to
1, yet the trace ends there: it does not go on to a next step. -/
theorem zero_pc_ends_trace :
    zeroExplorator.config.end_point = 0 ∧ zeroExplorator.config.limit_inst = 0 ∧
    zeroContext.isConcreteMemoryValueDefined 0 = true ∧
    zeroContext.isConcreteMemoryValueDefined 1 = true ∧
    (∃ r, run stepBackend 5 [] zeroExplorator zeroContext = Outcome.done r) ∧
    runSteps stepBackend [] 1 zeroExplorator zeroContext 0 = none ∧
    fetchLog (run stepBackend 5 [] zeroExplorator zeroContext).val.1.trace = [(0, false)] ∧
    crashLog (run stepBackend 5 [] zeroExplorator zeroContext).val.1.trace = [] ∧
    (run stepBackend 5 [] zeroExplorator zeroContext).val.2.cpu.pc = 1 := by
  refine ⟨by rfl, by rfl, by rfl, by rfl, ⟨_, rfl⟩, by rfl, by rfl, by rfl, by rfl⟩

/-! ### The instruction limit -/

/-- The pass that stops on the instruction limit. -/
theorem runBody_limit (be : Backend) (seed : Seed) (st : Explorator) (ctx : Context)
    (count : Nat) (hl : st.config.limit_inst ≠ 0 ∧ count ≥ st.config.limit_inst) :
    runBody be seed st ctx count = Body.stop st ctx := by
  unfold runBody
  rw [if_pos hl]

/-- The pass at an unhooked program counter that is an invalid control flow. -/
theorem runBody_invalid (be : Backend) (seed : Seed) (st : Explorator) (ctx : Context)
    (count : Nat) (hl : ¬ (st.config.limit_inst ≠ 0 ∧ count ≥ st.config.limit_inst))
    (hh : st.instHooks.lookup ctx.cpu.pc = none)
    (hc : (st.config.end_point ≠ 0 ∧ ctx.cpu.pc = 0) ∨
      ctx.isConcreteMemoryValueDefined ctx.cpu.pc = false) :
    runBody be seed st ctx count =
      Body.stop (writeSeedOnDisk "crashes" seed (st.log (Event.invalidControlFlow ctx.cpu.pc))
        ctx) ctx := by
  unfold runBody
  rw [if_neg hl]
  simp only [hh]
  rw [if_pos hc]

/-- What one pass does to the number of fetches and to the instruction count:
a pass that goes on fetched exactly as many instructions as it added to the
count, and left the configuration and the hooks alone; any pass fetches at
most one instruction, and none once the count has reached the limit. -/
theorem runBody_budget (be : Backend) (seed : Seed) (st : Explorator) (ctx : Context)
    (count : Nat) :
    (∀ s c c1 p, runBody be seed st ctx count = Body.cont s c c1 p →
      (fetchLog s.trace).length + count = (fetchLog st.trace).length + c1 ∧
      (st.config.limit_inst ≠ 0 → count < st.config.limit_inst → c1 ≤ st.config.limit_inst) ∧
      s.config = st.config ∧ s.instHooks = st.instHooks) ∧
    (fetchLog (runBody be seed st ctx count).explorator.trace).length
      ≤ (fetchLog st.trace).length + 1 ∧
    ((st.config.limit_inst ≠ 0 ∧ count ≥ st.config.limit_inst) →
      (runBody be seed st ctx count).explorator = st) := by
  by_cases hl : st.config.limit_inst ≠ 0 ∧ count ≥ st.config.limit_inst
  · rw [runBody_limit be seed st ctx count hl]
    exact ⟨fun s c c1 p h => by simp at h, by simp [Body.explorator], fun _ => rfl⟩
  · refine ⟨?_, ?_, fun h => absurd h hl⟩
    · intro s c c1 p h
      obtain ⟨hp, hc, hh, hcount⟩ := runBody_cont be seed st ctx count s c c1 p h
      refine ⟨?_, fun _ hlt => by rcases hcount with h1 | h1 <;> omega, hc, hh⟩
      cases hk : st.instHooks.lookup ctx.cpu.pc with
      | some fn =>
        have hc1 : c1 = count := by
          rcases hcount with h1 | h1
          · exact h1
          · rw [hk] at h1; simp at h1
        rw [runBody_hooked be seed st ctx count fn hl hk] at h
        cases hs : (fn ctx).1 with
        | BREAK => rw [hs] at h; simp at h
        | CONTINUE =>
          rw [hs] at h
          simp only [Body.cont.injEq] at h
          obtain ⟨rfl, _, _, _⟩ := h
          simp [Explorator.log, fetchLog_append, fetchLog, hc1]
        | PLT_CONTINUE =>
          rw [hs] at h
          simp only at h
          split at h
          · rename_i st2 ctx2 heq
            simp only [Body.cont.injEq] at h
            obtain ⟨rfl, _, _, _⟩ := h
            rw [asmret_ok _ _ _ _ _ heq]
            simp [Explorator.log, fetchLog_append, fetchLog, hc1]
          · simp at h
      | none =>
        by_cases hcr : (st.config.end_point ≠ 0 ∧ ctx.cpu.pc = 0) ∨
            ctx.isConcreteMemoryValueDefined ctx.cpu.pc = false
        · rw [runBody_invalid be seed st ctx count hl hk hcr] at h
          simp at h
        · cases hf : (be.processing ctx ctx.cpu.pc
              (ctx.getConcreteMemoryAreaValue ctx.cpu.pc 16)).fault with
          | true =>
            rw [runBody_faulted be seed st ctx count hl hk hcr hf] at h
            simp at h
          | false =>
            rw [runBody_processed be seed st ctx count hl hk hcr hf] at h
            simp only [Body.cont.injEq] at h
            obtain ⟨rfl, _, rfl, _⟩ := h
            simp only
            rw [solverOnly_fetchLog (symbolizeEffectiveAddress_solverOnly be _ _ _)]
            simp [Explorator.log, fetchLog_append, fetchLog]
            omega
    · cases hk : st.instHooks.lookup ctx.cpu.pc with
      | some fn =>
        rw [runBody_hooked be seed st ctx count fn hl hk]
        cases hs : (fn ctx).1 with
        | BREAK => simp [Body.explorator, Explorator.log, fetchLog_append, fetchLog]
        | CONTINUE => simp [Body.explorator, Explorator.log, fetchLog_append, fetchLog]
        | PLT_CONTINUE =>
          simp only
          split
          · rename_i st2 ctx2 heq
            rw [asmret_ok _ _ _ _ _ heq]
            simp [Body.explorator, Explorator.log, fetchLog_append, fetchLog]
          · simp [Body.explorator, Explorator.log, fetchLog_append, fetchLog]
      | none =>
        by_cases hcr : (st.config.end_point ≠ 0 ∧ ctx.cpu.pc = 0) ∨
            ctx.isConcreteMemoryValueDefined ctx.cpu.pc = false
        · rw [runBody_invalid be seed st ctx count hl hk hcr]
          simp [Body.explorator, writeSeedOnDisk, Explorator.log, fetchLog_append, fetchLog]
        · cases hf : (be.processing ctx ctx.cpu.pc
              (ctx.getConcreteMemoryAreaValue ctx.cpu.pc 16)).fault with
          | true =>
            rw [runBody_faulted be seed st ctx count hl hk hcr hf]
            simp [Body.explorator, writeSeedOnDisk, Explorator.log, fetchLog_append, fetchLog]
          | false =>
            rw [runBody_processed be seed st ctx count hl hk hcr hf]
            simp only [Body.explorator]
            rw [solverOnly_fetchLog (symbolizeEffectiveAddress_solverOnly be _ _ _)]
            simp [Explorator.log, fetchLog_append, fetchLog]

theorem runLoop_fetch_bound (be : Backend) (seed : Seed) (fuel : Nat) :
    ∀ (st : Explorator) (ctx : Context) (count : Nat), st.config.limit_inst ≠ 0 →
      count ≤ st.config.limit_inst →
      (fetchLog (runLoop be seed fuel st ctx count).val.1.trace).length + count
        ≤ (fetchLog st.trace).length + st.config.limit_inst := by
  induction fuel with
  | zero => intro st ctx count _ hc; simp only [runLoop, Outcome.val]; omega
  | succ n ih =>
    intro st ctx count hn hc
    obtain ⟨h1, h2, h3⟩ := runBody_budget be seed st ctx count
    rw [runLoop_succ]
    cases hb : runBody be seed st ctx count with
    | stop s c =>
      rw [hb] at h2 h3
      simp only [Body.explorator] at h2 h3
      simp only [Outcome.val]
      by_cases hl : count ≥ st.config.limit_inst
      · rw [h3 ⟨hn, hl⟩]; omega
      · omega
    | raised msg s c =>
      rw [hb] at h2 h3
      simp only [Body.explorator] at h2 h3
      simp only [Outcome.val]
      by_cases hl : count ≥ st.config.limit_inst
      · rw [h3 ⟨hn, hl⟩]; omega
      · omega
    | cont s c c1 p =>
      have hlt : count < st.config.limit_inst := by
        by_contra hge
        rw [runBody_limit be seed st ctx count ⟨hn, by omega⟩] at hb
        simp at hb
      obtain ⟨e1, e2, e3, _⟩ := h1 s c c1 p hb
      have hc1 := e2 hn hlt
      simp only
      split
      · have := ih s c c1 (by rw [e3]; exact hn) (by rw [e3]; exact hc1)
        rw [e3] at this
        omega
      · simp only [Outcome.val]
        omega

theorem runLoop_terminates_unhooked (be : Backend) (seed : Seed) (fuel : Nat) :
    ∀ (st : Explorator) (ctx : Context) (count : Nat), st.instHooks = [] →
      st.config.limit_inst ≠ 0 → count ≤ st.config.limit_inst →
      st.config.limit_inst - count < fuel →
      ∃ r, runLoop be seed fuel st ctx count = Outcome.done r := by
  induction fuel with
  | zero => intro st ctx count _ _ _ h; omega
  | succ n ih =>
    intro st ctx count hh hn hc hf
    rw [runLoop_succ]
    have hk : st.instHooks.lookup ctx.cpu.pc = none := by rw [hh]; rfl
    by_cases hl : st.config.limit_inst ≠ 0 ∧ count ≥ st.config.limit_inst
    · rw [runBody_limit be seed st ctx count hl]
      exact ⟨_, rfl⟩
    · have hlt : count < st.config.limit_inst := by
        by_contra hge
        exact hl ⟨hn, by omega⟩
      by_cases hcr : (st.config.end_point ≠ 0 ∧ ctx.cpu.pc = 0) ∨
          ctx.isConcreteMemoryValueDefined ctx.cpu.pc = false
      · rw [runBody_invalid be seed st ctx count hl hk hcr]
        exact ⟨_, rfl⟩
      · cases hfa : (be.processing ctx ctx.cpu.pc
            (ctx.getConcreteMemoryAreaValue ctx.cpu.pc 16)).fault with
        | true =>
          rw [runBody_faulted be seed st ctx count hl hk hcr hfa]
          exact ⟨_, rfl⟩
        | false =>
          have hb := runBody_processed be seed st ctx count hl hk hcr hfa
          obtain ⟨_, e2, e3, _⟩ := runBody_cont be seed st ctx count _ _ _ _ hb
          rw [hb]
          simp only
          split
          · exact ih _ _ _ (by rw [e3]; exact hh) (by rw [e2]; exact hn)
              (by rw [e2]; omega) (by rw [e2]; omega)
          · exact ⟨_, rfl⟩

theorem run_val_fetchLog (be : Backend) (fuel : Nat) (seed : Seed) (st : Explorator)
    (ctx : Context) :
    fetchLog (run be fuel seed st ctx).val.1.trace
      = fetchLog (runLoop be seed fuel st ctx 0).val.1.trace := by
  unfold run
  cases h : runLoop be seed fuel st ctx 0 with
  | done a =>
    obtain ⟨s, c⟩ := a
    simp [Outcome.val, stopExecution, writeSeedOnDisk, Explorator.log, fetchLog_append, fetchLog]
  | raised msg a => rfl
  | outOfFuel a => rfl

/-- Without a limit, a pass through the body does not depend on the count. -/
theorem runBody_unlimited (be : Backend) (seed : Seed) (st : Explorator) (ctx : Context)
    (count : Nat) (h0 : st.config.limit_inst = 0) :
    (runBody be seed st ctx count).explorator = (runBody be seed st ctx 0).explorator ∧
    (runBody be seed st ctx count).context = (runBody be seed st ctx 0).context ∧
    (runBody be seed st ctx count).goesOn = (runBody be seed st ctx 0).goesOn := by
  have hl : ∀ n, ¬ (st.config.limit_inst ≠ 0 ∧ n ≥ st.config.limit_inst) :=
    fun n h => h.1 h0
  cases hk : st.instHooks.lookup ctx.cpu.pc with
  | some fn =>
    rw [runBody_hooked be seed st ctx count fn (hl _) hk,
      runBody_hooked be seed st ctx 0 fn (hl _) hk]
    cases hs : (fn ctx).1 with
    | BREAK => exact ⟨rfl, rfl, rfl⟩
    | CONTINUE => exact ⟨rfl, rfl, rfl⟩
    | PLT_CONTINUE =>
      simp only
      cases asmret be (st.log (Event.hook ctx.cpu.pc cb_state_e.PLT_CONTINUE)) (fn ctx).2 with
      | error msg => exact ⟨rfl, rfl, rfl⟩
      | ok r => exact ⟨rfl, rfl, rfl⟩
  | none =>
    by_cases hcr : (st.config.end_point ≠ 0 ∧ ctx.cpu.pc = 0) ∨
        ctx.isConcreteMemoryValueDefined ctx.cpu.pc = false
    · rw [runBody_invalid be seed st ctx count (hl _) hk hcr,
        runBody_invalid be seed st ctx 0 (hl _) hk hcr]
      exact ⟨rfl, rfl, rfl⟩
    · cases hf : (be.processing ctx ctx.cpu.pc
          (ctx.getConcreteMemoryAreaValue ctx.cpu.pc 16)).fault with
      | true =>
        rw [runBody_faulted be seed st ctx count (hl _) hk hcr hf,
          runBody_faulted be seed st ctx 0 (hl _) hk hcr hf]
        exact ⟨rfl, rfl, rfl⟩
      | false =>
        rw [runBody_processed be seed st ctx count (hl _) hk hcr hf,
          runBody_processed be seed st ctx 0 (hl _) hk hcr hf]
        exact ⟨rfl, rfl, rfl⟩

/-- A trace whose hook keeps returning `CONTINUE` at the same program counter
never ends, whatever the instruction limit. -/
theorem looping_run_never_returns (fuel : Nat) :
    ∀ st : Explorator, st.config = loopingExplorator.config →
      st.instHooks = loopingExplorator.instHooks →
      ∃ a, runLoop stepBackend [] fuel st hookedContext 0 = Outcome.outOfFuel a := by
  induction fuel with
  | zero => intro st _ _; exact ⟨_, rfl⟩
  | succ n ih =>
    intro st hc hh
    have hb : runBody stepBackend [] st hookedContext 0 =
        Body.cont (st.log (Event.hook 0x1000 cb_state_e.CONTINUE)) hookedContext 0 0x1000 := by
      rw [runBody_hooked stepBackend [] st hookedContext 0 hookContinue
        (by rw [hc]; decide) (by rw [hh]; rfl)]
      rfl
    have hne : (st.log (Event.hook 0x1000 cb_state_e.CONTINUE)).config.end_point ≠ 0x1000 := by
      show st.config.end_point ≠ 0x1000
      rw [hc]
      decide
    rw [runLoop_succ, hb]
    simp only
    rw [if_pos hne]
    exact ih _ hc hh

/-- C19 as stated fails: with an instruction limit of one and a hook at
`0x1000` that returns `CONTINUE` without moving the program counter, five
passes of the loop go on one after the other, and `run` has not returned after
fifty. -/
theorem hook_continue_outruns_limit :
    loopingExplorator.config.limit_inst = 1 ∧
    (runSteps stepBackend [] 5 loopingExplorator hookedContext 0).isSome = true ∧
    (∃ a, run stepBackend 50 [] loopingExplorator hookedContext = Outcome.outOfFuel a) := by
  refine ⟨by rfl, by rfl, ⟨_, rfl⟩⟩

/-- C19, amended: with an instruction limit `n > 0`, a call of `run` fetches
at most `n` instructions, however long it runs; when no hook is registered it
terminates, with any fuel above `n`, after at most `n` passes that execute an
instruction and one pass that meets the limit.  The passes handled by a hook
do not advance the count, so they are not bounded.  With a limit of 0 a pass
of the loop does not depend on the count: no bound is applied. -/
theorem limit_bounds_instructions (be : Backend) (seed : Seed) (st : Explorator)
    (ctx : Context) :
    (st.config.limit_inst ≠ 0 →
      (∀ fuel, (fetchLog (run be fuel seed st ctx).val.1.trace).length
        ≤ (fetchLog st.trace).length + st.config.limit_inst) ∧
      (st.instHooks = [] → ∀ fuel, st.config.limit_inst < fuel →
        ∃ r, run be fuel seed st ctx = Outcome.done r)) ∧
    (st.config.limit_inst = 0 → ∀ count,
      (runBody be seed st ctx count).explorator = (runBody be seed st ctx 0).explorator ∧
      (runBody be seed st ctx count).context = (runBody be seed st ctx 0).context ∧
      (runBody be seed st ctx count).goesOn = (runBody be seed st ctx 0).goesOn) := by
  refine ⟨fun hn => ⟨fun fuel => ?_, fun hh fuel hf => ?_⟩,
    fun h0 count => runBody_unlimited be seed st ctx count h0⟩
  · rw [run_val_fetchLog]
    have := runLoop_fetch_bound be seed fuel st ctx 0 hn (Nat.zero_le _)
    omega
  · obtain ⟨r, hr⟩ := runLoop_terminates_unhooked be seed fuel st ctx 0 hh hn (Nat.zero_le _)
      (by omega)
    unfold run
    rw [hr]
    exact ⟨_, rfl⟩

/-- C19, amended, with a limit of three in a memory defined everywhere: `run`
returns after three instructions. -/
theorem limit_bounds_instructions_witness :
    (∃ r, run stepBackend 4 [] limitedExplorator slideContext = Outcome.done r) ∧
    fetchLog (run stepBackend 4 [] limitedExplorator slideContext).val.1.trace
      = [(0x100, false), (0x101, false), (0x102, false)] := by
  refine ⟨((limit_bounds_instructions stepBackend [] limitedExplorator slideContext).1
    (by decide)).2 rfl 4 (by decide), by rfl⟩

/-! ### Seeds pushed on the worklist -/

theorem pushed_refl (st : Explorator) : Pushed st st := ⟨[], rfl, rfl⟩

theorem pushed_trans {a b c : Explorator} (h1 : Pushed a b) (h2 : Pushed b c) : Pushed a c := by
  obtain ⟨l1, w1, n1⟩ := h1
  obtain ⟨l2, w2, n2⟩ := h2
  exact ⟨l2 ++ l1, by rw [w2, w1, List.append_assoc], by rw [n2, n1, List.length_append]; omega⟩

theorem pushed_of_same {st st' : Explorator} (hw : st'.worklist = st.worklist)
    (hn : st'.nbsat = st.nbsat) : Pushed st st' := ⟨[], hw, hn⟩

theorem accountModels_pushed (st : Explorator) (r : Status × List Seed) :
    Pushed st (accountModels st r) := by
  by_cases h : r.1 = Status.SAT
  · rw [accountModels_sat st r h]
    exact ⟨r.2.reverse, rfl, by simp⟩
  · exact pushed_of_same (accountModels_not_sat st r h).2 (accountModels_not_sat st r h).1

theorem accountModel_pushed (st : Explorator) (r : Status × Seed) :
    Pushed st (accountModel st r) := by
  by_cases h : r.1 = Status.SAT
  · rw [accountModel_sat st r h]
    exact ⟨[r.2], rfl, rfl⟩
  · exact pushed_of_same (accountModel_not_sat st r h).2 (accountModel_not_sat st r h).1

theorem seaOperand_pushed (be : Backend) (address : Nat) (acc : Explorator × Context)
    (operand : Operand) : Pushed acc.1 (seaOperand be address acc operand).1 := by
  unfold seaOperand
  split
  · split
    · by_cases hk : buildPathAddrs acc.2 ++ [address] ∈ acc.1.donelist
      · simp only [hk, if_true]; exact pushed_refl _
      · simp only [hk, if_false]
        exact pushed_trans (pushed_of_same rfl rfl) (accountModels_pushed _ _)
    · exact pushed_refl _
  · exact pushed_refl _

theorem symbolizeEffectiveAddress_pushed (be : Backend) (st : Explorator) (ctx : Context)
    (inst : Instruction) : Pushed st (symbolizeEffectiveAddress be st ctx inst).1 := by
  unfold symbolizeEffectiveAddress
  generalize inst.operands = ops
  have : ∀ acc : Explorator × Context,
      Pushed acc.1 (ops.foldl (seaOperand be inst.address) acc).1 := by
    induction ops with
    | nil => intro acc; exact pushed_refl _
    | cons o os ih =>
      intro acc
      exact pushed_trans (seaOperand_pushed be inst.address acc o) (ih _)
  exact this (st, ctx)

theorem fniBranch_pushed (be : Backend) (pc : PathConstraint) (pathaddrs : List Nat)
    (predicate : Ast) (st : Explorator) (branch : Branch) :
    Pushed st (fniBranch be pc pathaddrs predicate st branch) := by
  unfold fniBranch
  by_cases hk : pathaddrs ++ [branch.dstAddr] ∈ st.donelist
  · simp only [hk, if_true]; exact pushed_refl _
  · simp only [hk, if_false]
    split
    · split
      · exact pushed_trans (pushed_of_same rfl rfl) (accountModel_pushed _ _)
      · exact pushed_of_same rfl rfl
    · exact pushed_trans (pushed_of_same rfl rfl) (accountModels_pushed _ _)

theorem findNewInputs_pushed (be : Backend) (st : Explorator) (ctx : Context) :
    Pushed st (findNewInputs be st ctx) := by
  unfold findNewInputs
  generalize ctx.pathConstraints = pcs
  generalize ([] : List Nat) = pathaddrs
  generalize Ast.equal Ast.bvtrue Ast.bvtrue = predicate
  induction pcs generalizing pathaddrs predicate st with
  | nil => exact pushed_refl _
  | cons pc rest ih =>
    unfold fniLoop
    refine pushed_trans ?_ (ih _ _ _)
    generalize pc.branches = bs
    induction bs generalizing st with
    | nil => exact pushed_refl _
    | cons b bs ihb => exact pushed_trans (fniBranch_pushed be pc _ predicate st b) (ihb _)

theorem runBody_pushed (be : Backend) (seed : Seed) (st : Explorator) (ctx : Context)
    (count : Nat) : Pushed st (runBody be seed st ctx count).explorator := by
  by_cases hl : st.config.limit_inst ≠ 0 ∧ count ≥ st.config.limit_inst
  · rw [runBody_limit be seed st ctx count hl]; exact pushed_refl _
  · cases hk : st.instHooks.lookup ctx.cpu.pc with
    | some fn =>
      rw [runBody_hooked be seed st ctx count fn hl hk]
      cases hs : (fn ctx).1 with
      | BREAK => exact pushed_of_same rfl rfl
      | CONTINUE => exact pushed_of_same rfl rfl
      | PLT_CONTINUE =>
        simp only
        split
        · rename_i st2 ctx2 heq
          rw [asmret_ok _ _ _ _ _ heq]
          exact pushed_of_same rfl rfl
        · exact pushed_of_same rfl rfl
    | none =>
      by_cases hcr : (st.config.end_point ≠ 0 ∧ ctx.cpu.pc = 0) ∨
          ctx.isConcreteMemoryValueDefined ctx.cpu.pc = false
      · rw [runBody_invalid be seed st ctx count hl hk hcr]
        exact pushed_of_same rfl rfl
      · cases hf : (be.processing ctx ctx.cpu.pc
            (ctx.getConcreteMemoryAreaValue ctx.cpu.pc 16)).fault with
        | true =>
          rw [runBody_faulted be seed st ctx count hl hk hcr hf]
          exact pushed_of_same rfl rfl
        | false =>
          rw [runBody_processed be seed st ctx count hl hk hcr hf]
          exact pushed_trans (pushed_trans (pushed_of_same rfl rfl)
            (symbolizeEffectiveAddress_pushed be (st.log (Event.fetch ctx.cpu.pc false)) _ _))
            (pushed_of_same rfl rfl)

theorem runLoop_pushed (be : Backend) (seed : Seed) (fuel : Nat) :
    ∀ (st : Explorator) (ctx : Context) (count : Nat),
      Pushed st (runLoop be seed fuel st ctx count).val.1 := by
  induction fuel with
  | zero => intro st ctx count; exact pushed_refl _
  | succ n ih =>
    intro st ctx count
    have hb := runBody_pushed be seed st ctx count
    rw [runLoop_succ]
    cases h : runBody be seed st ctx count with
    | stop s c => rw [h] at hb; exact hb
    | raised msg s c => rw [h] at hb; exact hb
    | cont s c c1 p =>
      rw [h] at hb
      simp only
      split
      · exact pushed_trans hb (ih _ _ _)
      · exact hb

theorem run_pushed (be : Backend) (fuel : Nat) (seed : Seed) (st : Explorator)
    (ctx : Context) : Pushed st (run be fuel seed st ctx).val.1 := by
  have hl := runLoop_pushed be seed fuel st ctx 0
  unfold run
  cases h : runLoop be seed fuel st ctx 0 with
  | done a =>
    obtain ⟨s, c⟩ := a
    rw [h] at hl
    exact pushed_trans hl (pushed_of_same rfl rfl)
  | raised msg a => rw [h] at hl; exact hl
  | outOfFuel a => rw [h] at hl; exact hl

/-- C15 as stated fails: in a trace of one instruction with a memory operand
at a symbolic address, `symbolizeEffectiveAddress` pushes the seed binding
variable 0 to 1; after the trace `findNewInputs` pushes the seed binding
variable 0 to 2 on top of it, and that seed, which is not one of those
`symbolizeEffectiveAddress` pushed, is the one popped for the very next trace
(it is written as `corpus/2`; the other one comes third). -/
theorem next_seed_is_from_findNewInputs :
    (∃ r, run eaBackend 4 [(0, 0)] eaExplorator harnessContext = Outcome.done r) ∧
    (run eaBackend 4 [(0, 0)] eaExplorator harnessContext).val.1.worklist = [[(0, 1)]] ∧
    (findNewInputs eaBackend (run eaBackend 4 [(0, 0)] eaExplorator harnessContext).val.1
      (run eaBackend 4 [(0, 0)] eaExplorator harnessContext).val.2).worklist
      = [[(0, 2)], [(0, 1)]] ∧
    (∃ r, explore eaBackend 5 eaExplorator = Outcome.done r) ∧
    writeLog (explore eaBackend 5 eaExplorator).val.trace
      = [("corpus", 1, [0, 0, 0, 0, 0]), ("corpus", 2, [2, 0, 0, 0, 0]),
         ("corpus", 3, [1, 0, 0, 0, 0])] := by
  refine ⟨⟨_, rfl⟩, by rfl, by rfl, ⟨_, rfl⟩, by rfl⟩

/-- C15, amended: when a trace returns, the worklist is the seeds pushed
during the trace (`symbolizeEffectiveAddress` is the only method that pushes
then), the last pushed first, on top of what it was; `findNewInputs` then
pushes its own seeds on top of those.  So the seed popped for the very next
trace is the last seed `findNewInputs` pushed when it pushed any, and it is
one of the seeds pushed during the trace (the last one) only when
`findNewInputs` pushed none. -/
theorem next_seed_after_trace (be : Backend) (fuel : Nat) (seed : Seed) (st : Explorator)
    (ctx : Context) (st2 : Explorator) (ctx2 : Context)
    (h : run be fuel seed st ctx = Outcome.done (st2, ctx2)) :
    ∃ ea fn : List Seed, st2.worklist = ea ++ st.worklist ∧
      st2.nbsat = st.nbsat + ea.length ∧
      (findNewInputs be st2 ctx2).worklist = fn ++ (ea ++ st.worklist) ∧
      (findNewInputs be st2 ctx2).nbsat = st2.nbsat + fn.length ∧
      (∀ s, fn.head? = some s → (findNewInputs be st2 ctx2).worklist.head? = some s) ∧
      (fn = [] → ∀ s, ea.head? = some s →
        (findNewInputs be st2 ctx2).worklist.head? = some s) := by
  have h1 := run_pushed be fuel seed st ctx
  rw [h] at h1
  obtain ⟨ea, w1, n1⟩ := h1
  obtain ⟨fn, w2, n2⟩ := findNewInputs_pushed be st2 ctx2
  simp only [Outcome.val] at w1 n1
  refine ⟨ea, fn, w1, n1, by rw [w2, w1], n2, ?_, ?_⟩
  · intro s hs
    rw [w2]
    cases fn with
    | nil => simp at hs
    | cons x xs => simpa using hs
  · intro hfn s hs
    rw [w2, w1, hfn]
    cases ea with
    | nil => simp at hs
    | cons x xs => simpa using hs

/-- C15, amended, on the one-instruction trace: the seed on top after
`findNewInputs` is the one it pushed. -/
theorem next_seed_after_trace_witness :
    ∃ ea fn : List Seed,
      (run eaBackend 4 [(0, 0)] eaExplorator harnessContext).val.1.worklist = ea ++ [] ∧
      (findNewInputs eaBackend (run eaBackend 4 [(0, 0)] eaExplorator harnessContext).val.1
        (run eaBackend 4 [(0, 0)] eaExplorator harnessContext).val.2).worklist
        = fn ++ (ea ++ []) := by
  obtain ⟨ea, fn, h1, _, h3, _⟩ := next_seed_after_trace eaBackend 4 [(0, 0)] eaExplorator
    harnessContext _ _ rfl
  exact ⟨ea, fn, h1, h3⟩

/-! ### The balance of `nbsat`, `nbexec` and the worklist -/

/-- A trace that returns adds exactly one to `nbexec`, on every exit path. -/
theorem run_done_nbexec (be : Backend) (fuel : Nat) (seed : Seed) (st : Explorator)
    (ctx : Context) (st' : Explorator) (ctx' : Context)
    (h : run be fuel seed st ctx = Outcome.done (st', ctx')) : st'.nbexec = st.nbexec + 1 := by
  unfold run at h
  split at h
  · rename_i st1 ctx1 heq
    simp only [Outcome.done.injEq, Prod.mk.injEq] at h
    obtain ⟨rfl, rfl⟩ := h
    have hn : (stopExecution seed st1 ctx1).nbexec = st1.nbexec + 1 := rfl
    rcases runLoop_files be seed fuel st ctx 0 st1 ctx1 heq with hq | hq
    · rw [hn, hq.1]
    · rw [hn, hq.1]
  · simp at h
  · simp at h

/-- One iteration of the loop of `explore` keeps the balance. -/
theorem iteration_balance (be : Backend) (fuel : Nat) (st : Explorator) (ctx : Context)
    (seed : Seed) (rest : List Seed) (st2 : Explorator) (ctx2 : Context)
    (hinv : st.nbsat = st.nbexec + st.worklist.length) (hw : st.worklist = seed :: rest)
    (h : run be fuel seed { st with worklist := rest } ctx = Outcome.done (st2, ctx2)) :
    (findNewInputs be st2 ctx2).nbsat
      = (findNewInputs be st2 ctx2).nbexec + (findNewInputs be st2 ctx2).worklist.length := by
  have h1 := run_pushed be fuel seed { st with worklist := rest } ctx
  rw [h] at h1
  obtain ⟨ea, w1, n1⟩ := h1
  obtain ⟨fn, w2, n2⟩ := findNewInputs_pushed be st2 ctx2
  have he := run_done_nbexec be fuel seed _ ctx st2 ctx2 h
  have hx := (findNewInputs_solverOnly be st2 ctx2).2.2.1
  simp only [Outcome.val] at w1 n1
  simp only at he
  rw [hw] at hinv
  rw [n2, n1, hx, he, w2, w1]
  simp only [List.length_append, List.length_cons] at hinv ⊢
  omega

theorem initWorklist_balance (be : Backend) (st : Explorator) (ctx : Context)
    (hinv : st.nbsat = st.nbexec + st.worklist.length) :
    (initWorklist be st ctx).val.nbsat
      = (initWorklist be st ctx).val.nbexec + (initWorklist be st ctx).val.worklist.length := by
  have hx := (initWorklist_solverOnly be st ctx).2.2.1
  by_cases h : (be.getModel st.trace ctx.getPathPredicate st.config.timeout).1 = Status.SAT
  · obtain ⟨seed, h1, h2, _⟩ := initWorklist_sat_aux be st ctx h
    rw [h1, h2, hx]
    simp only [List.length_append, List.length_singleton]
    omega
  · have h2 := initWorklist_not_sat be st ctx h
    rw [h2.1, h2.2, hx]
    exact hinv

theorem loopHeads_balance (be : Backend) (bck : Context) (fuel : Nat) :
    ∀ (st : Explorator) (ctx : Context), st.nbsat = st.nbexec + st.worklist.length →
      ∀ s ∈ loopHeads be bck fuel st ctx, s.nbsat = s.nbexec + s.worklist.length := by
  induction fuel with
  | zero =>
    intro st ctx hinv s hs
    unfold loopHeads at hs
    cases hw : st.worklist with
    | nil => rw [hw] at hs; simp at hs; rw [hs]; exact hinv
    | cons seed rest => rw [hw] at hs; simp at hs; rw [hs]; exact hinv
  | succ n ih =>
    intro st ctx hinv s hs
    unfold loopHeads at hs
    cases hw : st.worklist with
    | nil => rw [hw] at hs; simp at hs; rw [hs]; exact hinv
    | cons seed rest =>
      rw [hw] at hs
      simp only [List.mem_cons] at hs
      rcases hs with rfl | hs
      · exact hinv
      · cases hr : run be n seed { st with worklist := rest } (injectSeed seed ctx) with
        | done a =>
          obtain ⟨st2, ctx2⟩ := a
          rw [hr] at hs
          simp only at hs
          cases hsnap : snapshotContext ctx2 bck with
          | error msg => rw [hsnap] at hs; simp at hs
          | ok ctx3 =>
            rw [hsnap] at hs
            exact ih _ _ (iteration_balance be n st (injectSeed seed ctx) seed rest st2 ctx2
              hinv hw hr) s hs
        | raised msg a => rw [hr] at hs; simp at hs
        | outOfFuel a => rw [hr] at hs; simp at hs

theorem exploreLoop_done_balance (be : Backend) (bck : Context) (fuel : Nat) :
    ∀ (st : Explorator) (ctx : Context) (st' : Explorator),
      st.nbsat = st.nbexec + st.worklist.length →
      exploreLoop be bck fuel st ctx = Outcome.done st' →
      st'.worklist = [] ∧ st'.nbexec = st'.nbsat := by
  induction fuel with
  | zero =>
    intro st ctx st' hinv h
    unfold exploreLoop at h
    split at h
    · rename_i hw
      simp only [Outcome.done.injEq] at h
      subst h
      simp only
      rw [hw] at hinv
      exact ⟨hw, by simpa using hinv.symm⟩
    · simp at h
  | succ n ih =>
    intro st ctx st' hinv h
    unfold exploreLoop at h
    split at h
    · rename_i hw
      simp only [Outcome.done.injEq] at h
      subst h
      simp only
      rw [hw] at hinv
      exact ⟨hw, by simpa using hinv.symm⟩
    · rename_i seed rest hw
      simp only at h
      split at h
      · simp at h
      · simp at h
      · rename_i st2 ctx2 hr
        split at h
        · simp at h
        · exact ih _ _ _ (iteration_balance be n st (injectSeed seed ctx) seed rest st2 ctx2
            hinv hw hr) h

/-- The evaluations of the loop condition past the null check and the first snapshot. -/
theorem exploreHeads_eq (be : Backend) (fuel : Nat) (st : Explorator) (ctx bck : Context)
    (hc : st.ini_ctx = some ctx)
    (hb : snapshotContext (Context.fresh ctx.arch) ctx = .ok bck) :
    exploreHeads be fuel st
      = match initWorklist be { st with bck_ctx := some bck } ctx with
        | Outcome.done st2 => loopHeads be bck fuel st2 ctx
        | _ => [] := by
  obtain ⟨config, nbexec, nbsat, nbunsat, nbtimeout, ini, bckp, worklist, donelist, coverage,
    instHooks, trace⟩ := st
  simp only at hc
  subst hc
  simp only [exploreHeads, hb]

/-- C20: for a freshly constructed explorator and any back-end, at every
evaluation of the condition of the loop of `explore` the number of
satisfiable answers counted is the number of traces run plus the size of the
worklist; every trace that returns adds exactly one to `nbexec`; hence when
`explore` returns the worklist is empty and `nbexec == nbsat`. -/
theorem worklist_balance (be : Backend) (fuel : Nat) (st : Explorator) (hf : st.Fresh) :
    (∀ s ∈ exploreHeads be fuel st, s.nbsat = s.nbexec + s.worklist.length) ∧
    (∀ (seed : Seed) (s : Explorator) (ctx : Context) (s' : Explorator) (ctx' : Context),
      run be fuel seed s ctx = Outcome.done (s', ctx') → s'.nbexec = s.nbexec + 1) ∧
    (∀ st', explore be fuel st = Outcome.done st' →
      st'.worklist = [] ∧ st'.nbexec = st'.nbsat) := by
  obtain ⟨h1, h2, _, _, h5, _, _, _⟩ := hf
  have hinv : st.nbsat = st.nbexec + st.worklist.length := by rw [h1, h2, h5]; rfl
  refine ⟨fun s hs => ?_, fun seed s ctx s' ctx' h => run_done_nbexec be fuel seed s ctx s' ctx' h,
    fun st' h => ?_⟩
  · cases hc : st.ini_ctx with
    | none =>
      unfold exploreHeads at hs
      rw [hc] at hs
      simp at hs
    | some ctx =>
      cases hsnap : snapshotContext (Context.fresh ctx.arch) ctx with
      | error msg =>
        unfold exploreHeads at hs
        rw [hc] at hs
        simp only [hsnap] at hs
        simp at hs
      | ok bck =>
        rw [exploreHeads_eq be fuel st ctx bck hc hsnap] at hs
        have hb := initWorklist_balance be { st with bck_ctx := some bck } ctx hinv
        rw [initWorklist_val] at hb
        rcases initWorklist_cases be { st with bck_ctx := some bck } ctx with hd | ⟨path, hr⟩
        · rw [hd] at hs
          exact loopHeads_balance be bck fuel _ ctx hb s hs
        · rw [hr] at hs
          simp at hs
  · cases hc : st.ini_ctx with
    | none =>
      unfold explore at h
      rw [hc] at h
      simp at h
    | some ctx =>
      cases hsnap : snapshotContext (Context.fresh ctx.arch) ctx with
      | error msg =>
        unfold explore at h
        rw [hc] at h
        simp only [hsnap] at h
        simp at h
      | ok bck =>
        rw [explore_eq be fuel st ctx bck hc hsnap] at h
        have hb := initWorklist_balance be { st with bck_ctx := some bck } ctx hinv
        rw [initWorklist_val] at hb
        rcases initWorklist_cases be { st with bck_ctx := some bck } ctx with hd | ⟨path, hr⟩
        · rw [hd] at h
          exact exploreLoop_done_balance be bck fuel _ ctx st' hb h
        · rw [hr] at h
          simp at h


/-- C20 on the harness of directory 1 with a back-end that steps one byte at a
time: the explorator is fresh, the loop condition is evaluated twice, with
worklists of sizes 1 and 0, and `explore` returns with one trace run and one
satisfiable answer. -/
theorem worklist_balance_witness :
    harnessExplorator.Fresh ∧
    (exploreHeads stepBackend 3 harnessExplorator).map
        (fun s => (s.nbsat, s.nbexec, s.worklist.length))
      = [(1, 0, 1), (1, 1, 0)] ∧
    (∀ s ∈ exploreHeads stepBackend 3 harnessExplorator,
      s.nbsat = s.nbexec + s.worklist.length) ∧
    ∃ st', explore stepBackend 3 harnessExplorator = Outcome.done st' ∧
      st'.worklist = [] ∧ st'.nbexec = st'.nbsat :=
  ⟨⟨rfl, rfl, rfl, rfl, rfl, rfl, rfl, rfl⟩, by rfl,
    (worklist_balance stepBackend 3 harnessExplorator
      ⟨rfl, rfl, rfl, rfl, rfl, rfl, rfl, rfl⟩).1,
    _, rfl,
    (worklist_balance stepBackend 3 harnessExplorator
      ⟨rfl, rfl, rfl, rfl, rfl, rfl, rfl, rfl⟩).2.2 _ rfl⟩

/-! ### The pass at the end point -/

theorem fetchLog_stopExecution (seed : Seed) (st : Explorator) (ctx : Context) :
    fetchLog (stopExecution seed st ctx).trace = fetchLog st.trace := by
  simp [stopExecution, writeSeedOnDisk, Explorator.log, fetchLog_append, fetchLog]

theorem crashLog_stopExecution (seed : Seed) (st : Explorator) (ctx : Context) :
    crashLog (stopExecution seed st ctx).trace = crashLog st.trace := by
  simp [stopExecution, writeSeedOnDisk, Explorator.log, crashLog_append, crashLog]

/-- C12, amended: when the execution of a seed reaches the end point (not
zero) after `k` passes of the loop that went on (no hook `BREAK`, no crash, no
limit hit before), `run` terminates with any fuel above `k`, and what it
leaves is the outcome of one more pass, the one that starts at the end point.
(a) When the instruction limit is met at that pass, nothing is fetched and
`run` returns with the context unchanged: the program counter is the end
point.  (b) Otherwise, when a hook is registered at the end point, the hook is
called and nothing is fetched; `run` returns with the context the hook left,
after the synthetic `ret` of `asmret` on `PLT_CONTINUE`, or throws the error
of `asmret`.  (c) Otherwise, when the memory at the end point is undefined,
nothing is fetched, the invalid control flow is reported and `run` returns
with the context unchanged: the program counter is the end point.
(d) Otherwise the instruction at the end point is fetched and processed;
`run` returns, after a crash report when the back-end signals a fault, and the
CPU state, hence the program counter, is the one the back-end left after that
instruction, which need not be the end point. -/
theorem run_stops_after_end_point (be : Backend) (seed : Seed) (k : Nat) (st : Explorator)
    (ctx : Context) (s : Explorator) (c : Context) (c1 : Nat)
    (hreach : runSteps be seed k st ctx 0 = some (s, c, c1))
    (hpc : c.cpu.pc = s.config.end_point) (hne : s.config.end_point ≠ 0) :
    ∀ fuel, k < fuel →
      run be fuel seed st ctx = endStep seed (runBody be seed s c c1) ∧
      ((s.config.limit_inst ≠ 0 ∧ c1 ≥ s.config.limit_inst) →
        run be fuel seed st ctx = Outcome.done (stopExecution seed s c, c) ∧
        (run be fuel seed st ctx).val.2.cpu.pc = s.config.end_point ∧
        fetchLog (run be fuel seed st ctx).val.1.trace = fetchLog s.trace) ∧
      (¬ (s.config.limit_inst ≠ 0 ∧ c1 ≥ s.config.limit_inst) →
        ∀ fn, s.instHooks.lookup c.cpu.pc = some fn →
          fetchLog (run be fuel seed st ctx).val.1.trace = fetchLog s.trace ∧
          crashLog (run be fuel seed st ctx).val.1.trace = crashLog s.trace ∧
          ((fn c).1 ≠ cb_state_e.PLT_CONTINUE →
            run be fuel seed st ctx = Outcome.done
              (stopExecution seed (s.log (Event.hook c.cpu.pc (fn c).1)) (fn c).2, (fn c).2)) ∧
          ((fn c).1 = cb_state_e.PLT_CONTINUE →
            run be fuel seed st ctx =
              match asmret be (s.log (Event.hook c.cpu.pc cb_state_e.PLT_CONTINUE)) (fn c).2 with
              | .ok (st2, ctx2) => Outcome.done (stopExecution seed st2 ctx2, ctx2)
              | .error msg => Outcome.raised msg
                  (s.log (Event.hook c.cpu.pc cb_state_e.PLT_CONTINUE), (fn c).2))) ∧
      (¬ (s.config.limit_inst ≠ 0 ∧ c1 ≥ s.config.limit_inst) →
        s.instHooks.lookup c.cpu.pc = none →
        c.isConcreteMemoryValueDefined c.cpu.pc = false →
          run be fuel seed st ctx = Outcome.done
            (stopExecution seed
              (writeSeedOnDisk "crashes" seed (s.log (Event.invalidControlFlow c.cpu.pc)) c) c,
              c) ∧
          (run be fuel seed st ctx).val.2.cpu.pc = s.config.end_point ∧
          fetchLog (run be fuel seed st ctx).val.1.trace = fetchLog s.trace) ∧
      (¬ (s.config.limit_inst ≠ 0 ∧ c1 ≥ s.config.limit_inst) →
        s.instHooks.lookup c.cpu.pc = none →
        c.isConcreteMemoryValueDefined c.cpu.pc = true →
          ∃ st' ctx', run be fuel seed st ctx = Outcome.done (st', ctx') ∧
            ctx'.cpu
              = (be.processing c c.cpu.pc (c.getConcreteMemoryAreaValue c.cpu.pc 16)).ctx.cpu ∧
            fetchLog st'.trace = fetchLog s.trace ++ [(s.config.end_point,
              (be.processing c c.cpu.pc (c.getConcreteMemoryAreaValue c.cpu.pc 16)).fault)] ∧
            crashLog st'.trace = crashLog s.trace ++
              (if (be.processing c c.cpu.pc (c.getConcreteMemoryAreaValue c.cpu.pc 16)).fault
                then [s.config.end_point] else [])) := by
  intro fuel hk
  have main : run be fuel seed st ctx = endStep seed (runBody be seed s c c1) := by
    obtain ⟨n, rfl⟩ : ∃ n, fuel = k + (n + 1) := ⟨fuel - k - 1, by omega⟩
    unfold run
    rw [runLoop_of_runSteps be seed k st ctx 0 s c c1 (n + 1) hreach]
    exact run_last_pass be seed s c c1 n hpc
  refine ⟨main, fun hl => ?_, fun hl fn hh => ?_, fun hl hh hd => ?_, fun hl hh hd => ?_⟩
  · rw [main, runBody_limit be seed s c c1 hl]
    exact ⟨rfl, hpc, fetchLog_stopExecution seed s c⟩
  · rw [main, runBody_hooked be seed s c c1 fn hl hh]
    cases hs : (fn c).1 with
    | CONTINUE =>
      refine ⟨?_, ?_, fun _ => rfl, fun h => by simp at h⟩
      · simp only [endStep, Outcome.val]
        rw [fetchLog_stopExecution, fetchLog_log_hook]
      · simp only [endStep, Outcome.val]
        rw [crashLog_stopExecution, (quiet_log_hook s _ _).2.1]
    | BREAK =>
      refine ⟨?_, ?_, fun _ => rfl, fun h => by simp at h⟩
      · simp only [endStep, Outcome.val]
        rw [fetchLog_stopExecution, fetchLog_log_hook]
      · simp only [endStep, Outcome.val]
        rw [crashLog_stopExecution, (quiet_log_hook s _ _).2.1]
    | PLT_CONTINUE =>
      simp only
      cases ha : asmret be (s.log (Event.hook c.cpu.pc cb_state_e.PLT_CONTINUE)) (fn c).2 with
      | error msg =>
        refine ⟨?_, ?_, fun h => absurd rfl h, fun _ => rfl⟩
        · simp only [endStep, Outcome.val]
          rw [fetchLog_log_hook]
        · simp only [endStep, Outcome.val]
          rw [(quiet_log_hook s _ _).2.1]
      | ok r =>
        obtain ⟨st2, ctx2⟩ := r
        have h2 := asmret_ok _ _ _ _ _ ha
        refine ⟨?_, ?_, fun h => absurd rfl h, fun _ => rfl⟩
        · simp only [endStep, Outcome.val]
          rw [fetchLog_stopExecution, h2, fetchLog_log_ret, fetchLog_log_hook]
        · simp only [endStep, Outcome.val]
          rw [crashLog_stopExecution, h2, (quiet_log_ret _).2.1, (quiet_log_hook s _ _).2.1]
  · rw [main, runBody_invalid be seed s c c1 hl hh (Or.inr hd)]
    refine ⟨rfl, hpc, ?_⟩
    simp only [endStep, Outcome.val]
    rw [fetchLog_stopExecution, fetchLog_writeSeedOnDisk, fetchLog_log_invalidControlFlow]
  · have hc : ¬ ((s.config.end_point ≠ 0 ∧ c.cpu.pc = 0) ∨
        c.isConcreteMemoryValueDefined c.cpu.pc = false) := by
      rw [hd, hpc]
      simp [hne]
    cases hf : (be.processing c c.cpu.pc (c.getConcreteMemoryAreaValue c.cpu.pc 16)).fault with
    | true =>
      rw [main, runBody_faulted be seed s c c1 hl hh hc hf]
      refine ⟨_, _, rfl, rfl, ?_, ?_⟩
      · rw [fetchLog_stopExecution, fetchLog_writeSeedOnDisk, fetchLog_log_invalidInstruction,
          fetchLog_log_fetch, hpc]
      · rw [crashLog_stopExecution]
        simp [writeSeedOnDisk, Explorator.log, crashLog_append, crashLog, hpc]
    | false =>
      rw [main, runBody_processed be seed s c c1 hl hh hc hf]
      refine ⟨_, _, rfl, ?_, ?_, ?_⟩
      · rw [(symbolizeEffectiveAddress_context be _ _ _)]
      · rw [fetchLog_stopExecution]
        simp only
        rw [solverOnly_fetchLog (symbolizeEffectiveAddress_solverOnly be _ _ _),
          fetchLog_log_fetch, hpc]
      · rw [crashLog_stopExecution]
        simp only
        rw [(solverOnly_quiet (symbolizeEffectiveAddress_solverOnly be _ _ _)).2.1,
          (quiet_log_fetch s _ _).2.1]
        simp

/-- C12, amended, on the end of harness 6: the end point is reached after one
pass; the `ret` at the end point is fetched and processed, `run` returns and
the program counter is the one the `ret` left. -/
theorem run_stops_after_end_point_witness :
    ∃ st' ctx', run retBackend 5 [] harness6Explorator harness6Context
        = Outcome.done (st', ctx') ∧ ctx'.cpu.pc = 0 ∧
      fetchLog st'.trace = [(0x1180, false), (0x1181, false)] := by
  obtain ⟨st', ctx', h1, h2, h3, _⟩ :=
    (run_stops_after_end_point retBackend [] 1 harness6Explorator harness6Context
      _ _ _ rfl rfl (by decide) 5 (by decide)).2.2.2.2 (by decide) rfl rfl
  exact ⟨st', ctx', h1, by rw [h2]; rfl, by rw [h3]; rfl⟩

/-! ### The pass at program counter zero without end point -/

/-- Why a pass through the body throws. -/
theorem runBody_raised_cause (be : Backend) (seed : Seed) (st : Explorator) (ctx : Context)
    (count : Nat) (msg : String) (s : Explorator) (c : Context)
    (h : runBody be seed st ctx count = Body.raised msg s c) :
    ¬ (st.config.limit_inst ≠ 0 ∧ count ≥ st.config.limit_inst) ∧
    ∃ fn, st.instHooks.lookup ctx.cpu.pc = some fn ∧ (fn ctx).1 = cb_state_e.PLT_CONTINUE ∧
      asmret be (st.log (Event.hook ctx.cpu.pc cb_state_e.PLT_CONTINUE)) (fn ctx).2
        = .error msg := by
  by_cases hl : st.config.limit_inst ≠ 0 ∧ count ≥ st.config.limit_inst
  · rw [runBody_limit be seed st ctx count hl] at h
    simp at h
  · refine ⟨hl, ?_⟩
    cases hh : st.instHooks.lookup ctx.cpu.pc with
    | some fn =>
      refine ⟨fn, rfl, ?_⟩
      rw [runBody_hooked be seed st ctx count fn hl hh] at h
      cases hs : (fn ctx).1 with
      | BREAK => rw [hs] at h; simp at h
      | CONTINUE => rw [hs] at h; simp at h
      | PLT_CONTINUE =>
        rw [hs] at h
        simp only at h
        refine ⟨rfl, ?_⟩
        cases ha : asmret be (st.log (Event.hook ctx.cpu.pc cb_state_e.PLT_CONTINUE))
            (fn ctx).2 with
        | ok r =>
          rw [ha] at h
          simp at h
        | error m =>
          rw [ha] at h
          simp only [Body.raised.injEq] at h
          rw [h.1]
    | none =>
      by_cases hc : (st.config.end_point ≠ 0 ∧ ctx.cpu.pc = 0) ∨
          ctx.isConcreteMemoryValueDefined ctx.cpu.pc = false
      · rw [runBody_invalid be seed st ctx count hl hh hc] at h
        simp at h
      · cases hf : (be.processing ctx ctx.cpu.pc
            (ctx.getConcreteMemoryAreaValue ctx.cpu.pc 16)).fault with
        | true =>
          rw [runBody_faulted be seed st ctx count hl hh hc hf] at h
          simp at h
        | false =>
          rw [runBody_processed be seed st ctx count hl hh hc hf] at h
          simp at h

/-- C18, amended: with `end_point == 0`, the pass of the loop of `run` that
starts at program counter 0 is the last one, whatever it does: the loop
condition compares the end point 0 with the program counter 0, so the trace
does not go on to a next step.  When the memory at 0 is defined, that pass is
not reported as an invalid control flow: it does nothing when the instruction
limit is met; otherwise it calls the hook registered at 0, if any, and fetches
nothing; otherwise the instruction at address 0 is fetched and handed to the
back-end, and the only crash report is the one of a fault.  In general, with
`end_point == 0`, a pass that reaches the loop condition goes on to the next
pass exactly when its program counter is not 0; a pass breaks out of the loop
only on the instruction limit, a hook `BREAK`, an undefined program counter or
a fault; and a pass throws only the error of `asmret` under a hook returning
`PLT_CONTINUE`. -/
theorem zero_end_point_steps (be : Backend) (seed : Seed) (st : Explorator) (ctx : Context)
    (count : Nat) (he : st.config.end_point = 0) :
    (ctx.cpu.pc = 0 → ∀ n,
      (runLoop be seed (n + 1) st ctx count).val
        = ((runBody be seed st ctx count).explorator, (runBody be seed st ctx count).context) ∧
      ∀ a, runLoop be seed (n + 1) st ctx count ≠ Outcome.outOfFuel a) ∧
    (ctx.cpu.pc = 0 → ctx.isConcreteMemoryValueDefined ctx.cpu.pc = true →
      ((st.config.limit_inst ≠ 0 ∧ count ≥ st.config.limit_inst) →
        runBody be seed st ctx count = Body.stop st ctx) ∧
      (¬ (st.config.limit_inst ≠ 0 ∧ count ≥ st.config.limit_inst) →
        ∀ fn, st.instHooks.lookup ctx.cpu.pc = some fn →
          (∃ rest, (runBody be seed st ctx count).explorator.trace
            = st.trace ++ Event.hook 0 (fn ctx).1 :: rest) ∧
          fetchLog (runBody be seed st ctx count).explorator.trace = fetchLog st.trace ∧
          crashLog (runBody be seed st ctx count).explorator.trace = crashLog st.trace) ∧
      (¬ (st.config.limit_inst ≠ 0 ∧ count ≥ st.config.limit_inst) →
        st.instHooks.lookup ctx.cpu.pc = none →
          fetchLog (runBody be seed st ctx count).explorator.trace
            = fetchLog st.trace ++ [(0, (be.processing ctx ctx.cpu.pc
                (ctx.getConcreteMemoryAreaValue ctx.cpu.pc 16)).fault)] ∧
          ((be.processing ctx ctx.cpu.pc (ctx.getConcreteMemoryAreaValue ctx.cpu.pc 16)).fault
              = true →
            (runBody be seed st ctx count).explorator.trace
              = st.trace ++ [Event.fetch 0 true, Event.invalidInstruction 0,
                  Event.write "crashes" st.nbexec (seed2vector seed
                    (be.processing ctx ctx.cpu.pc
                      (ctx.getConcreteMemoryAreaValue ctx.cpu.pc 16)).ctx)]) ∧
          ((be.processing ctx ctx.cpu.pc (ctx.getConcreteMemoryAreaValue ctx.cpu.pc 16)).fault
              = false →
            (∃ s c, runBody be seed st ctx count = Body.cont s c (count + 1) 0) ∧
            crashLog (runBody be seed st ctx count).explorator.trace = crashLog st.trace))) ∧
    (∀ s c c1 p n, runBody be seed st ctx count = Body.cont s c c1 p →
      runLoop be seed (n + 1) st ctx count =
        if ctx.cpu.pc = 0 then Outcome.done (s, c) else runLoop be seed n s c c1) ∧
    (∀ s c, runBody be seed st ctx count = Body.stop s c →
      (st.config.limit_inst ≠ 0 ∧ count ≥ st.config.limit_inst) ∨
      (∃ fn, st.instHooks.lookup ctx.cpu.pc = some fn ∧ (fn ctx).1 = cb_state_e.BREAK) ∨
      (st.instHooks.lookup ctx.cpu.pc = none ∧
        ctx.isConcreteMemoryValueDefined ctx.cpu.pc = false) ∨
      (st.instHooks.lookup ctx.cpu.pc = none ∧
        (be.processing ctx ctx.cpu.pc (ctx.getConcreteMemoryAreaValue ctx.cpu.pc 16)).fault
          = true)) ∧
    (∀ msg s c, runBody be seed st ctx count = Body.raised msg s c →
      ∃ fn, st.instHooks.lookup ctx.cpu.pc = some fn ∧
        (fn ctx).1 = cb_state_e.PLT_CONTINUE ∧
        asmret be (st.log (Event.hook ctx.cpu.pc cb_state_e.PLT_CONTINUE)) (fn ctx).2
          = .error msg) := by
  have hgo : ∀ s c c1 p n, runBody be seed st ctx count = Body.cont s c c1 p →
      runLoop be seed (n + 1) st ctx count =
        if ctx.cpu.pc = 0 then Outcome.done (s, c) else runLoop be seed n s c c1 := by
    intro s c c1 p n h
    obtain ⟨hp, hc, _, _⟩ := runBody_cont be seed st ctx count s c c1 p h
    rw [runLoop_succ, h]
    simp only [hc, he, hp]
    by_cases h0 : ctx.cpu.pc = 0
    · simp [h0]
    · have : (0 : Nat) ≠ ctx.cpu.pc := fun e => h0 e.symm
      simp [h0, this]
  refine ⟨fun h0 n => ?_, fun h0 hd => ⟨fun hl => ?_, fun hl fn hh => ?_, fun hl hh => ?_⟩,
    hgo, fun s c h => ?_, fun msg s c h => (runBody_raised_cause be seed st ctx count msg s c h).2⟩
  · cases hb : runBody be seed st ctx count with
    | stop s c =>
      rw [runLoop_succ, hb]
      exact ⟨rfl, fun a h => by simp at h⟩
    | raised msg s c =>
      rw [runLoop_succ, hb]
      exact ⟨rfl, fun a h => by simp at h⟩
    | cont s c c1 p =>
      rw [hgo s c c1 p n hb, if_pos h0]
      exact ⟨rfl, fun a h => by simp at h⟩
  · exact runBody_limit be seed st ctx count hl
  · rw [runBody_hooked be seed st ctx count fn hl hh]
    cases hs : (fn ctx).1 with
    | CONTINUE =>
      simp only [Body.explorator]
      exact ⟨⟨[], by simp [Explorator.log, h0]⟩, fetchLog_log_hook st _ _,
        (quiet_log_hook st _ _).2.1⟩
    | BREAK =>
      simp only [Body.explorator]
      exact ⟨⟨[], by simp [Explorator.log, h0]⟩, fetchLog_log_hook st _ _,
        (quiet_log_hook st _ _).2.1⟩
    | PLT_CONTINUE =>
      simp only
      cases ha : asmret be (st.log (Event.hook ctx.cpu.pc cb_state_e.PLT_CONTINUE))
          (fn ctx).2 with
      | error msg =>
        simp only [Body.explorator]
        exact ⟨⟨[], by simp [Explorator.log, h0]⟩, fetchLog_log_hook st _ _,
          (quiet_log_hook st _ _).2.1⟩
      | ok r =>
        obtain ⟨st2, ctx2⟩ := r
        have h2 := asmret_ok _ _ _ _ _ ha
        simp only [Body.explorator]
        rw [h2]
        exact ⟨⟨[Event.ret], by simp [Explorator.log, h0]⟩,
          by rw [fetchLog_log_ret, fetchLog_log_hook],
          by rw [(quiet_log_ret _).2.1, (quiet_log_hook st _ _).2.1]⟩
  · have hc : ¬ ((st.config.end_point ≠ 0 ∧ ctx.cpu.pc = 0) ∨
        ctx.isConcreteMemoryValueDefined ctx.cpu.pc = false) := by
      rw [hd, he]; simp
    cases hf : (be.processing ctx ctx.cpu.pc
        (ctx.getConcreteMemoryAreaValue ctx.cpu.pc 16)).fault with
    | true =>
      rw [runBody_faulted be seed st ctx count hl hh hc hf]
      refine ⟨?_, fun _ => ?_, fun h => by simp at h⟩
      · simp [Body.explorator, writeSeedOnDisk, Explorator.log, fetchLog_append, fetchLog, h0]
      · simp [Body.explorator, writeSeedOnDisk, Explorator.log, h0]
    | false =>
      rw [runBody_processed be seed st ctx count hl hh hc hf]
      refine ⟨?_, fun h => by simp at h, fun _ => ⟨⟨_, _, by rw [h0]⟩, ?_⟩⟩
      · simp only [Body.explorator]
        rw [solverOnly_fetchLog (symbolizeEffectiveAddress_solverOnly be _ _ _),
          fetchLog_log_fetch, h0]
      · simp only [Body.explorator]
        rw [(solverOnly_quiet (symbolizeEffectiveAddress_solverOnly be _ _ _)).2.1,
          (quiet_log_fetch st _ _).2.1]
  · rcases runBody_stop_cause be seed st ctx count s c h with h1 | h1 | h1 | h1
    · exact Or.inl h1
    · exact Or.inr (Or.inl h1)
    · refine Or.inr (Or.inr (Or.inl ⟨h1.1, ?_⟩))
      rcases h1.2 with h2 | h2
      · exact absurd he h2.1
      · exact h2
    · exact Or.inr (Or.inr (Or.inr h1))

/-- C18, amended, on a memory defined everywhere with no hook and no limit:
the pass at program counter 0 fetches the instruction at 0 and is the last
pass of the loop. -/
theorem zero_end_point_steps_witness :
    (runLoop stepBackend [] 5 zeroExplorator zeroContext 0).val
      = ((runBody stepBackend [] zeroExplorator zeroContext 0).explorator,
          (runBody stepBackend [] zeroExplorator zeroContext 0).context) ∧
    fetchLog (runBody stepBackend [] zeroExplorator zeroContext 0).explorator.trace
      = [(0, false)] :=
  ⟨((zero_end_point_steps stepBackend [] zeroExplorator zeroContext 0 rfl).1 rfl 4).1,
    (((zero_end_point_steps stepBackend [] zeroExplorator zeroContext 0 rfl).2.1 rfl rfl).2.2
      (by decide) rfl).1⟩

end TTExplore
